import Mathlib

/-!
# ActiveMQ-CPP: transport registry, OpenWire marshalling, state records and URI helper

A shallow embedding of

* `activemq/transport/TransportRegistry.cpp` (the scheme name to factory registry),
* `activemq/connector/openwire/marshal/v3/NetworkBridgeFilterMarshaller.cpp`
  (tight and loose marshalling of `NetworkBridgeFilter`),
* `decaf/net/SocketException.h` and `activemq/state/ConsumerState.h`,
* the connection state tracker, as the spec describes it, and
* `decaf/internal/net/URIHelper.cpp` (validation of URI authorities and hosts),

followed by the properties established for them.

Conventions of the embedding:

* a member function of the registry returns its outcome as an `Except` value paired with
  the state of the registry after the call, so that "fails and leaves the registry
  unchanged" is a statement about the pair;
* an operation of the marshaller either throws or returns its result together with the
  wire format, the streams and the object as the call leaves them;
* a pointer is a natural number, `NULL` being `0`;
* the C++ type `int` is an `Int` kept in the 32-bit range with `wrapInt32`.
-/

set_option autoImplicit false

deriving instance DecidableEq for Except

/-! ## Exceptions -/

/-- The exception classes thrown by the embedded code. -/
inductive Exception where
  | NoSuchElementException
  | IllegalArgumentException
  | NullPointerException
  | IOException
  | ActiveMQException
  | Unknown
  deriving DecidableEq, Repr

/-! ## TransportRegistry -/

/-- A `TransportFactory*`: the address of a factory object, or `NULL`. -/
abbrev TransportFactoryPtr := Nat

/-- The null pointer. -/
def NULL : Nat := 0

/-- Modelled from the spec: the container behind `TransportRegistry::registry` (declared in
`TransportRegistry.h`, a `decaf::util` map over `std::map`; neither file is among the
sources). The spec calls it "a mapping from URI scheme name to TransportFactory"; it is
kept as the list of its entries in iteration order. -/
abbrev StlMap := List (String × TransportFactoryPtr)

namespace StlMap

/-- Whether `key` has an entry. -/
def containsKey (m : StlMap) (key : String) : Bool :=
  m.any (fun e => e.1 == key)

/-- The value stored for `key`; throws `NoSuchElementException` when there is none. -/
def getValue (m : StlMap) (key : String) : Except Exception TransportFactoryPtr :=
  match m.find? (fun e => e.1 == key) with
  | some e => .ok e.2
  | none => .error .NoSuchElementException

/-- The assignment `valueMap[key] = value`: replaces the value of an existing entry,
and otherwise inserts a new entry at its place in key order. -/
def setValue : StlMap → String → TransportFactoryPtr → StlMap
  | [], key, value => [(key, value)]
  | (k, v) :: rest, key, value =>
    if key = k then (key, value) :: rest
    else if key < k then (key, value) :: (k, v) :: rest
    else (k, v) :: setValue rest key value

/-- Erases the entry of `key`, if any. -/
def remove (m : StlMap) (key : String) : StlMap :=
  m.filter (fun e => e.1 != key)

/-- The keys, in iteration order. -/
def getKeys (m : StlMap) : List String :=
  m.map (fun e => e.1)

/-- The values, in iteration order. -/
def getValues (m : StlMap) : List TransportFactoryPtr :=
  m.map (fun e => e.2)

end StlMap

/-- The state of a `TransportRegistry`: its `registry` member, together with the
factories that have been destroyed with `delete` so far (most recent first). -/
structure TransportRegistry where
  registry : StlMap
  deleted : List TransportFactoryPtr
  deriving DecidableEq, Repr

namespace TransportRegistry

/-- The constructor: `TransportRegistry::TransportRegistry()`. -/
def empty : TransportRegistry := { registry := [], deleted := [] }

/-- The member function `TransportRegistry::findFactory` (a `const` member). -/
def findFactory (r : TransportRegistry) (name : String) :
    Except Exception TransportFactoryPtr × TransportRegistry :=
  if !r.registry.containsKey name then
    (.error .NoSuchElementException, r)
  else
    (r.registry.getValue name, r)

/-- The member function `TransportRegistry::registerFactory`. -/
def registerFactory (r : TransportRegistry) (name : String) (factory : TransportFactoryPtr) :
    Except Exception Unit × TransportRegistry :=
  if name = "" then
    (.error .IllegalArgumentException, r)
  else if factory = NULL then
    (.error .NullPointerException, r)
  else
    (.ok (), { r with registry := r.registry.setValue name factory })

/-- The member function `TransportRegistry::unregisterFactory`. -/
def unregisterFactory (r : TransportRegistry) (name : String) :
    Except Exception Unit × TransportRegistry :=
  if r.registry.containsKey name then
    match r.registry.getValue name with
    | .ok factory =>
      (.ok (), { registry := r.registry.remove name, deleted := factory :: r.deleted })
    | .error e => (.error e, r)
  else
    (.ok (), r)

/-- The member function `TransportRegistry::getTransportNames` (a `const` member). -/
def getTransportNames (r : TransportRegistry) : List String :=
  r.registry.getKeys

/-- The destructor `TransportRegistry::~TransportRegistry`: destroys every registered
factory and clears the map. -/
def destroy (r : TransportRegistry) : TransportRegistry :=
  { registry := [], deleted := r.registry.getValues.reverse ++ r.deleted }

/-- A call of one of the two member functions that change the registry. -/
inductive Call where
  | registerFactory (name : String) (factory : TransportFactoryPtr)
  | unregisterFactory (name : String)
  deriving DecidableEq, Repr

/-- The registry after a call, whether the call returned or threw. -/
def afterCall (r : TransportRegistry) : Call → TransportRegistry
  | .registerFactory name factory => (r.registerFactory name factory).2
  | .unregisterFactory name => (r.unregisterFactory name).2

/-- The registry reached from the empty one by a sequence of calls, first call first. -/
def afterCalls (calls : List Call) : TransportRegistry :=
  calls.foldl afterCall empty

end TransportRegistry

/-! ## Streams -/

/-- One octet of a data stream. -/
abbrev Byte := Fin 256

/-- The octet with value `n mod 256`. -/
def byteOfNat (n : Nat) : Byte := ⟨n % 256, Nat.mod_lt n (by decide)⟩

/-- Brings an integer into the range of the C++ type `int` (32 bits, two's complement). -/
def wrapInt32 (v : Int) : Int := (v + 2147483648) % 4294967296 - 2147483648

/-- Modelled from the spec: `BooleanStream` (section 4.1; its source is not among the
sources at hand): "ordered sequence of bits", where `writeBoolean` "appends one bit" and
`readBoolean` "consumes the next bit in write order". `bits` are the bits written so far
and `pos` is the number of bits already consumed. -/
structure BooleanStream where
  bits : List Bool
  pos : Nat
  deriving DecidableEq, Repr

namespace BooleanStream

/-- A new, empty stream. -/
def empty : BooleanStream := { bits := [], pos := 0 }

/-- Appends one bit. -/
def writeBoolean (bs : BooleanStream) (value : Bool) : BooleanStream :=
  { bs with bits := bs.bits ++ [value] }

/-- Consumes the next bit in write order; a framing error beyond the available bits. -/
def readBoolean (bs : BooleanStream) : Except Exception (Bool × BooleanStream) :=
  match bs.bits.drop bs.pos with
  | b :: _ => .ok (b, { bs with pos := bs.pos + 1 })
  | [] => .error .IOException

end BooleanStream

/-- Modelled from the spec: `decaf::io::DataOutputStream` (not among the sources at hand),
as the octets written so far. -/
abbrev DataOutputStream := List Byte

/-- Modelled from the spec: `decaf::io::DataInputStream` (not among the sources at hand),
as the octets not yet read. -/
abbrev DataInputStream := List Byte

/-- The four octets of an `int`, most significant first. -/
def int32Bytes (v : Int) : List Byte :=
  let u := (v % 4294967296).toNat
  [byteOfNat (u / 16777216), byteOfNat (u / 65536), byteOfNat (u / 256), byteOfNat u]

/-- Modelled from the spec: `DataOutputStream::writeInt`, writing an `int` as four octets. -/
def DataOutputStream.writeInt (out : DataOutputStream) (v : Int) : DataOutputStream :=
  out ++ int32Bytes v

/-- Modelled from the spec: `DataInputStream::readInt`, reading four octets as an `int`;
an `IOException` when fewer than four are left. -/
def DataInputStream.readInt (dataIn : DataInputStream) : Except Exception (Int × DataInputStream) :=
  match dataIn with
  | b0 :: b1 :: b2 :: b3 :: rest =>
    .ok (wrapInt32 (b0.val * 16777216 + b1.val * 65536 + b2.val * 256 + b3.val : Nat), rest)
  | _ => .error .IOException

/-! ## NetworkBridgeFilter and its marshaller -/

/-- Modelled from the spec: the command object `BrokerId`, one of the cacheable
"broker/destination identifiers" (its declaration is not among the sources at hand), as
the identifier string it carries. -/
structure BrokerId where
  value : String
  deriving DecidableEq, Repr

/-- What a non-null `DataStructure*` may point to, as far as the marshaller can tell
with `dynamic_cast`: a `BrokerId`, or an object of another type. -/
inductive DataStructure where
  | brokerId (id : BrokerId)
  | other (dataStructureType : Nat)
  deriving DecidableEq, Repr

/-- The conversion `dynamic_cast< BrokerId* >( p )` of a `DataStructure*` (`none` is
`NULL`): null unless `p` points to a `BrokerId`. -/
def dynamicCastBrokerId : Option DataStructure → Option BrokerId
  | some (.brokerId id) => some id
  | _ => none

/-- The implicit conversion of a `BrokerId*` to a `DataStructure*`. -/
def upcastBrokerId : Option BrokerId → Option DataStructure
  | some id => some (.brokerId id)
  | none => none

/-- The command object `NetworkBridgeFilter`, as the marshaller sees it through its
accessors: the fields `base` it inherits from its base class (of a type `β` left open),
`networkTTL` (an `int`, written with `writeInt`) and `networkBrokerId` (a `BrokerId*`,
`none` being `NULL`). -/
structure NetworkBridgeFilter (β : Type) where
  base : β
  networkTTL : Int
  networkBrokerId : Option BrokerId
  deriving DecidableEq, Repr

/-- The operations `NetworkBridgeFilterMarshaller` inherits from `BaseDataStreamMarshaller`
and calls. Their code is not among the sources at hand, so they are parameters. `W` is the
state of the `OpenWireFormat` they receive by pointer and may update; the base-class
operations act on the base-class fields `β` of the object. A call either throws or returns
its result with the wire format and the streams as it leaves them. -/
structure BaseDataStreamMarshaller (W β : Type) where
  tightUnmarshal : W → β → DataInputStream → BooleanStream →
    Except Exception (β × W × DataInputStream × BooleanStream)
  tightMarshal1 : W → β → BooleanStream → Except Exception (Int × W × BooleanStream)
  tightMarshal2 : W → β → DataOutputStream → BooleanStream →
    Except Exception (W × DataOutputStream × BooleanStream)
  looseUnmarshal : W → β → DataInputStream → Except Exception (β × W × DataInputStream)
  looseMarshal : W → β → DataOutputStream → Except Exception (W × DataOutputStream)
  tightUnmarshalCachedObject : W → DataInputStream → BooleanStream →
    Except Exception (Option DataStructure × W × DataInputStream × BooleanStream)
  tightMarshalCachedObject1 : W → Option DataStructure → BooleanStream →
    Except Exception (Int × W × BooleanStream)
  tightMarshalCachedObject2 : W → Option DataStructure → DataOutputStream → BooleanStream →
    Except Exception (W × DataOutputStream × BooleanStream)
  looseUnmarshalCachedObject : W → DataInputStream →
    Except Exception (Option DataStructure × W × DataInputStream)
  looseMarshalCachedObject : W → Option DataStructure → DataOutputStream →
    Except Exception (W × DataOutputStream)

/-- The handlers closing every operation of the marshaller:
`AMQ_CATCH_RETHROW( IOException )`, `AMQ_CATCH_EXCEPTION_CONVERT( ActiveMQException,
IOException )` and `AMQ_CATCHALL_THROW( IOException )`. -/
def catchAsIOException {α : Type} (r : Except Exception α) : Except Exception α :=
  match r with
  | .ok a => .ok a
  | .error .IOException => .error .IOException
  | .error .ActiveMQException => .error .IOException
  | .error _ => .error .IOException

namespace NetworkBridgeFilterMarshaller

variable {W β : Type}

/-- The member function `NetworkBridgeFilterMarshaller::tightUnmarshal`. -/
def tightUnmarshal (m : BaseDataStreamMarshaller W β) (wireFormat : W)
    (info : NetworkBridgeFilter β) (dataIn : DataInputStream) (bs : BooleanStream) :
    Except Exception (NetworkBridgeFilter β × W × DataInputStream × BooleanStream) :=
  catchAsIOException do
    let (base, wireFormat, dataIn, bs) ← m.tightUnmarshal wireFormat info.base dataIn bs
    let info := { info with base := base }
    let (ttl, dataIn) ← dataIn.readInt
    let info := { info with networkTTL := ttl }
    let (obj, wireFormat, dataIn, bs) ← m.tightUnmarshalCachedObject wireFormat dataIn bs
    let info := { info with networkBrokerId := dynamicCastBrokerId obj }
    pure (info, wireFormat, dataIn, bs)

/-- The member function `NetworkBridgeFilterMarshaller::tightMarshal1`. -/
def tightMarshal1 (m : BaseDataStreamMarshaller W β) (wireFormat : W)
    (info : NetworkBridgeFilter β) (bs : BooleanStream) :
    Except Exception (Int × W × BooleanStream) :=
  catchAsIOException do
    let (rc, wireFormat, bs) ← m.tightMarshal1 wireFormat info.base bs
    let (n, wireFormat, bs) ←
      m.tightMarshalCachedObject1 wireFormat (upcastBrokerId info.networkBrokerId) bs
    let rc := wrapInt32 (rc + n)
    pure (wrapInt32 (rc + 4), wireFormat, bs)

/-- The member function `NetworkBridgeFilterMarshaller::tightMarshal2`. -/
def tightMarshal2 (m : BaseDataStreamMarshaller W β) (wireFormat : W)
    (info : NetworkBridgeFilter β) (dataOut : DataOutputStream) (bs : BooleanStream) :
    Except Exception (W × DataOutputStream × BooleanStream) :=
  catchAsIOException do
    let (wireFormat, dataOut, bs) ← m.tightMarshal2 wireFormat info.base dataOut bs
    let dataOut := dataOut.writeInt info.networkTTL
    m.tightMarshalCachedObject2 wireFormat (upcastBrokerId info.networkBrokerId) dataOut bs

/-- The member function `NetworkBridgeFilterMarshaller::looseUnmarshal`. -/
def looseUnmarshal (m : BaseDataStreamMarshaller W β) (wireFormat : W)
    (info : NetworkBridgeFilter β) (dataIn : DataInputStream) :
    Except Exception (NetworkBridgeFilter β × W × DataInputStream) :=
  catchAsIOException do
    let (base, wireFormat, dataIn) ← m.looseUnmarshal wireFormat info.base dataIn
    let info := { info with base := base }
    let (ttl, dataIn) ← dataIn.readInt
    let info := { info with networkTTL := ttl }
    let (obj, wireFormat, dataIn) ← m.looseUnmarshalCachedObject wireFormat dataIn
    let info := { info with networkBrokerId := dynamicCastBrokerId obj }
    pure (info, wireFormat, dataIn)

/-- The member function `NetworkBridgeFilterMarshaller::looseMarshal`. -/
def looseMarshal (m : BaseDataStreamMarshaller W β) (wireFormat : W)
    (info : NetworkBridgeFilter β) (dataOut : DataOutputStream) :
    Except Exception (W × DataOutputStream) :=
  catchAsIOException do
    let (wireFormat, dataOut) ← m.looseMarshal wireFormat info.base dataOut
    let dataOut := dataOut.writeInt info.networkTTL
    m.looseMarshalCachedObject wireFormat (upcastBrokerId info.networkBrokerId) dataOut

end NetworkBridgeFilterMarshaller

/-! ## Round-trip contracts for the inherited operations

The inherited operations are parameters, so what is known about them is stated as a
contract, for one value at a time: the value has a wire image (bits in the boolean stream,
octets in the data stream) that the marshalling operation produces and from which the
unmarshalling operation rebuilds the value, whatever the state of the wire format and
whatever surrounds the image in the streams. -/

section Contracts

variable {W β : Type}

/-- The base-class operations round-trip the base fields `b` in tight mode: phase 1 returns
`n` and appends `bits`; phase 2 consumes `bits` and writes `bytes`; `tightUnmarshal`
consumes `bits` and `bytes` and yields `b`. -/
def BaseTightRoundTrip (m : BaseDataStreamMarshaller W β) (b : β) (n : Int)
    (bits : List Bool) (bytes : List Byte) : Prop :=
  (∀ wf bs, ∃ wf1, m.tightMarshal1 wf b bs = .ok (n, wf1, { bs with bits := bs.bits ++ bits })) ∧
  (∀ wf out pre post, ∃ wf1,
    m.tightMarshal2 wf b out { bits := pre ++ bits ++ post, pos := pre.length } =
      .ok (wf1, out ++ bytes,
        { bits := pre ++ bits ++ post, pos := pre.length + bits.length })) ∧
  (∀ wf b0 rest pre post, ∃ wf1,
    m.tightUnmarshal wf b0 (bytes ++ rest) { bits := pre ++ bits ++ post, pos := pre.length } =
      .ok (b, wf1, rest, { bits := pre ++ bits ++ post, pos := pre.length + bits.length }))

/-- The cached-object operations round-trip the object pointer `o` in tight mode: phase 1
returns `n` and appends `bits`; phase 2 consumes `bits` and writes `bytes`;
`tightUnmarshalCachedObject` consumes `bits` and `bytes` and yields `o`. -/
def CachedTightRoundTrip (m : BaseDataStreamMarshaller W β) (o : Option DataStructure)
    (n : Int) (bits : List Bool) (bytes : List Byte) : Prop :=
  (∀ wf bs, ∃ wf1,
    m.tightMarshalCachedObject1 wf o bs = .ok (n, wf1, { bs with bits := bs.bits ++ bits })) ∧
  (∀ wf out pre post, ∃ wf1,
    m.tightMarshalCachedObject2 wf o out { bits := pre ++ bits ++ post, pos := pre.length } =
      .ok (wf1, out ++ bytes,
        { bits := pre ++ bits ++ post, pos := pre.length + bits.length })) ∧
  (∀ wf rest pre post, ∃ wf1,
    m.tightUnmarshalCachedObject wf (bytes ++ rest)
        { bits := pre ++ bits ++ post, pos := pre.length } =
      .ok (o, wf1, rest, { bits := pre ++ bits ++ post, pos := pre.length + bits.length }))

/-- The base-class operations round-trip the base fields `b` in loose mode: `looseMarshal`
writes `bytes`, from which `looseUnmarshal` yields `b`. -/
def BaseLooseRoundTrip (m : BaseDataStreamMarshaller W β) (b : β) (bytes : List Byte) : Prop :=
  (∀ wf out, ∃ wf1, m.looseMarshal wf b out = .ok (wf1, out ++ bytes)) ∧
  (∀ wf b0 rest, ∃ wf1, m.looseUnmarshal wf b0 (bytes ++ rest) = .ok (b, wf1, rest))

/-- The cached-object operations round-trip the object pointer `o` in loose mode:
`looseMarshalCachedObject` writes `bytes`, from which `looseUnmarshalCachedObject`
yields `o`. -/
def CachedLooseRoundTrip (m : BaseDataStreamMarshaller W β) (o : Option DataStructure)
    (bytes : List Byte) : Prop :=
  (∀ wf out, ∃ wf1, m.looseMarshalCachedObject wf o out = .ok (wf1, out ++ bytes)) ∧
  (∀ wf rest, ∃ wf1, m.looseUnmarshalCachedObject wf (bytes ++ rest) = .ok (o, wf1, rest))

end Contracts

/-! ## A sample of inherited operations

A small concrete `BaseDataStreamMarshaller`, on which the contracts can be checked: one
base-class field of one octet, and nested objects written after a presence flag. Its wire
format state counts the calls made. -/

namespace Sample

/-- The octets of a nested object: a tag, then the type code or the length-prefixed
characters of the broker id. -/
def encode : DataStructure → List Byte
  | .other t => [0, byteOfNat t]
  | .brokerId id => 1 :: byteOfNat id.value.length :: id.value.toList.map (fun c => byteOfNat c.toNat)

/-- Reads back what `encode` wrote. -/
def decode : DataInputStream → Except Exception (DataStructure × DataInputStream)
  | 0 :: t :: rest => .ok (.other t.val, rest)
  | 1 :: n :: rest =>
    if rest.length < n.val then .error .IOException
    else .ok (.brokerId ⟨String.mk ((rest.take n.val).map (fun c => Char.ofNat c.val))⟩,
      rest.drop n.val)
  | _ => .error .IOException

/-- The sample operations. -/
def marshaller : BaseDataStreamMarshaller Nat Byte where
  tightUnmarshal := fun wf _ dataIn bs =>
    match dataIn with
    | b :: rest => .ok (b, wf + 1, rest, bs)
    | [] => .error .IOException
  tightMarshal1 := fun wf _ bs => .ok (1, wf + 1, bs)
  tightMarshal2 := fun wf b dataOut bs => .ok (wf + 1, dataOut ++ [b], bs)
  looseUnmarshal := fun wf _ dataIn =>
    match dataIn with
    | b :: rest => .ok (b, wf + 1, rest)
    | [] => .error .IOException
  looseMarshal := fun wf b dataOut => .ok (wf + 1, dataOut ++ [b])
  tightUnmarshalCachedObject := fun wf dataIn bs => do
    let (present, bs) ← bs.readBoolean
    if present then
      let (d, dataIn) ← decode dataIn
      pure (some d, wf + 1, dataIn, bs)
    else
      pure (none, wf + 1, dataIn, bs)
  tightMarshalCachedObject1 := fun wf o bs =>
    match o with
    | some d => .ok ((encode d).length, wf + 1, bs.writeBoolean true)
    | none => .ok (0, wf + 1, bs.writeBoolean false)
  tightMarshalCachedObject2 := fun wf o dataOut bs => do
    let (present, bs) ← bs.readBoolean
    match present, o with
    | true, some d => pure (wf + 1, dataOut ++ encode d, bs)
    | _, _ => pure (wf + 1, dataOut, bs)
  looseUnmarshalCachedObject := fun wf dataIn =>
    match dataIn with
    | 0 :: rest => .ok (none, wf + 1, rest)
    | 1 :: rest => do
      let (d, dataIn) ← decode rest
      pure (some d, wf + 1, dataIn)
    | _ => .error .IOException
  looseMarshalCachedObject := fun wf o dataOut =>
    match o with
    | some d => .ok (wf + 1, dataOut ++ 1 :: encode d)
    | none => .ok (wf + 1, dataOut ++ [0])

/-- A filter with every field set: base field `7`, TTL `-3`, broker id "b1". -/
def filter : NetworkBridgeFilter Byte :=
  { base := 7, networkTTL := -3, networkBrokerId := some ⟨"b1"⟩ }

/-- The octets `encode` gives the broker id "b1". -/
def idBytes : List Byte := [1, 2, 98, 49]

end Sample

/-! ## An absent cached field -/

/-- Modelled from the spec: what the cached-object operations (not among the sources at
hand) do with a null pointer. A cached field is announced by "a presence bit" in the
boolean stream, and for an absent field there are "no field bytes emitted": phase 1
returns `0` and writes the presence bit `false`, phase 2 consumes that bit and writes
nothing, and unmarshalling, on that bit, yields the null pointer. -/
def CachedAbsent {W β : Type} (m : BaseDataStreamMarshaller W β) : Prop :=
  CachedTightRoundTrip m none 0 [false] []

/-- The sample filter without a broker id: base field `7`, TTL `-3`. -/
def Sample.bareFilter : NetworkBridgeFilter Byte :=
  { base := 7, networkTTL := -3, networkBrokerId := none }

/-! ## SocketException -/

/-- The state an exception inherits from `decaf::lang::Exception`, as the constructors of
`SocketException` set it: the message built by `buildMessage` and the marks
(file and line number) recorded by `setMark`. -/
structure LangException where
  message : String
  stackTrace : List (String × Int)
  deriving DecidableEq, Repr

/-- What `SocketException` uses of its base classes and does not define itself (their code
is not among the sources at hand): the state left by the default constructor
`io::IOException()` and the assignment `operator=` of `lang::Exception`, which maps the
target and the right-hand side to the target after the assignment. -/
structure ExceptionBase where
  defaultConstructed : LangException
  assign : LangException → LangException → LangException

/-- A `SocketException`; it adds no member to its base classes. -/
structure SocketException where
  base : LangException
  deriving DecidableEq, Repr

namespace SocketException

/-- The copy constructor `SocketException( const SocketException& ex )`: the base classes
are default-constructed, then `*(lang::Exception*)this = ex`. -/
def copy (b : ExceptionBase) (ex : SocketException) : SocketException :=
  { base := b.assign b.defaultConstructed ex.base }

/-- The member function `SocketException::clone` (a `const` member): the exception
allocated by `new SocketException( *this )`, paired with `*this` after the call. -/
def clone (b : ExceptionBase) (self : SocketException) : SocketException × SocketException :=
  (copy b self, self)

end SocketException

/-- The base classes with a memberwise assignment, for illustration. -/
def Sample.exceptionBase : ExceptionBase :=
  { defaultConstructed := { message := "", stackTrace := [] },
    assign := fun _ ex => ex }

/-! ## ConsumerState -/

/-- Modelled from the spec: the command object `ConsumerInfo` (declared outside the sources
at hand), the "defining info object" of a consumer, with "the identifier embedded" in it:
the connection, the session within it and the consumer within that; `detail` stands for
its other fields. -/
structure ConsumerInfo where
  connectionId : Nat
  sessionId : Nat
  consumerId : Nat
  detail : Nat
  deriving DecidableEq, Repr

/-- The class `ConsumerState`: its only member, `std::auto_ptr<ConsumerInfo> info`
(`none` is a null pointer). -/
structure ConsumerState where
  info : Option ConsumerInfo
  deriving DecidableEq, Repr

namespace ConsumerState

/-- The member function `ConsumerState::getInfo` (a `const` member): `info.get()`, paired
with the state after the call. -/
def getInfo (self : ConsumerState) : Option ConsumerInfo × ConsumerState :=
  (self.info, self)

end ConsumerState

/-! ## ConnectionStateTracker -/

/-- Modelled from the spec: the defining info object of a connection. -/
structure ConnectionInfo where
  connectionId : Nat
  detail : Nat
  deriving DecidableEq, Repr

/-- Modelled from the spec: the defining info object of a session. -/
structure SessionInfo where
  connectionId : Nat
  sessionId : Nat
  detail : Nat
  deriving DecidableEq, Repr

/-- Modelled from the spec: the defining info object of a producer. -/
structure ProducerInfo where
  connectionId : Nat
  sessionId : Nat
  producerId : Nat
  detail : Nat
  deriving DecidableEq, Repr

/-- Modelled from the spec: the defining info object of a transaction. -/
structure TransactionInfo where
  connectionId : Nat
  transactionId : Nat
  detail : Nat
  deriving DecidableEq, Repr

/-- Modelled from the spec: the commands the tracker sees (section 4.5): creation commands,
destruction commands, the end of a transaction (commit or rollback), and every other
command. -/
inductive Command where
  | connectionInfo (info : ConnectionInfo)
  | sessionInfo (info : SessionInfo)
  | consumerInfo (info : ConsumerInfo)
  | producerInfo (info : ProducerInfo)
  | transactionBegin (info : TransactionInfo)
  | transactionEnd (connectionId transactionId : Nat)
  | removeConnection (connectionId : Nat)
  | removeSession (connectionId sessionId : Nat)
  | removeConsumer (connectionId sessionId consumerId : Nat)
  | removeProducer (connectionId sessionId producerId : Nat)
  | other (tag : Nat)
  deriving DecidableEq, Repr

/-- Modelled from the spec: `ProducerState` wraps its defining info object. -/
structure ProducerState where
  info : ProducerInfo
  deriving DecidableEq, Repr

/-- Modelled from the spec: `TransactionState` wraps its defining info object. -/
structure TransactionState where
  info : TransactionInfo
  deriving DecidableEq, Repr

/-- Modelled from the spec: `SessionState` (section 3) "owns mappings from consumer-id to
ConsumerState, producer-id to ProducerState"; each mapping is kept as the list of its
values in insertion order. -/
structure SessionState where
  info : SessionInfo
  consumers : List ConsumerState
  producers : List ProducerState
  deriving DecidableEq, Repr

/-- Modelled from the spec: `ConnectionState` (section 3) owns "a mapping from session-id
to SessionState, and the connection's defining ConnectionInfo", and its transactions. -/
structure ConnectionState where
  info : ConnectionInfo
  sessions : List SessionState
  transactions : List TransactionState
  deriving DecidableEq, Repr

/-- Modelled from the spec: `ConnectionStateTracker` (section 4.5; its code is not among
the sources at hand), "the authoritative set of State records". -/
structure ConnectionStateTracker where
  connections : List ConnectionState
  deriving DecidableEq, Repr

namespace ConnectionStateTracker

/-- Modelled from the spec: "duplicate registration for the same identifier must
overwrite, never duplicate, the mapping entry": the entry with the key of `x` is replaced
where it stands, and a new key is added after the others (insertion order). -/
def upsert {α : Type} (key : α → Nat) (x : α) : List α → List α
  | [] => [x]
  | y :: rest => if key y = key x then x :: rest else y :: upsert key x rest

/-- Applies `f` to the entry with key `k`, if there is one. -/
def update {α : Type} (key : α → Nat) (k : Nat) (f : α → α) (l : List α) : List α :=
  l.map (fun y => if key y = k then f y else y)

/-- Removes the entry with key `k`, if there is one. -/
def erase {α : Type} (key : α → Nat) (k : Nat) (l : List α) : List α :=
  l.filter (fun y => key y != k)

/-- The key of a consumer entry: the identifier in its info object. -/
def consumerKey (s : ConsumerState) : Nat :=
  match s.info with
  | some i => i.consumerId
  | none => 0

/-- A tracker without any state. -/
def empty : ConnectionStateTracker := { connections := [] }

/-- Applies `f` to the state of session `sid` of connection `cid`, if both exist. -/
def updateSession (t : ConnectionStateTracker) (cid sid : Nat)
    (f : SessionState → SessionState) : ConnectionStateTracker :=
  { connections := (update (fun c => c.info.connectionId) cid
      (fun c => { c with sessions := update (fun s => s.info.sessionId) sid f c.sessions })
      t.connections) }

/-- Applies `f` to the state of connection `cid`, if it exists. -/
def updateConnection (t : ConnectionStateTracker) (cid : Nat)
    (f : ConnectionState → ConnectionState) : ConnectionStateTracker :=
  { connections := update (fun c => c.info.connectionId) cid f t.connections }

/-- Modelled from the spec: `track(command)` (section 4.5). "For creation commands ... it
inserts or overwrites the corresponding State entry. For destruction commands it removes
the entry and cascades removal to children ... For all other commands it is a
pass-through", a transaction being removed when it ends. -/
def track (t : ConnectionStateTracker) : Command → ConnectionStateTracker
  | .connectionInfo info =>
    { connections := (upsert (fun c => c.info.connectionId)
        { info := info, sessions := [], transactions := [] } t.connections) }
  | .sessionInfo info =>
    t.updateConnection info.connectionId (fun c =>
      { c with sessions := (upsert (fun s => s.info.sessionId)
          { info := info, consumers := [], producers := [] } c.sessions) })
  | .consumerInfo info =>
    t.updateSession info.connectionId info.sessionId (fun s =>
      { s with consumers := upsert consumerKey { info := some info } s.consumers })
  | .producerInfo info =>
    t.updateSession info.connectionId info.sessionId (fun s =>
      { s with producers := upsert (fun p => p.info.producerId) { info := info } s.producers })
  | .transactionBegin info =>
    t.updateConnection info.connectionId (fun c =>
      { c with transactions := (upsert (fun x => x.info.transactionId) { info := info }
          c.transactions) })
  | .transactionEnd cid xid =>
    t.updateConnection cid (fun c =>
      { c with transactions := erase (fun x => x.info.transactionId) xid c.transactions })
  | .removeConnection cid =>
    { connections := erase (fun c => c.info.connectionId) cid t.connections }
  | .removeSession cid sid =>
    t.updateConnection cid (fun c =>
      { c with sessions := erase (fun s => s.info.sessionId) sid c.sessions })
  | .removeConsumer cid sid kid =>
    t.updateSession cid sid (fun s => { s with consumers := erase consumerKey kid s.consumers })
  | .removeProducer cid sid pid =>
    t.updateSession cid sid (fun s =>
      { s with producers := erase (fun p => p.info.producerId) pid s.producers })
  | .other _ => t

/-- The commands replayed for one consumer entry. -/
def restoreConsumer (s : ConsumerState) : List Command :=
  match s.info with
  | some i => [.consumerInfo i]
  | none => []

/-- The commands replayed for one session: "the session-info, then for each
consumer/producer under that session their info commands". -/
def restoreSession (s : SessionState) : List Command :=
  .sessionInfo s.info ::
    (s.consumers.flatMap restoreConsumer ++ s.producers.map (fun p => .producerInfo p.info))

/-- The commands replayed for one connection: "the connection-info, then for each session
the session-info, ..., then re-starts any in-doubt transactions". -/
def restoreConnection (c : ConnectionState) : List Command :=
  .connectionInfo c.info ::
    (c.sessions.flatMap restoreSession ++
      c.transactions.map (fun x => .transactionBegin x.info))

/-- Modelled from the spec: `restore` (section 4.5), as the list of the commands it
replays, in order. -/
def restore (t : ConnectionStateTracker) : List Command :=
  t.connections.flatMap restoreConnection

end ConnectionStateTracker

/-! ## URIHelper: strings, characters and numbers

A `std::string` is kept here as the list of its `char`s, since `URIHelper` works on
positions. The type `std::size_t` has 64 bits. -/

/-- The errors that travel through `URIHelper`: `URISyntaxException` with its reason and
its index (`-1` when the constructor is given none), `NumberFormatException`, and
`std::out_of_range`, which is not a `decaf::lang::Exception`. -/
inductive URIError where
  | URISyntaxException (reason : String) (index : Int)
  | NumberFormatException
  | OutOfRange
  deriving DecidableEq, Repr

namespace StdString

/-- The constant `std::string::npos`, the largest `std::size_t`. -/
def npos : Nat := 18446744073709551615

/-- The conversion of an `int` to `std::size_t`. -/
def toSizeT (i : Int) : Nat := (i % 18446744073709551616).toNat

/-- The conversion of a `std::size_t` to `int`. -/
def toInt (n : Nat) : Int := wrapInt32 n

/-- Addition of `std::size_t` values. -/
def sizeAdd (a b : Nat) : Nat := (a + b) % 18446744073709551616

/-- Subtraction of `std::size_t` values. -/
def sizeSub (a b : Nat) : Nat := (a + 18446744073709551616 - b % 18446744073709551616) %
  18446744073709551616

/-- The position of the first `ch` in `s`, positions counted from `i`; `npos` if none. -/
def findAux (ch : Char) : List Char → Nat → Nat
  | [], _ => npos
  | c :: rest, i => if c = ch then i else findAux ch rest (i + 1)

/-- The member function `std::string::find( ch, pos )`. -/
def find (s : List Char) (ch : Char) (pos : Nat) : Nat :=
  findAux ch (s.drop pos) pos

/-- The position of the last `ch` in `s`, positions counted from `i`; `best` if none. -/
def findLastAux (ch : Char) : List Char → Nat → Nat → Nat
  | [], _, best => best
  | c :: rest, i, best => findLastAux ch rest (i + 1) (if c = ch then i else best)

/-- The member function `std::string::find_last_of( ch )`. -/
def find_last_of (s : List Char) (ch : Char) : Nat :=
  findLastAux ch s 0 npos

/-- The member function `std::string::substr( pos, len )`: at most `len` characters from
position `pos` on; `std::out_of_range` when `pos` is beyond the end. -/
def substr (s : List Char) (pos len : Nat) : Except URIError (List Char) :=
  if pos > s.length then .error .OutOfRange else .ok ((s.drop pos).take len)

/-- The member function `std::string::at( i )`; `std::out_of_range` when `i` is not a
position of `s`. -/
def charAt (s : List Char) (i : Nat) : Except URIError Char :=
  match s.drop i with
  | c :: _ => .ok c
  | [] => .error .OutOfRange

end StdString

/-- Modelled from the spec: `decaf::lang::Character::isDigit` (not among the sources at
hand): the decimal digits. -/
def Character.isDigit (c : Char) : Bool := '0' ≤ c && c ≤ '9'

/-- Modelled from the spec: `decaf::lang::Character::isLetter` (not among the sources at
hand): the ASCII letters. -/
def Character.isLetter (c : Char) : Bool := ('a' ≤ c && c ≤ 'z') || ('A' ≤ c && c ≤ 'Z')

/-- The value of a string of decimal digits read after the value `acc`; `none` when a
character is not a decimal digit. -/
def Integer.digitsValue : List Char → Nat → Option Nat
  | [], acc => some acc
  | c :: rest, acc =>
    if Character.isDigit c then Integer.digitsValue rest (acc * 10 + (c.toNat - '0'.toNat))
    else none

/-- Modelled from the spec: `decaf::lang::Integer::parseInt` (not among the sources at
hand): the `int` written in decimal, an optional '-' followed by at least one digit, and
`NumberFormatException` for every other string and for a value outside the `int` range. -/
def Integer.parseInt (s : List Char) : Except URIError Int :=
  match s with
  | [] => .error .NumberFormatException
  | '-' :: rest =>
    if rest = [] then .error .NumberFormatException
    else match Integer.digitsValue rest 0 with
      | some n => if n ≤ 2147483648 then .ok (-(n : Int)) else .error .NumberFormatException
      | none => .error .NumberFormatException
  | _ =>
    match Integer.digitsValue s 0 with
    | some n => if n ≤ 2147483647 then .ok (n : Int) else .error .NumberFormatException
    | none => .error .NumberFormatException

/-- The first position, counted from `i`, of a character that is neither an ASCII letter,
nor a decimal digit, nor in `legal`. -/
def URIEncoderDecoder.firstIllegal (legal : List Char) : List Char → Nat → Option Nat
  | [], _ => none
  | c :: rest, i =>
    if Character.isLetter c || Character.isDigit c || legal.contains c then
      URIEncoderDecoder.firstIllegal legal rest (i + 1)
    else some i

/-- Modelled from the spec: `URIEncoderDecoder::validateSimple` (not among the sources at
hand): accepts exactly the strings of ASCII letters, decimal digits and characters of
`legal`, and otherwise throws `URISyntaxException` with the position of the first other
character. -/
def URIEncoderDecoder.validateSimple (s legal : List Char) : Except URIError Unit :=
  match URIEncoderDecoder.firstIllegal legal s 0 with
  | none => .ok ()
  | some i => .error (.URISyntaxException "Illegal character" i)

/-- The tokens of `s` between occurrences of `delim`, `cur` being the token under way;
empty tokens are skipped. -/
def StringTokenizer.tokensAux (delim : Char) : List Char → List Char → List (List Char)
  | [], cur => if cur = [] then [] else [cur]
  | c :: rest, cur =>
    if c = delim then
      (if cur = [] then StringTokenizer.tokensAux delim rest []
       else cur :: StringTokenizer.tokensAux delim rest [])
    else StringTokenizer.tokensAux delim rest (cur ++ [c])

/-- Modelled from the spec: `decaf::util::StringTokenizer` (not among the sources at hand)
with one delimiter: the tokens that `nextToken` returns while `hasMoreTokens`, in order;
empty tokens are skipped. -/
def StringTokenizer.tokens (s : List Char) (delim : Char) : List (List Char) :=
  StringTokenizer.tokensAux delim s []

/-- The handlers closing `parseAuthority` and `isValidHost`:
`DECAF_CATCH_RETHROW( URISyntaxException )`, `DECAF_CATCH_EXCEPTION_CONVERT( Exception,
URISyntaxException )` and `DECAF_CATCHALL_THROW( URISyntaxException )`. Every error leaves
as a `URISyntaxException`. -/
def catchAsURISyntaxException {α : Type} (r : Except URIError α) : Except URIError α :=
  match r with
  | .ok a => .ok a
  | .error (.URISyntaxException reason index) => .error (.URISyntaxException reason index)
  | .error .NumberFormatException => .error (.URISyntaxException "NumberFormatException" (-1))
  | .error .OutOfRange => .error (.URISyntaxException "caught unknown exception" (-1))

/-- How one pass through a loop body, or a loop, ends: with a `return` of the function,
or with the state for what follows. -/
inductive Step (σ : Type) where
  | done (result : Bool)
  | next (state : σ)
  deriving DecidableEq, Repr

/-! ## URIHelper

The `int` counters and positions of `isValidIP6Address` stay far inside the `int` range
(the counters are checked at every increment), so their arithmetic is exact. -/

namespace URIHelper

open StdString

/-- The function `validateUserinfo`, its loop from position `i` with `n` rounds to go. -/
def validateUserinfoLoop (userinfo : List Char) (index : Nat) :
    Nat → Nat → Except URIError Unit
  | 0, _ => .ok ()
  | n + 1, i => do
    let ch ← charAt userinfo i
    if ch = ']' || ch = '[' then
      .error (.URISyntaxException "User Info cannot contain '[' or ']'"
        (toInt (sizeAdd index i)))
    else validateUserinfoLoop userinfo index n (i + 1)

/-- The function `validateUserinfo( uri, userinfo, index )`. -/
def validateUserinfo (userinfo : List Char) (index : Nat) : Except URIError Unit :=
  validateUserinfoLoop userinfo index userinfo.length 0

/-- The member function `URIHelper::isValidHexChar`. -/
def isValidHexChar (c : Char) : Bool :=
  ('0' ≤ c && c ≤ '9') || ('A' ≤ c && c ≤ 'F') || ('a' ≤ c && c ≤ 'f')

/-- The loop of `isValidIP4Word` from position `i` with `n` rounds to go: `false` when it
returns `false`, `true` when it runs to its end. -/
def isValidIP4WordLoop (word : List Char) : Nat → Nat → Except URIError Bool
  | 0, _ => .ok true
  | n + 1, i => do
    let ch ← charAt word i
    if !Character.isDigit ch then pure false
    else isValidIP4WordLoop word n (i + 1)

/-- The member function `URIHelper::isValidIP4Word`. -/
def isValidIP4Word (word : List Char) : Except URIError Bool :=
  if word.length < 1 || word.length > 3 then pure false
  else do
    let digits ← isValidIP4WordLoop word word.length 0
    if !digits then pure false
    else
      let value ← Integer.parseInt word
      if value > 255 then pure false else pure true

/-- The local variables of `isValidIP6Address` that live across the rounds of its loop;
`prevChar` is the `c` of the round before. -/
structure IP6State where
  doubleColon : Bool
  numberOfColons : Int
  numberOfPeriods : Int
  word : List Char
  c : Char
  offset : Int
  deriving DecidableEq, Repr

/-- The local variables of `isValidIP6Address` as initialised. -/
def ip6Init : IP6State :=
  { doubleColon := false, numberOfColons := 0, numberOfPeriods := 0, word := [],
    c := Char.ofNat 0, offset := 0 }

/-- One round of the loop of `isValidIP6Address`, for position `i`. -/
def ip6Body (ipAddress : List Char) (length : Int) (i : Int) (st : IP6State) :
    Except URIError (Step IP6State) := do
  let prevChar := st.c
  let c ← charAt ipAddress (toSizeT i)
  let st := { st with c := c }
  if c = '[' then
    if i ≠ 0 then pure (.done false)
    else
      let last ← charAt ipAddress (toSizeT (length - 1))
      if last ≠ ']' then pure (.done false)
      else
        let c1 ← charAt ipAddress 1
        let bad ← (if c1 = ':' then do
            let c2 ← charAt ipAddress 2
            pure (decide (c2 ≠ ':'))
          else pure false)
        if bad then pure (.done false)
        else if length < 4 then pure (.done false)
        else pure (.next { st with offset := 1 })
  else if c = ']' then
    if i ≠ length - 1 then pure (.done false)
    else
      let first ← charAt ipAddress 0
      if first ≠ '[' then pure (.done false)
      else pure (.next st)
  else if c = '.' then
    let st := { st with numberOfPeriods := st.numberOfPeriods + 1 }
    if st.numberOfPeriods > 3 then pure (.done false)
    else
      let valid ← isValidIP4Word st.word
      if !valid then pure (.done false)
      else if st.numberOfColons ≠ 6 && !st.doubleColon then pure (.done false)
      else
        let bad ← (if st.numberOfColons = 7 then do
            let a ← charAt ipAddress (toSizeT (0 + st.offset))
            if a ≠ ':' then do
              let b ← charAt ipAddress (toSizeT (1 + st.offset))
              pure (decide (b ≠ ':'))
            else pure false
          else pure false)
        if bad then pure (.done false)
        else pure (.next { st with word := [] })
  else if c = ':' then
    let st := { st with numberOfColons := st.numberOfColons + 1 }
    if st.numberOfColons > 7 then pure (.done false)
    else if st.numberOfPeriods > 0 then pure (.done false)
    else if prevChar = ':' then
      if st.doubleColon then pure (.done false)
      else pure (.next { st with doubleColon := true, word := [] })
    else pure (.next { st with word := [] })
  else
    if st.word.length > 3 then pure (.done false)
    else if !isValidHexChar c then pure (.done false)
    else pure (.next { st with word := st.word ++ [c] })

/-- The loop of `isValidIP6Address` from position `i` with `n` rounds to go. -/
def ip6Loop (ipAddress : List Char) (length : Int) :
    Nat → Int → IP6State → Except URIError (Step IP6State)
  | 0, _, st => .ok (.next st)
  | n + 1, i, st => do
    match ← ip6Body ipAddress length i st with
    | .done result => pure (.done result)
    | .next st1 => ip6Loop ipAddress length n (i + 1) st1

/-- The checks of `isValidIP6Address` after its loop. -/
def ip6Final (ipAddress : List Char) (length : Int) (st : IP6State) :
    Except URIError Bool :=
  if st.numberOfPeriods > 0 then
    if st.numberOfPeriods ≠ 3 then pure false
    else do
      let valid ← isValidIP4Word st.word
      if !valid then pure false else pure true
  else if st.numberOfColons ≠ 7 && !st.doubleColon then pure false
  else if st.word = [] then do
    let a ← charAt ipAddress (toSizeT (length - 1 - st.offset))
    if a ≠ ':' then do
      let b ← charAt ipAddress (toSizeT (length - 2 - st.offset))
      if b ≠ ':' then pure false else pure true
    else pure true
  else pure true

/-- The member function `URIHelper::isValidIP6Address`. -/
def isValidIP6Address (ipAddress : List Char) : Except URIError Bool :=
  let length : Int := toInt ipAddress.length
  if length < 2 then pure false
  else do
    match ← ip6Loop ipAddress length length.toNat 0 ip6Init with
    | .done result => pure result
    | .next st => ip6Final ipAddress length st

/-- The function `isValidIPv4Address`. Its handler `catch( Exception& e )` turns every
`decaf` exception into the result `false`. -/
def isValidIPv4Address (host : List Char) : Except URIError Bool :=
  let body : Except URIError Bool := do
    let index : Int := toInt (find host '.' 0)
    let part ← substr host 0 (toSizeT index)
    let num ← Integer.parseInt part
    if num < 0 || num > 255 then pure false
    else
      let index2 : Int := toInt (find host '.' (toSizeT (wrapInt32 (index + 1))))
      let part ← substr host (toSizeT (wrapInt32 (index + 1))) (toSizeT index2)
      let num ← Integer.parseInt part
      if num < 0 || num > 255 then pure false
      else
        let index : Int := toInt (find host '.' (toSizeT (wrapInt32 (index2 + 1))))
        let part ← substr host (toSizeT (wrapInt32 (index2 + 1))) (toSizeT index)
        let num ← Integer.parseInt part
        if num < 0 || num > 255 then pure false
        else
          let part ← substr host (toSizeT (wrapInt32 (index + 1))) npos
          let num ← Integer.parseInt part
          if num < 0 || num > 255 then pure false
          else pure true
  match body with
  | .error .NumberFormatException => .ok false
  | .error (.URISyntaxException _ _) => .ok false
  | r => r

/-- The member function `URIHelper::isValidDomainName`. -/
def isValidDomainName (host : List Char) : Except URIError Bool :=
  match URIEncoderDecoder.validateSimple host ['-', '.'] with
  | .error (.URISyntaxException _ _) => .ok false
  | .error e => .error e
  | .ok () =>
    let tokens := StringTokenizer.tokens host '.'
    if tokens.any (fun label => label.head? = some '-' || label.getLast? = some '-') then
      pure false
    else
      let label := tokens.getLast?.getD []
      if label ≠ host then do
        let first ← charAt label 0
        if Character.isDigit first then pure false else pure true
      else pure true

/-- The member function `URIHelper::isValidHost`. -/
def isValidHost (forceServer : Bool) (host : List Char) : Except URIError Bool :=
  catchAsURISyntaxException do
    let first ← charAt host 0
    if first = '[' then
      let last ← charAt host (sizeSub host.length 1)
      if last ≠ ']' then
        .error (.URISyntaxException "Host address does not end in ']'" 0)
      else
        let valid ← isValidIP6Address host
        if !valid then .error (.URISyntaxException "Host IPv6 address is not valid" (-1))
        else pure true
    else if find host '[' 0 ≠ npos || find host ']' 0 ≠ npos then
      .error (.URISyntaxException "Unexpected '[' or ']' found in address" (-1))
    else
      let index := find_last_of host '.'
      let domain ← (if index = npos || index = sizeSub host.length 1 then pure true
        else do
          let after ← charAt host (sizeAdd index 1)
          pure (!Character.isDigit after))
      if domain then
        let valid ← isValidDomainName host
        if valid then pure true
        else if forceServer then .error (.URISyntaxException "Host address is not valid" (-1))
        else pure false
      else
        let valid ← isValidIPv4Address host
        if valid then pure true
        else if forceServer then
          .error (.URISyntaxException "Host IPv4 address is not valid" (-1))
        else pure false

/-- Where `parseAuthority` returned, with the values its local variables `tempUserinfo`,
`tempHost` and `tempPort` had when it reached its end (the function itself returns
nothing). -/
inductive AuthorityOutcome where
  | emptyAuthority
  | portRejected
  | emptyHost
  | invalidHost
  | server (tempUserinfo tempHost : List Char) (tempPort : Int)
  deriving DecidableEq, Repr

/-- The member function `URIHelper::parseAuthority`. -/
def parseAuthority (forceServer : Bool) (authority : List Char) :
    Except URIError AuthorityOutcome :=
  catchAsURISyntaxException (
    if authority = [] then pure .emptyAuthority
    else do
      let temp := authority
      let index := find temp '@' 0
      let (tempUserinfo, temp, hostindex) ←
        (if index ≠ npos then do
          let tempUserinfo ← substr temp 0 index
          validateUserinfo tempUserinfo 0
          let temp ← substr temp (sizeAdd index 1) npos
          pure (tempUserinfo, temp, sizeAdd index 1)
        else pure ([], temp, 0) : Except URIError (List Char × List Char × Nat))
      let index := find_last_of temp ':'
      let endindex := find temp ']' 0
      let split : Except URIError (Option (List Char × Int)) :=
        if index ≠ npos && endindex < index then do
          let tempHost ← substr temp 0 index
          if index < sizeSub temp.length 1 then do
            let portText ← substr temp (sizeAdd index 1) npos
            match Integer.parseInt portText with
            | .ok tempPort =>
              if tempPort < 0 then
                if forceServer then
                  .error (.URISyntaxException "Port number is missing"
                    (toInt (sizeAdd (sizeAdd hostindex index) 1)))
                else pure none
              else pure (some (tempHost, tempPort))
            | .error .NumberFormatException =>
              if forceServer then
                .error (.URISyntaxException "Port number is malformed."
                  (toInt (sizeAdd (sizeAdd hostindex index) 1)))
              else pure none
            | .error e => .error e
          else pure (some (tempHost, -1))
        else pure (some (temp, -1))
      match ← split with
      | none => pure .portRejected
      | some (tempHost, tempPort) =>
        if tempHost = [] then
          if forceServer then
            .error (.URISyntaxException "Host name is empty" (toInt hostindex))
          else pure .emptyHost
        else do
          let valid ← isValidHost forceServer tempHost
          if !valid then pure .invalidHost
          else pure (.server tempUserinfo tempHost tempPort))

/-- The member function `URIHelper::parseURI`. Its body consists of comments only. -/
def parseURI (_uri : List Char) (_forceServer : Bool) : Except URIError Unit :=
  .ok ()

/-- The member function `URIHelper::validateScheme( uri, scheme, index )`; `index` is an
`int`, and so is the index of the exception caught from `validateSimple`. -/
def validateScheme (scheme : List Char) (index : Int) : Except URIError Unit := do
  let first ← charAt scheme 0
  if !Character.isLetter first then
    .error (.URISyntaxException "Schema must start with a Letter." index)
  else
    match URIEncoderDecoder.validateSimple scheme ['+', '-', '.'] with
    | .error (.URISyntaxException _ i) =>
      .error (.URISyntaxException "Invalid Schema" (wrapInt32 (index + i)))
    | r => r

/-- A character allowed in a scheme: a letter, a digit or one of '+', '-', '.'. -/
def IsSchemeChar (c : Char) : Bool :=
  Character.isLetter c || Character.isDigit c || c = '+' || c = '-' || c = '.'

/-- A character allowed in a domain name: a letter, a digit, '-' or '.'. -/
def IsDomainChar (c : Char) : Bool :=
  Character.isLetter c || Character.isDigit c || c = '-' || c = '.'

/-- The non-empty labels of a host: the pieces between its '.' characters, the empty
ones left out. -/
def nonEmptyLabels (host : List Char) : List (List Char) :=
  (host.splitOn '.').filter (fun label => label ≠ [])

/-- The number of positions of `s` at which a ':' is directly followed by a ':'. -/
def adjacentColonPairs : List Char → Nat
  | a :: b :: rest =>
    (if a = ':' ∧ b = ':' then 1 else 0) + adjacentColonPairs (b :: rest)
  | _ => 0

/-- The number that a string of decimal digits denotes. -/
def decimalValue (word : List Char) : Nat :=
  word.foldl (fun acc c => acc * 10 + (c.toNat - '0'.toNat)) 0

/-- A group of one to four hexadecimal digits. -/
def IsHexGroup (g : List Char) : Prop :=
  1 ≤ g.length ∧ g.length ≤ 4 ∧ ∀ c ∈ g, isValidHexChar c = true

instance (g : List Char) : Decidable (IsHexGroup g) := by
  unfold IsHexGroup
  infer_instance

end URIHelper

/-! ## Lemmas on the map -/

namespace StlMap

theorem containsKey_iff_mem_getKeys (m : StlMap) (key : String) :
    m.containsKey key = true ↔ key ∈ m.getKeys := by
  simp [containsKey, getKeys, List.any_eq_true]

theorem getValue_of_containsKey (m : StlMap) (key : String)
    (h : m.containsKey key = true) : ∃ v, m.getValue key = .ok v := by
  induction m with
  | nil => simp [containsKey] at h
  | cons e rest ih =>
    by_cases hk : e.1 = key
    · exact ⟨e.2, by simp [getValue, List.find?, hk]⟩
    · have h2 : containsKey rest key = true := by
        simpa [containsKey, hk] using h
      obtain ⟨v, hv⟩ := ih h2
      have hb : (e.1 == key) = false := by simpa using hk
      refine ⟨v, ?_⟩
      simpa [getValue, List.find?_cons, hb] using hv

theorem getValue_setValue_self (m : StlMap) (key : String) (value : TransportFactoryPtr) :
    (m.setValue key value).getValue key = .ok value := by
  induction m with
  | nil => simp [setValue, getValue]
  | cons e rest ih =>
    obtain ⟨k, v⟩ := e
    by_cases h1 : key = k
    · simp [setValue, h1, getValue]
    · by_cases h2 : key < k
      · simp [setValue, h1, h2, getValue]
      · have h3 : (k == key) = false := by simpa using fun h => h1 h.symm
        simpa [setValue, h1, h2, getValue, List.find?_cons, h3] using ih

theorem containsKey_setValue_self (m : StlMap) (key : String) (value : TransportFactoryPtr) :
    (m.setValue key value).containsKey key = true := by
  induction m with
  | nil => simp [setValue, containsKey]
  | cons e rest ih =>
    obtain ⟨k, v⟩ := e
    by_cases h1 : key = k
    · simp [setValue, h1, containsKey]
    · by_cases h2 : key < k
      · simp [setValue, h1, h2, containsKey]
      · simp only [containsKey] at ih
        simp [setValue, h1, h2, containsKey, ih]

end StlMap

namespace StlMap

theorem mem_getKeys_setValue (m : StlMap) (key : String) (value : TransportFactoryPtr)
    (k : String) : k ∈ (m.setValue key value).getKeys ↔ k = key ∨ k ∈ m.getKeys := by
  induction m with
  | nil => simp [setValue, getKeys]
  | cons e rest ih =>
    obtain ⟨k0, v0⟩ := e
    by_cases h1 : key = k0
    · subst h1
      simp [setValue, getKeys]
    · by_cases h2 : key < k0
      · simp [setValue, h1, h2, getKeys]
      · simp only [getKeys] at ih
        simp only [setValue, h1, h2, if_false, getKeys, List.map_cons, List.mem_cons, ih]
        tauto

theorem getValue_setValue_other (m : StlMap) (key : String) (value : TransportFactoryPtr)
    (k : String) (hk : k ≠ key) : (m.setValue key value).getValue k = m.getValue k := by
  induction m with
  | nil =>
    have hb : (key == k) = false := by simpa using fun h => hk h.symm
    simp [setValue, getValue, List.find?_cons, hb]
  | cons e rest ih =>
    obtain ⟨k0, v0⟩ := e
    have hb : (key == k) = false := by simpa using fun h => hk h.symm
    by_cases h1 : key = k0
    · subst h1
      simp [setValue, getValue, List.find?_cons, hb]
    · by_cases h2 : key < k0
      · simp [setValue, h1, h2, getValue, List.find?_cons, hb]
      · simp only [getValue] at ih
        by_cases h3 : k0 = k
        · subst h3
          simp [setValue, h1, h2, getValue, List.find?_cons]
        · have hb3 : (k0 == k) = false := by simpa using h3
          simp [setValue, h1, h2, getValue, List.find?_cons, hb3, ih]

theorem containsKey_eq_false_iff (m : StlMap) (key : String) :
    m.containsKey key = false ↔ key ∉ m.getKeys := by
  rw [← containsKey_iff_mem_getKeys]
  simp

end StlMap

/-! ## Properties of the transport registry -/

namespace TransportRegistry

theorem findFactory_setValue (r : TransportRegistry) (n : String) (f : TransportFactoryPtr) :
    (findFactory { r with registry := r.registry.setValue n f } n).1 = .ok f := by
  simp [findFactory, StlMap.containsKey_setValue_self, StlMap.getValue_setValue_self]

theorem unregisterFactory_result_ok (r : TransportRegistry) (name : String) :
    (r.unregisterFactory name).1 = .ok () := by
  unfold unregisterFactory
  by_cases h : r.registry.containsKey name = true
  · obtain ⟨v, hv⟩ := StlMap.getValue_of_containsKey _ _ h
    simp [h, hv]
  · simp [h]

end TransportRegistry

/-- C1: for every non-empty name `n` and non-null factory `f`, `registerFactory(n, f)`
succeeds and `findFactory(n)` then returns exactly `f`; and `findFactory`, on any registry
and any name, leaves the registry as it was. -/
theorem registerFactory_then_findFactory (r : TransportRegistry) (n : String)
    (f : TransportFactoryPtr) (hn : n ≠ "") (hf : f ≠ NULL) :
    (r.registerFactory n f).1 = .ok () ∧
    ((r.registerFactory n f).2.findFactory n).1 = .ok f ∧
    ∀ (s : TransportRegistry) (k : String), (s.findFactory k).2 = s := by
  refine ⟨?_, ?_, ?_⟩
  · simp [TransportRegistry.registerFactory, hn, hf]
  · simp only [TransportRegistry.registerFactory, hn, hf, if_false]
    exact TransportRegistry.findFactory_setValue r n f
  · intro s k
    unfold TransportRegistry.findFactory
    split <;> rfl

/-- Witness of C1: registering factory `1` as "tcp" in the empty registry. -/
theorem registerFactory_then_findFactory_witness :
    ("tcp" ≠ "" ∧ (1 : TransportFactoryPtr) ≠ NULL) ∧
    ((TransportRegistry.empty.registerFactory "tcp" 1).1 = .ok () ∧
     ((TransportRegistry.empty.registerFactory "tcp" 1).2.findFactory "tcp").1 = .ok 1 ∧
     ∀ (s : TransportRegistry) (k : String), (s.findFactory k).2 = s) :=
  ⟨⟨by decide, by decide⟩,
   registerFactory_then_findFactory TransportRegistry.empty "tcp" 1 (by decide) (by decide)⟩

/-- C2: on every registry and for every name, `findFactory(name)` fails with
`NoSuchElementException` if and only if `name` is not among the registered names
(`getTransportNames`), and in every case the registry is left unchanged. -/
theorem findFactory_fails_iff_unregistered (r : TransportRegistry) (name : String) :
    ((r.findFactory name).1 = .error .NoSuchElementException ↔
      name ∉ r.getTransportNames) ∧
    (r.findFactory name).2 = r := by
  constructor
  · unfold TransportRegistry.findFactory TransportRegistry.getTransportNames
    rw [← StlMap.containsKey_eq_false_iff]
    by_cases h : r.registry.containsKey name = true
    · obtain ⟨v, hv⟩ := StlMap.getValue_of_containsKey _ _ h
      simp [h, hv]
    · simp [h]
  · unfold TransportRegistry.findFactory
    split <;> rfl

/-- C3: `registerFactory` with the empty name fails with `IllegalArgumentException`
whatever the factory argument (a null one included) and leaves the registry unchanged. -/
theorem registerFactory_empty_name (r : TransportRegistry) (factory : TransportFactoryPtr) :
    r.registerFactory "" factory = (.error .IllegalArgumentException, r) := by
  simp [TransportRegistry.registerFactory]

/-- C4: `registerFactory` with a non-empty name and a null factory fails (the error thrown
for the null argument is `NullPointerException`) and leaves the registry unchanged: no
entry is created or replaced. -/
theorem registerFactory_null_factory (r : TransportRegistry) (name : String)
    (hn : name ≠ "") :
    r.registerFactory name NULL = (.error .NullPointerException, r) := by
  simp [TransportRegistry.registerFactory, hn]

/-- Witness of C4: a null factory offered as "tcp" to a registry that knows "ssl". -/
theorem registerFactory_null_factory_witness :
    "tcp" ≠ "" ∧
    TransportRegistry.registerFactory { registry := [("ssl", 7)], deleted := [] } "tcp" NULL =
      (.error .NullPointerException, { registry := [("ssl", 7)], deleted := [] }) :=
  ⟨by decide, registerFactory_null_factory _ "tcp" (by decide)⟩

/-- Counterexample to C5: with factory `1` registered as "tcp", registering factory `2`
under the same name does not fail; it returns normally and the entry now holds `2`. -/
theorem registerFactory_duplicate_counterexample :
    "tcp" ∈ TransportRegistry.getTransportNames { registry := [("tcp", 1)], deleted := [] } ∧
    TransportRegistry.registerFactory { registry := [("tcp", 1)], deleted := [] } "tcp" 2 =
      (.ok (), { registry := [("tcp", 2)], deleted := [] }) ∧
    ¬ ∃ e, (TransportRegistry.registerFactory
      { registry := [("tcp", 1)], deleted := [] } "tcp" 2).1 = .error e := by
  refine ⟨by decide, by decide, ?_⟩
  rintro ⟨e, he⟩
  have hok : (TransportRegistry.registerFactory
      { registry := [("tcp", 1)], deleted := [] } "tcp" 2).1 = .ok () := by decide
  rw [hok] at he
  cases he

/-- C5 (amended): `registerFactory` with a non-empty name that already has a factory
registered, and a non-null factory, returns normally and replaces the entry: `findFactory`
then returns the new factory, and the registered names are the same as before. -/
theorem registerFactory_replaces_existing (r : TransportRegistry) (n : String)
    (f : TransportFactoryPtr) (hn : n ≠ "") (hf : f ≠ NULL)
    (hreg : n ∈ r.getTransportNames) :
    (r.registerFactory n f).1 = .ok () ∧
    ((r.registerFactory n f).2.findFactory n).1 = .ok f ∧
    (∀ k, k ∈ (r.registerFactory n f).2.getTransportNames ↔ k ∈ r.getTransportNames) := by
  refine ⟨?_, ?_, ?_⟩
  · simp [TransportRegistry.registerFactory, hn, hf]
  · simp only [TransportRegistry.registerFactory, hn, hf, if_false]
    exact TransportRegistry.findFactory_setValue r n f
  · intro k
    simp only [TransportRegistry.registerFactory, hn, hf, if_false,
      TransportRegistry.getTransportNames, StlMap.mem_getKeys_setValue]
    constructor
    · rintro (h | h)
      · subst h; exact hreg
      · exact h
    · exact fun h => Or.inr h

/-- Witness of C5 (amended): factory `2` registered as "tcp" over factory `1`. -/
theorem registerFactory_replaces_existing_witness :
    ("tcp" ≠ "" ∧ (2 : TransportFactoryPtr) ≠ NULL ∧
      "tcp" ∈ TransportRegistry.getTransportNames
        { registry := [("ssl", 7), ("tcp", 1)], deleted := [] }) ∧
    ((TransportRegistry.registerFactory
        { registry := [("ssl", 7), ("tcp", 1)], deleted := [] } "tcp" 2).2.findFactory
      "tcp").1 = .ok 2 :=
  ⟨⟨by decide, by decide, by decide⟩,
   (registerFactory_replaces_existing { registry := [("ssl", 7), ("tcp", 1)], deleted := [] }
      "tcp" 2 (by decide) (by decide) (by decide)).2.1⟩

/-- C6: on every registry and for every name that is not registered,
`unregisterFactory(name)` returns without error and leaves the registry exactly as it
was: the same entries, and no factory destroyed. -/
theorem unregisterFactory_unregistered_noop (r : TransportRegistry) (name : String)
    (h : name ∉ r.getTransportNames) :
    r.unregisterFactory name = (.ok (), r) := by
  have hc : r.registry.containsKey name = false :=
    (StlMap.containsKey_eq_false_iff _ _).2 h
  simp [TransportRegistry.unregisterFactory, hc]

/-- Witness of C6: unregistering "ssl" from a registry that only knows "tcp". -/
theorem unregisterFactory_unregistered_noop_witness :
    "ssl" ∉ TransportRegistry.getTransportNames { registry := [("tcp", 1)], deleted := [] } ∧
    TransportRegistry.unregisterFactory { registry := [("tcp", 1)], deleted := [] } "ssl" =
      (.ok (), { registry := [("tcp", 1)], deleted := [] }) :=
  ⟨by decide, unregisterFactory_unregistered_noop _ "ssl" (by decide)⟩

/-- Counterexample to C7: on the empty registry `unregisterFactory("")` returns normally,
leaving the registry empty; no error is raised. -/
theorem unregisterFactory_empty_name_counterexample :
    TransportRegistry.empty.unregisterFactory "" = (.ok (), TransportRegistry.empty) ∧
    ¬ ∃ e, (TransportRegistry.empty.unregisterFactory "").1 = .error e := by
  refine ⟨by decide, ?_⟩
  rintro ⟨e, he⟩
  have hok : (TransportRegistry.empty.unregisterFactory "").1 = .ok () := by decide
  rw [hok] at he
  cases he

/-- C7 (amended): `unregisterFactory` called with the empty name raises no error: on every
registry it returns normally. -/
theorem unregisterFactory_empty_name_returns (r : TransportRegistry) :
    (r.unregisterFactory "").1 = .ok () :=
  TransportRegistry.unregisterFactory_result_ok r ""

/-! ## Properties of the streams -/

theorem int32Bytes_length (v : Int) : (int32Bytes v).length = 4 := rfl

theorem wrapInt32_bytes (v : Int) (hlo : -2147483648 ≤ v) (hhi : v < 2147483648) :
    wrapInt32 (((v % 4294967296).toNat / 16777216 % 256 * 16777216 +
      (v % 4294967296).toNat / 65536 % 256 * 65536 +
      (v % 4294967296).toNat / 256 % 256 * 256 + (v % 4294967296).toNat % 256 : Nat) : Int) = v := by
  unfold wrapInt32
  omega

theorem readInt_int32Bytes (v : Int) (hlo : -2147483648 ≤ v) (hhi : v < 2147483648)
    (rest : DataInputStream) :
    DataInputStream.readInt (int32Bytes v ++ rest) = .ok (v, rest) := by
  have h : DataInputStream.readInt (int32Bytes v ++ rest) =
      .ok (wrapInt32 (((v % 4294967296).toNat / 16777216 % 256 * 16777216 +
        (v % 4294967296).toNat / 65536 % 256 * 65536 +
        (v % 4294967296).toNat / 256 % 256 * 256 + (v % 4294967296).toNat % 256 : Nat) : Int),
        rest) := rfl
  rw [h, wrapInt32_bytes v hlo hhi]

/-! ## The marshaller on the wire images of the fields -/

namespace NetworkBridgeFilterMarshaller

variable {W β : Type}

theorem tightMarshal1_image (m : BaseDataStreamMarshaller W β) (x : NetworkBridgeFilter β)
    (nb nc : Int) (baseBits idBits : List Bool) (baseBytes idBytes : List Byte)
    (hb : BaseTightRoundTrip m x.base nb baseBits baseBytes)
    (hc : CachedTightRoundTrip m (upcastBrokerId x.networkBrokerId) nc idBits idBytes)
    (wf : W) (bs : BooleanStream) :
    ∃ wf1, tightMarshal1 m wf x bs =
      .ok (wrapInt32 (wrapInt32 (nb + nc) + 4), wf1,
        { bs with bits := bs.bits ++ (baseBits ++ idBits) }) := by
  obtain ⟨wf1, h1⟩ := hb.1 wf bs
  obtain ⟨wf2, h2⟩ := hc.1 wf1 { bs with bits := bs.bits ++ baseBits }
  refine ⟨wf2, ?_⟩
  simp [tightMarshal1, h1, h2, catchAsIOException, bind, Except.bind, pure, Except.pure]

theorem tightMarshal2_image (m : BaseDataStreamMarshaller W β) (x : NetworkBridgeFilter β)
    (nb nc : Int) (baseBits idBits : List Bool) (baseBytes idBytes : List Byte)
    (hb : BaseTightRoundTrip m x.base nb baseBits baseBytes)
    (hc : CachedTightRoundTrip m (upcastBrokerId x.networkBrokerId) nc idBits idBytes)
    (wf : W) (out : DataOutputStream) (pre post : List Bool) :
    ∃ wf1, tightMarshal2 m wf x out
        { bits := pre ++ (baseBits ++ idBits) ++ post, pos := pre.length } =
      .ok (wf1, out ++ (baseBytes ++ int32Bytes x.networkTTL ++ idBytes),
        { bits := pre ++ (baseBits ++ idBits) ++ post,
          pos := pre.length + (baseBits ++ idBits).length }) := by
  obtain ⟨wf1, h1⟩ := hb.2.1 wf out pre (idBits ++ post)
  obtain ⟨wf2, h2⟩ := hc.2.1 wf1 ((out ++ baseBytes).writeInt x.networkTTL)
    (pre ++ baseBits) post
  refine ⟨wf2, ?_⟩
  simp only [List.append_assoc, List.length_append] at h1 h2 ⊢
  simp only [tightMarshal2, h1, bind, Except.bind, h2, catchAsIOException]
  simp [DataOutputStream.writeInt, Nat.add_assoc]

theorem tightUnmarshal_image (m : BaseDataStreamMarshaller W β) (x : NetworkBridgeFilter β)
    (nb nc : Int) (baseBits idBits : List Bool) (baseBytes idBytes : List Byte)
    (hb : BaseTightRoundTrip m x.base nb baseBits baseBytes)
    (hc : CachedTightRoundTrip m (upcastBrokerId x.networkBrokerId) nc idBits idBytes)
    (hlo : -2147483648 ≤ x.networkTTL) (hhi : x.networkTTL < 2147483648)
    (wf : W) (y0 : NetworkBridgeFilter β) (rest : DataInputStream) (pre post : List Bool) :
    ∃ wf1, tightUnmarshal m wf y0
        ((baseBytes ++ int32Bytes x.networkTTL ++ idBytes) ++ rest)
        { bits := pre ++ (baseBits ++ idBits) ++ post, pos := pre.length } =
      .ok (x, wf1, rest,
        { bits := pre ++ (baseBits ++ idBits) ++ post,
          pos := pre.length + (baseBits ++ idBits).length }) := by
  obtain ⟨wf1, h1⟩ := hb.2.2 wf y0.base (int32Bytes x.networkTTL ++ (idBytes ++ rest)) pre
    (idBits ++ post)
  obtain ⟨wf2, h2⟩ := hc.2.2 wf1 rest (pre ++ baseBits) post
  have h3 := readInt_int32Bytes x.networkTTL hlo hhi (idBytes ++ rest)
  refine ⟨wf2, ?_⟩
  simp only [List.append_assoc, List.length_append] at h1 h2 ⊢
  simp only [tightUnmarshal, h1, bind, Except.bind, h3, h2, catchAsIOException, pure,
    Except.pure]
  obtain ⟨b, t, i⟩ := x
  cases i <;> simp [dynamicCastBrokerId, upcastBrokerId, Nat.add_assoc]

theorem looseMarshal_image (m : BaseDataStreamMarshaller W β) (x : NetworkBridgeFilter β)
    (baseBytes idBytes : List Byte)
    (hb : BaseLooseRoundTrip m x.base baseBytes)
    (hc : CachedLooseRoundTrip m (upcastBrokerId x.networkBrokerId) idBytes)
    (wf : W) (out : DataOutputStream) :
    ∃ wf1, looseMarshal m wf x out =
      .ok (wf1, out ++ (baseBytes ++ int32Bytes x.networkTTL ++ idBytes)) := by
  obtain ⟨wf1, h1⟩ := hb.1 wf out
  obtain ⟨wf2, h2⟩ := hc.1 wf1 ((out ++ baseBytes).writeInt x.networkTTL)
  refine ⟨wf2, ?_⟩
  simp only [looseMarshal, h1, bind, Except.bind, h2, catchAsIOException]
  simp [DataOutputStream.writeInt]

theorem looseUnmarshal_image (m : BaseDataStreamMarshaller W β) (x : NetworkBridgeFilter β)
    (baseBytes idBytes : List Byte)
    (hb : BaseLooseRoundTrip m x.base baseBytes)
    (hc : CachedLooseRoundTrip m (upcastBrokerId x.networkBrokerId) idBytes)
    (hlo : -2147483648 ≤ x.networkTTL) (hhi : x.networkTTL < 2147483648)
    (wf : W) (y0 : NetworkBridgeFilter β) (rest : DataInputStream) :
    ∃ wf1, looseUnmarshal m wf y0
        ((baseBytes ++ int32Bytes x.networkTTL ++ idBytes) ++ rest) =
      .ok (x, wf1, rest) := by
  obtain ⟨wf1, h1⟩ := hb.2 wf y0.base (int32Bytes x.networkTTL ++ (idBytes ++ rest))
  obtain ⟨wf2, h2⟩ := hc.2 wf1 rest
  have h3 := readInt_int32Bytes x.networkTTL hlo hhi (idBytes ++ rest)
  refine ⟨wf2, ?_⟩
  simp only [List.append_assoc] at h1 h2 ⊢
  simp only [looseUnmarshal, h1, bind, Except.bind, h3, h2, catchAsIOException, pure,
    Except.pure]
  obtain ⟨b, t, i⟩ := x
  cases i <;> simp [dynamicCastBrokerId, upcastBrokerId]

end NetworkBridgeFilterMarshaller

/-! ## The sample operations meet the contracts -/

theorem BooleanStream.readBoolean_at (pre post : List Bool) (b : Bool) :
    BooleanStream.readBoolean { bits := pre ++ [b] ++ post, pos := pre.length } =
      .ok (b, { bits := pre ++ [b] ++ post, pos := pre.length + 1 }) := by
  simp [BooleanStream.readBoolean]

namespace Sample

theorem decode_idBytes (rest : DataInputStream) :
    decode (idBytes ++ rest) = .ok (.brokerId ⟨"b1"⟩, rest) := by
  have h : ¬ (rest.length + 2 < 2) := by omega
  simp [idBytes, decode, h]
  decide

theorem base_tight (b : Byte) : BaseTightRoundTrip marshaller b 1 [] [b] := by
  refine ⟨?_, ?_, ?_⟩
  · intro wf bs
    exact ⟨wf + 1, by simp [marshaller]⟩
  · intro wf out pre post
    exact ⟨wf + 1, by simp [marshaller]⟩
  · intro wf b0 rest pre post
    exact ⟨wf + 1, by simp [marshaller]⟩

theorem base_loose (b : Byte) : BaseLooseRoundTrip marshaller b [b] := by
  refine ⟨?_, ?_⟩
  · intro wf out
    exact ⟨wf + 1, by simp [marshaller]⟩
  · intro wf b0 rest
    exact ⟨wf + 1, by simp [marshaller]⟩

theorem cached_tight :
    CachedTightRoundTrip marshaller (some (.brokerId ⟨"b1"⟩)) 4 [true] idBytes := by
  refine ⟨?_, ?_, ?_⟩
  · intro wf bs
    refine ⟨wf + 1, ?_⟩
    have h : ((encode (.brokerId ⟨"b1"⟩)).length : Int) = 4 := by decide
    simp [marshaller, BooleanStream.writeBoolean, h]
  · intro wf out pre post
    refine ⟨wf + 1, ?_⟩
    have h : encode (.brokerId ⟨"b1"⟩) = idBytes := by decide
    simp only [marshaller, BooleanStream.readBoolean_at, bind, Except.bind, pure, Except.pure,
      h, List.length_singleton]
  · intro wf rest pre post
    refine ⟨wf + 1, ?_⟩
    simp only [marshaller, BooleanStream.readBoolean_at, bind, Except.bind, pure, Except.pure,
      decode_idBytes, if_true, List.length_singleton]

theorem cached_loose :
    CachedLooseRoundTrip marshaller (some (.brokerId ⟨"b1"⟩)) (1 :: idBytes) := by
  refine ⟨?_, ?_⟩
  · intro wf out
    refine ⟨wf + 1, ?_⟩
    have h : encode (.brokerId ⟨"b1"⟩) = idBytes := by decide
    simp only [marshaller, h]
  · intro wf rest
    refine ⟨wf + 1, ?_⟩
    simp only [marshaller, List.cons_append, decode_idBytes, bind, Except.bind, pure,
      Except.pure]

end Sample

/-! ## Properties of the NetworkBridgeFilter marshaller -/

/-- C8: round trip for `NetworkBridgeFilter`. Let the inherited base-class and
cached-object operations round-trip the base fields and the `networkBrokerId` pointer of
`x` (present or null), in tight and in loose mode. Then `tightMarshal1` on a new boolean
stream followed by `tightMarshal2` succeeds, and `tightUnmarshal` applied to the octets
and bits so produced yields an object with the base fields, `networkTTL` and
`networkBrokerId` of `x`; likewise `looseUnmarshal` applied to the octets written by
`looseMarshal`. Whatever follows in the input is left unread. -/
theorem networkBridgeFilter_round_trip {W β : Type} (m : BaseDataStreamMarshaller W β)
    (x : NetworkBridgeFilter β) (nb nc : Int) (baseBits idBits : List Bool)
    (baseBytes idBytes looseBase looseId : List Byte)
    (hbt : BaseTightRoundTrip m x.base nb baseBits baseBytes)
    (hct : CachedTightRoundTrip m (upcastBrokerId x.networkBrokerId) nc idBits idBytes)
    (hbl : BaseLooseRoundTrip m x.base looseBase)
    (hcl : CachedLooseRoundTrip m (upcastBrokerId x.networkBrokerId) looseId)
    (hlo : -2147483648 ≤ x.networkTTL) (hhi : x.networkTTL < 2147483648) :
    (∀ (wf : W) (out : DataOutputStream) (wfr : W) (y0 : NetworkBridgeFilter β)
        (rest : DataInputStream),
      ∃ n wf1 bs1 wf2 payload bs2 y wfr1 bsr,
        NetworkBridgeFilterMarshaller.tightMarshal1 m wf x BooleanStream.empty =
          .ok (n, wf1, bs1) ∧
        NetworkBridgeFilterMarshaller.tightMarshal2 m wf1 x out bs1 =
          .ok (wf2, out ++ payload, bs2) ∧
        NetworkBridgeFilterMarshaller.tightUnmarshal m wfr y0 (payload ++ rest) bs1 =
          .ok (y, wfr1, rest, bsr) ∧
        y.base = x.base ∧ y.networkTTL = x.networkTTL ∧
        y.networkBrokerId = x.networkBrokerId) ∧
    (∀ (wf : W) (out : DataOutputStream) (wfr : W) (y0 : NetworkBridgeFilter β)
        (rest : DataInputStream),
      ∃ wf1 payload y wfr1,
        NetworkBridgeFilterMarshaller.looseMarshal m wf x out = .ok (wf1, out ++ payload) ∧
        NetworkBridgeFilterMarshaller.looseUnmarshal m wfr y0 (payload ++ rest) =
          .ok (y, wfr1, rest) ∧
        y.base = x.base ∧ y.networkTTL = x.networkTTL ∧
        y.networkBrokerId = x.networkBrokerId) := by
  constructor
  · intro wf out wfr y0 rest
    obtain ⟨wf1, h1⟩ := NetworkBridgeFilterMarshaller.tightMarshal1_image m x nb nc baseBits
      idBits baseBytes idBytes hbt hct wf BooleanStream.empty
    obtain ⟨wf2, h2⟩ := NetworkBridgeFilterMarshaller.tightMarshal2_image m x nb nc baseBits
      idBits baseBytes idBytes hbt hct wf1 out [] []
    obtain ⟨wfr1, h3⟩ := NetworkBridgeFilterMarshaller.tightUnmarshal_image m x nb nc baseBits
      idBits baseBytes idBytes hbt hct hlo hhi wfr y0 rest [] []
    simp only [BooleanStream.empty, List.nil_append, List.append_nil, List.length_nil,
      Nat.zero_add] at h1 h2 h3
    exact ⟨_, wf1, _, wf2, _, _, x, wfr1, _, h1, h2, h3, rfl, rfl, rfl⟩
  · intro wf out wfr y0 rest
    obtain ⟨wf1, h1⟩ := NetworkBridgeFilterMarshaller.looseMarshal_image m x looseBase looseId
      hbl hcl wf out
    obtain ⟨wfr1, h2⟩ := NetworkBridgeFilterMarshaller.looseUnmarshal_image m x looseBase
      looseId hbl hcl hlo hhi wfr y0 rest
    exact ⟨wf1, _, x, wfr1, h1, h2, rfl, rfl, rfl⟩

/-- Witness of C8: the sample operations and the sample filter (broker id present),
unmarshalled over an all-default object. -/
theorem networkBridgeFilter_round_trip_witness :
    (BaseTightRoundTrip Sample.marshaller Sample.filter.base 1 [] [7] ∧
     CachedTightRoundTrip Sample.marshaller (upcastBrokerId Sample.filter.networkBrokerId) 4
       [true] Sample.idBytes ∧
     BaseLooseRoundTrip Sample.marshaller Sample.filter.base [7] ∧
     CachedLooseRoundTrip Sample.marshaller (upcastBrokerId Sample.filter.networkBrokerId)
       (1 :: Sample.idBytes) ∧
     -2147483648 ≤ Sample.filter.networkTTL ∧ Sample.filter.networkTTL < 2147483648) ∧
    (∃ wf1 payload y wfr1,
      NetworkBridgeFilterMarshaller.looseMarshal Sample.marshaller 0 Sample.filter [] =
        .ok (wf1, [] ++ payload) ∧
      NetworkBridgeFilterMarshaller.looseUnmarshal Sample.marshaller 0
        { base := 0, networkTTL := 0, networkBrokerId := none } (payload ++ []) =
        .ok (y, wfr1, []) ∧
      y.base = Sample.filter.base ∧ y.networkTTL = Sample.filter.networkTTL ∧
      y.networkBrokerId = Sample.filter.networkBrokerId) :=
  ⟨⟨Sample.base_tight 7, Sample.cached_tight, Sample.base_loose 7, Sample.cached_loose,
      by decide, by decide⟩,
   (networkBridgeFilter_round_trip Sample.marshaller Sample.filter 1 4 [] [true] [7]
      Sample.idBytes [7] (1 :: Sample.idBytes) (Sample.base_tight 7) Sample.cached_tight
      (Sample.base_loose 7) Sample.cached_loose (by decide) (by decide)).2 0 []
      0 { base := 0, networkTTL := 0, networkBrokerId := none } []⟩

/-- C9: one field order in the four operations. Let the inherited operations round-trip
the base fields and the `networkBrokerId` pointer of `x`, with the wire images named in the
hypotheses. Then `tightMarshal2` and `looseMarshal` write, after what the stream already
holds, the image of the base fields, then the four octets of `networkTTL`, then the image
of `networkBrokerId`, and nothing else; `tightUnmarshal` and `looseUnmarshal` rebuild `x`
from exactly that sequence; and in the boolean stream the bits of the base fields come
before those of `networkBrokerId`. -/
theorem networkBridgeFilter_field_order {W β : Type} (m : BaseDataStreamMarshaller W β)
    (x : NetworkBridgeFilter β) (nb nc : Int) (baseBits idBits : List Bool)
    (baseBytes idBytes looseBase looseId : List Byte)
    (hbt : BaseTightRoundTrip m x.base nb baseBits baseBytes)
    (hct : CachedTightRoundTrip m (upcastBrokerId x.networkBrokerId) nc idBits idBytes)
    (hbl : BaseLooseRoundTrip m x.base looseBase)
    (hcl : CachedLooseRoundTrip m (upcastBrokerId x.networkBrokerId) looseId)
    (hlo : -2147483648 ≤ x.networkTTL) (hhi : x.networkTTL < 2147483648) :
    (int32Bytes x.networkTTL).length = 4 ∧
    (∀ (wf : W) (out : DataOutputStream) (pre post : List Bool), ∃ wf1,
      NetworkBridgeFilterMarshaller.tightMarshal2 m wf x out
          { bits := pre ++ (baseBits ++ idBits) ++ post, pos := pre.length } =
        .ok (wf1, out ++ (baseBytes ++ int32Bytes x.networkTTL ++ idBytes),
          { bits := pre ++ (baseBits ++ idBits) ++ post,
            pos := pre.length + (baseBits ++ idBits).length })) ∧
    (∀ (wf : W) (y0 : NetworkBridgeFilter β) (rest : DataInputStream) (pre post : List Bool),
      ∃ wf1,
      NetworkBridgeFilterMarshaller.tightUnmarshal m wf y0
          ((baseBytes ++ int32Bytes x.networkTTL ++ idBytes) ++ rest)
          { bits := pre ++ (baseBits ++ idBits) ++ post, pos := pre.length } =
        .ok (x, wf1, rest,
          { bits := pre ++ (baseBits ++ idBits) ++ post,
            pos := pre.length + (baseBits ++ idBits).length })) ∧
    (∀ (wf : W) (out : DataOutputStream), ∃ wf1,
      NetworkBridgeFilterMarshaller.looseMarshal m wf x out =
        .ok (wf1, out ++ (looseBase ++ int32Bytes x.networkTTL ++ looseId))) ∧
    (∀ (wf : W) (y0 : NetworkBridgeFilter β) (rest : DataInputStream), ∃ wf1,
      NetworkBridgeFilterMarshaller.looseUnmarshal m wf y0
          ((looseBase ++ int32Bytes x.networkTTL ++ looseId) ++ rest) =
        .ok (x, wf1, rest)) :=
  ⟨int32Bytes_length x.networkTTL,
   NetworkBridgeFilterMarshaller.tightMarshal2_image m x nb nc baseBits idBits baseBytes
     idBytes hbt hct,
   NetworkBridgeFilterMarshaller.tightUnmarshal_image m x nb nc baseBits idBits baseBytes
     idBytes hbt hct hlo hhi,
   NetworkBridgeFilterMarshaller.looseMarshal_image m x looseBase looseId hbl hcl,
   NetworkBridgeFilterMarshaller.looseUnmarshal_image m x looseBase looseId hbl hcl hlo hhi⟩

/-- Witness of C9: the sample filter in loose mode is written as its base octet `7`, the
four octets of the TTL `-3`, then the presence marker and octets of the broker id. -/
theorem networkBridgeFilter_field_order_witness :
    (BaseTightRoundTrip Sample.marshaller Sample.filter.base 1 [] [7] ∧
     CachedTightRoundTrip Sample.marshaller (upcastBrokerId Sample.filter.networkBrokerId) 4
       [true] Sample.idBytes ∧
     BaseLooseRoundTrip Sample.marshaller Sample.filter.base [7] ∧
     CachedLooseRoundTrip Sample.marshaller (upcastBrokerId Sample.filter.networkBrokerId)
       (1 :: Sample.idBytes) ∧
     -2147483648 ≤ Sample.filter.networkTTL ∧ Sample.filter.networkTTL < 2147483648) ∧
    (∃ wf1, NetworkBridgeFilterMarshaller.looseMarshal Sample.marshaller 0 Sample.filter [] =
      .ok (wf1, [] ++ (([7] : List Byte) ++ int32Bytes Sample.filter.networkTTL ++
        (1 :: Sample.idBytes)))) :=
  ⟨⟨Sample.base_tight 7, Sample.cached_tight, Sample.base_loose 7, Sample.cached_loose,
      by decide, by decide⟩,
   (networkBridgeFilter_field_order Sample.marshaller Sample.filter 1 4 [] [true] [7]
      Sample.idBytes [7] (1 :: Sample.idBytes) (Sample.base_tight 7) Sample.cached_tight
      (Sample.base_loose 7) Sample.cached_loose (by decide) (by decide)).2.2.2.1 0 []⟩

/-- C10: the size computed by `tightMarshal1`. Let the inherited operations round-trip the
base fields and the `networkBrokerId` pointer of `x` in tight mode, their phase 1 results
`nb` and `nc` being the numbers of octets their phase 2 writes, and let the total fit an
`int`. Then the value `tightMarshal1` returns is `nb + nc + 4`, and it is the number of
octets that `tightMarshal2` then writes for `x`. -/
theorem tightMarshal1_size {W β : Type} (m : BaseDataStreamMarshaller W β)
    (x : NetworkBridgeFilter β) (nb nc : Int) (baseBits idBits : List Bool)
    (baseBytes idBytes : List Byte)
    (hbt : BaseTightRoundTrip m x.base nb baseBits baseBytes)
    (hct : CachedTightRoundTrip m (upcastBrokerId x.networkBrokerId) nc idBits idBytes)
    (hnb : nb = baseBytes.length) (hnc : nc = idBytes.length)
    (hfit : baseBytes.length + idBytes.length + 4 < 2147483648)
    (wf : W) (out : DataOutputStream) :
    ∃ rc wf1 bs1 wf2 written bs2,
      NetworkBridgeFilterMarshaller.tightMarshal1 m wf x BooleanStream.empty =
        .ok (rc, wf1, bs1) ∧
      NetworkBridgeFilterMarshaller.tightMarshal2 m wf1 x out bs1 =
        .ok (wf2, out ++ written, bs2) ∧
      rc = written.length ∧ rc = nb + nc + 4 := by
  obtain ⟨wf1, h1⟩ := NetworkBridgeFilterMarshaller.tightMarshal1_image m x nb nc baseBits
    idBits baseBytes idBytes hbt hct wf BooleanStream.empty
  obtain ⟨wf2, h2⟩ := NetworkBridgeFilterMarshaller.tightMarshal2_image m x nb nc baseBits
    idBits baseBytes idBytes hbt hct wf1 out [] []
  simp only [BooleanStream.empty, List.nil_append, List.append_nil, List.length_nil,
    Nat.zero_add] at h1 h2
  refine ⟨_, wf1, _, wf2, _, _, h1, h2, ?_, ?_⟩
  · simp only [List.length_append, int32Bytes_length, Nat.cast_add, hnb, hnc]
    unfold wrapInt32
    push_cast
    omega
  · subst hnb hnc
    unfold wrapInt32
    omega

/-- Witness of C10: for the sample filter the size is `1 + 4 + 4 = 9` octets. -/
theorem tightMarshal1_size_witness :
    (BaseTightRoundTrip Sample.marshaller Sample.filter.base 1 [] [7] ∧
     CachedTightRoundTrip Sample.marshaller (upcastBrokerId Sample.filter.networkBrokerId) 4
       [true] Sample.idBytes ∧
     (1 : Int) = ([7] : List Byte).length ∧ (4 : Int) = Sample.idBytes.length ∧
     ([7] : List Byte).length + Sample.idBytes.length + 4 < 2147483648) ∧
    (∃ rc wf1 bs1 wf2 written bs2,
      NetworkBridgeFilterMarshaller.tightMarshal1 Sample.marshaller 0 Sample.filter
        BooleanStream.empty = .ok (rc, wf1, bs1) ∧
      NetworkBridgeFilterMarshaller.tightMarshal2 Sample.marshaller wf1 Sample.filter [] bs1 =
        .ok (wf2, [] ++ written, bs2) ∧
      rc = written.length ∧ rc = 1 + 4 + 4) :=
  ⟨⟨Sample.base_tight 7, Sample.cached_tight, by decide, by decide, by decide⟩,
   tightMarshal1_size Sample.marshaller Sample.filter 1 4 [] [true] [7] Sample.idBytes
     (Sample.base_tight 7) Sample.cached_tight (by decide) (by decide) (by decide) 0 []⟩

/-! ## The boolean stream of the NetworkBridgeFilter marshaller -/

theorem Sample.cached_absent : CachedAbsent Sample.marshaller := by
  refine ⟨?_, ?_, ?_⟩
  · intro wf bs
    exact ⟨wf + 1, by simp [Sample.marshaller, BooleanStream.writeBoolean]⟩
  · intro wf out pre post
    refine ⟨wf + 1, ?_⟩
    simp only [Sample.marshaller, BooleanStream.readBoolean_at, bind, Except.bind, pure,
      Except.pure, List.length_singleton, List.append_nil]
  · intro wf rest pre post
    refine ⟨wf + 1, ?_⟩
    simp only [Sample.marshaller, BooleanStream.readBoolean_at, bind, Except.bind, pure,
      Except.pure, List.length_singleton, List.nil_append]
    rfl

/-- C11: boolean-stream parity for `NetworkBridgeFilter`. Let the inherited operations
round-trip the base fields and the `networkBrokerId` pointer of `x` (null or not) in tight
mode, with the bits `baseBits` and `idBits`. Then `tightMarshal1` appends to the boolean
stream exactly `baseBits` followed by `idBits`; `tightMarshal2` and `tightUnmarshal`, on a
stream holding these bits at its read position, each succeed and advance the read position
by exactly that number of bits, whatever precedes and follows them. -/
theorem networkBridgeFilter_boolean_stream_parity {W β : Type}
    (m : BaseDataStreamMarshaller W β) (x : NetworkBridgeFilter β) (nb nc : Int)
    (baseBits idBits : List Bool) (baseBytes idBytes : List Byte)
    (hbt : BaseTightRoundTrip m x.base nb baseBits baseBytes)
    (hct : CachedTightRoundTrip m (upcastBrokerId x.networkBrokerId) nc idBits idBytes)
    (hlo : -2147483648 ≤ x.networkTTL) (hhi : x.networkTTL < 2147483648) :
    (∀ (wf : W) (bs : BooleanStream), ∃ n wf1 bs1,
      NetworkBridgeFilterMarshaller.tightMarshal1 m wf x bs = .ok (n, wf1, bs1) ∧
      bs1.bits = bs.bits ++ (baseBits ++ idBits) ∧ bs1.pos = bs.pos ∧
      bs1.bits.length = bs.bits.length + (baseBits.length + idBits.length)) ∧
    (∀ (wf : W) (out : DataOutputStream) (pre post : List Bool), ∃ wf1 out1 bs1,
      NetworkBridgeFilterMarshaller.tightMarshal2 m wf x out
          { bits := pre ++ (baseBits ++ idBits) ++ post, pos := pre.length } =
        .ok (wf1, out1, bs1) ∧
      bs1.bits = pre ++ (baseBits ++ idBits) ++ post ∧
      bs1.pos = pre.length + (baseBits.length + idBits.length)) ∧
    (∀ (wf : W) (y0 : NetworkBridgeFilter β) (rest : DataInputStream) (pre post : List Bool),
      ∃ y wf1 rest1 bs1,
      NetworkBridgeFilterMarshaller.tightUnmarshal m wf y0
          ((baseBytes ++ int32Bytes x.networkTTL ++ idBytes) ++ rest)
          { bits := pre ++ (baseBits ++ idBits) ++ post, pos := pre.length } =
        .ok (y, wf1, rest1, bs1) ∧
      bs1.bits = pre ++ (baseBits ++ idBits) ++ post ∧
      bs1.pos = pre.length + (baseBits.length + idBits.length)) := by
  refine ⟨?_, ?_, ?_⟩
  · intro wf bs
    obtain ⟨wf1, h⟩ := NetworkBridgeFilterMarshaller.tightMarshal1_image m x nb nc baseBits
      idBits baseBytes idBytes hbt hct wf bs
    exact ⟨_, wf1, _, h, rfl, rfl, by simp⟩
  · intro wf out pre post
    obtain ⟨wf1, h⟩ := NetworkBridgeFilterMarshaller.tightMarshal2_image m x nb nc baseBits
      idBits baseBytes idBytes hbt hct wf out pre post
    exact ⟨wf1, _, _, h, rfl, by simp⟩
  · intro wf y0 rest pre post
    obtain ⟨wf1, h⟩ := NetworkBridgeFilterMarshaller.tightUnmarshal_image m x nb nc baseBits
      idBits baseBytes idBytes hbt hct hlo hhi wf y0 rest pre post
    exact ⟨x, wf1, rest, _, h, rfl, by simp⟩

/-- Witness of C11: the sample filter with its broker id writes the single bit `true`. -/
theorem networkBridgeFilter_boolean_stream_parity_witness :
    (BaseTightRoundTrip Sample.marshaller Sample.filter.base 1 [] [7] ∧
     CachedTightRoundTrip Sample.marshaller (upcastBrokerId Sample.filter.networkBrokerId) 4
       [true] Sample.idBytes ∧
     -2147483648 ≤ Sample.filter.networkTTL ∧ Sample.filter.networkTTL < 2147483648) ∧
    (∃ n wf1 bs1,
      NetworkBridgeFilterMarshaller.tightMarshal1 Sample.marshaller 0 Sample.filter
        BooleanStream.empty = .ok (n, wf1, bs1) ∧
      bs1.bits = BooleanStream.empty.bits ++ ([] ++ [true]) ∧
      bs1.pos = BooleanStream.empty.pos ∧
      bs1.bits.length = BooleanStream.empty.bits.length +
        (([] : List Bool).length + [true].length)) :=
  ⟨⟨Sample.base_tight 7, Sample.cached_tight, by decide, by decide⟩,
   (networkBridgeFilter_boolean_stream_parity Sample.marshaller Sample.filter 1 4 [] [true]
      [7] Sample.idBytes (Sample.base_tight 7) Sample.cached_tight (by decide)
      (by decide)).1 0 BooleanStream.empty⟩

/-- C12: tight encoding with `networkBrokerId` absent. Let the base-class operations
round-trip the base fields of `x` with `nb` octets, and let the cached-object operations
treat a null pointer as the spec says (`CachedAbsent`). If `networkBrokerId` is null, then
`tightMarshal1` returns `nb + 4`, the base size plus the four octets of `networkTTL`;
`tightMarshal2` writes exactly the base octets and those four, `nb + 4` in all; and the
absence shows only as the bit `false` after the base-class bits. -/
theorem tightMarshal_absent_brokerId {W β : Type} (m : BaseDataStreamMarshaller W β)
    (x : NetworkBridgeFilter β) (nb : Int) (baseBits : List Bool) (baseBytes : List Byte)
    (habsent : x.networkBrokerId = none)
    (hbt : BaseTightRoundTrip m x.base nb baseBits baseBytes)
    (hnb : nb = baseBytes.length)
    (hca : CachedAbsent m)
    (hfit : baseBytes.length + 4 < 2147483648)
    (wf : W) (out : DataOutputStream) :
    ∃ rc wf1 bs1 wf2 written bs2,
      NetworkBridgeFilterMarshaller.tightMarshal1 m wf x BooleanStream.empty =
        .ok (rc, wf1, bs1) ∧
      NetworkBridgeFilterMarshaller.tightMarshal2 m wf1 x out bs1 =
        .ok (wf2, out ++ written, bs2) ∧
      rc = nb + 4 ∧
      written = baseBytes ++ int32Bytes x.networkTTL ∧
      (written.length : Int) = nb + 4 ∧
      bs1.bits = baseBits ++ [false] := by
  have hct : CachedTightRoundTrip m (upcastBrokerId x.networkBrokerId) 0 [false] [] := by
    rw [habsent]; exact hca
  obtain ⟨wf1, h1⟩ := NetworkBridgeFilterMarshaller.tightMarshal1_image m x nb 0 baseBits
    [false] baseBytes [] hbt hct wf BooleanStream.empty
  obtain ⟨wf2, h2⟩ := NetworkBridgeFilterMarshaller.tightMarshal2_image m x nb 0 baseBits
    [false] baseBytes [] hbt hct wf1 out [] []
  simp only [BooleanStream.empty, List.nil_append, List.append_nil, List.length_nil,
    Nat.zero_add] at h1 h2
  refine ⟨_, wf1, _, wf2, _, _, h1, h2, ?_, rfl, ?_, rfl⟩
  · subst hnb
    unfold wrapInt32
    omega
  · simp only [List.length_append, int32Bytes_length, hnb]
    push_cast
    ring

/-- Witness of C12: the sample filter without broker id takes `1 + 4` octets. -/
theorem tightMarshal_absent_brokerId_witness :
    (Sample.bareFilter.networkBrokerId = none ∧
     BaseTightRoundTrip Sample.marshaller Sample.bareFilter.base 1 [] [7] ∧
     (1 : Int) = ([7] : List Byte).length ∧
     CachedAbsent Sample.marshaller ∧
     ([7] : List Byte).length + 4 < 2147483648) ∧
    (∃ rc wf1 bs1 wf2 written bs2,
      NetworkBridgeFilterMarshaller.tightMarshal1 Sample.marshaller 0 Sample.bareFilter
        BooleanStream.empty = .ok (rc, wf1, bs1) ∧
      NetworkBridgeFilterMarshaller.tightMarshal2 Sample.marshaller wf1 Sample.bareFilter []
        bs1 = .ok (wf2, [] ++ written, bs2) ∧
      rc = 1 + 4 ∧
      written = [7] ++ int32Bytes Sample.bareFilter.networkTTL ∧
      (written.length : Int) = 1 + 4 ∧
      bs1.bits = [] ++ [false]) :=
  ⟨⟨rfl, Sample.base_tight 7, by decide, Sample.cached_absent, by decide⟩,
   tightMarshal_absent_brokerId Sample.marshaller Sample.bareFilter 1 [] [7] rfl
     (Sample.base_tight 7) (by decide) Sample.cached_absent (by decide) 0 []⟩

/-! ## Properties of the state tracker and SocketException -/

/-- C13: state-tracker replay. After tracking a connection `c`, a session `s` of it and a
consumer `k` under that session, `restore` replays exactly the three commands
connection-info `c`, session-info `s`, consumer-info `k`, in this order; after the close
of `k` has been tracked as well, it replays exactly connection-info `c` and session-info
`s`, and `k` does not reappear. -/
theorem tracker_replay_scenario (c : ConnectionInfo) (s : SessionInfo) (k : ConsumerInfo)
    (hs : s.connectionId = c.connectionId) (hkc : k.connectionId = c.connectionId)
    (hks : k.sessionId = s.sessionId) :
    (((ConnectionStateTracker.empty.track (.connectionInfo c)).track (.sessionInfo s)).track
        (.consumerInfo k)).restore =
      [.connectionInfo c, .sessionInfo s, .consumerInfo k] ∧
    ((((ConnectionStateTracker.empty.track (.connectionInfo c)).track (.sessionInfo s)).track
        (.consumerInfo k)).track
        (.removeConsumer k.connectionId k.sessionId k.consumerId)).restore =
      [.connectionInfo c, .sessionInfo s] := by
  constructor <;>
    simp [ConnectionStateTracker.track, ConnectionStateTracker.restore,
      ConnectionStateTracker.empty, ConnectionStateTracker.upsert,
      ConnectionStateTracker.updateConnection, ConnectionStateTracker.updateSession,
      ConnectionStateTracker.update, ConnectionStateTracker.erase,
      ConnectionStateTracker.restoreConnection, ConnectionStateTracker.restoreSession,
      ConnectionStateTracker.restoreConsumer, ConnectionStateTracker.consumerKey,
      hs, hkc, hks]

/-- Witness of C13: connection `1`, its session `2`, and consumer `3` under that session. -/
theorem tracker_replay_scenario_witness :
    ((⟨1, 2, 0⟩ : SessionInfo).connectionId = (⟨1, 0⟩ : ConnectionInfo).connectionId ∧
     (⟨1, 2, 3, 0⟩ : ConsumerInfo).connectionId = (⟨1, 0⟩ : ConnectionInfo).connectionId ∧
     (⟨1, 2, 3, 0⟩ : ConsumerInfo).sessionId = (⟨1, 2, 0⟩ : SessionInfo).sessionId) ∧
    (((ConnectionStateTracker.empty.track (.connectionInfo ⟨1, 0⟩)).track
        (.sessionInfo ⟨1, 2, 0⟩)).track (.consumerInfo ⟨1, 2, 3, 0⟩)).restore =
      [.connectionInfo ⟨1, 0⟩, .sessionInfo ⟨1, 2, 0⟩, .consumerInfo ⟨1, 2, 3, 0⟩] ∧
    ((((ConnectionStateTracker.empty.track (.connectionInfo ⟨1, 0⟩)).track
        (.sessionInfo ⟨1, 2, 0⟩)).track (.consumerInfo ⟨1, 2, 3, 0⟩)).track
        (.removeConsumer 1 2 3)).restore =
      [.connectionInfo ⟨1, 0⟩, .sessionInfo ⟨1, 2, 0⟩] :=
  ⟨⟨rfl, rfl, rfl⟩, tracker_replay_scenario ⟨1, 0⟩ ⟨1, 2, 0⟩ ⟨1, 2, 3, 0⟩ rfl rfl rfl⟩

/-- C14: `SocketException::clone`. Provided the assignment operator of the base class
copies the message and the recorded marks, the exception returned by `clone` carries the
message and the marks of the exception it was called on, and that exception is
unchanged. -/
theorem socketException_clone (b : ExceptionBase)
    (hassign : ∀ target ex, (b.assign target ex).message = ex.message ∧
      (b.assign target ex).stackTrace = ex.stackTrace)
    (e : SocketException) :
    (SocketException.clone b e).1.base.message = e.base.message ∧
    (SocketException.clone b e).1.base.stackTrace = e.base.stackTrace ∧
    (SocketException.clone b e).2 = e :=
  ⟨(hassign b.defaultConstructed e.base).1, (hassign b.defaultConstructed e.base).2, rfl⟩

/-- Witness of C14: cloning an exception with a message and one mark. -/
theorem socketException_clone_witness :
    (∀ target ex, (Sample.exceptionBase.assign target ex).message = ex.message ∧
      (Sample.exceptionBase.assign target ex).stackTrace = ex.stackTrace) ∧
    ((SocketException.clone Sample.exceptionBase
        { base := { message := "Connection refused",
                    stackTrace := [("Socket.cpp", 42)] } }).1.base.message =
      "Connection refused" ∧
     (SocketException.clone Sample.exceptionBase
        { base := { message := "Connection refused",
                    stackTrace := [("Socket.cpp", 42)] } }).1.base.stackTrace =
      [("Socket.cpp", 42)] ∧
     (SocketException.clone Sample.exceptionBase
        { base := { message := "Connection refused",
                    stackTrace := [("Socket.cpp", 42)] } }).2 =
      { base := { message := "Connection refused", stackTrace := [("Socket.cpp", 42)] } }) :=
  ⟨fun _ _ => ⟨rfl, rfl⟩,
   socketException_clone Sample.exceptionBase (fun _ _ => ⟨rfl, rfl⟩)
     { base := { message := "Connection refused", stackTrace := [("Socket.cpp", 42)] } }⟩

/-! ## Properties of URIHelper -/

namespace StdString

theorem charAt_append (pre post : List Char) (c : Char) :
    charAt (pre ++ c :: post) pre.length = .ok c := by
  simp [charAt]

theorem toSizeT_natCast (n : Nat) (h : n < 18446744073709551616) :
    toSizeT (n : Int) = n := by
  unfold toSizeT
  omega

theorem toInt_small (n : Nat) (h : n < 2147483648) : toInt n = n := by
  unfold toInt wrapInt32
  omega

end StdString

namespace URIHelper

open StdString

theorem isValidHexChar_ne {c : Char} (h : isValidHexChar c = true) :
    c ≠ '[' ∧ c ≠ ']' ∧ c ≠ '.' ∧ c ≠ ':' := by
  refine ⟨?_, ?_, ?_, ?_⟩ <;> (rintro rfl; revert h; decide)

theorem ip6Body_hex (ip : List Char) (length i : Int) (st : IP6State) (c : Char)
    (hat : charAt ip (toSizeT i) = .ok c) (hc : isValidHexChar c = true)
    (hw : st.word.length ≤ 3) :
    ip6Body ip length i st = .ok (.next { st with c := c, word := st.word ++ [c] }) := by
  obtain ⟨h1, h2, h3, h4⟩ := isValidHexChar_ne hc
  have hw2 : ¬ (3 < st.word.length) := by omega
  simp [ip6Body, hat, bind, Except.bind, pure, Except.pure, h1, h2, h3, h4, hc, hw2]

theorem ip6Body_colon (ip : List Char) (length i : Int) (st : IP6State)
    (hat : charAt ip (toSizeT i) = .ok ':') (hn : st.numberOfColons + 1 ≤ 7)
    (hp : st.numberOfPeriods ≤ 0) (hprev : st.c ≠ ':') :
    ip6Body ip length i st =
      .ok (.next { st with c := ':', numberOfColons := st.numberOfColons + 1, word := [] }) := by
  have h1 : ¬ (7 < st.numberOfColons + 1) := by omega
  have h2 : ¬ (0 < st.numberOfPeriods) := by omega
  simp [ip6Body, hat, bind, Except.bind, pure, Except.pure, h1, h2, hprev]

end URIHelper

namespace URIHelper

open StdString

theorem ip6Loop_succ (ip : List Char) (length : Int) (n : Nat) (i : Int) (st st1 : IP6State)
    (h : ip6Body ip length i st = .ok (.next st1)) :
    ip6Loop ip length (n + 1) i st = ip6Loop ip length n (i + 1) st1 := by
  simp [ip6Loop, h, bind, Except.bind]

theorem charAt_at (ip pre post : List Char) (c : Char) (i : Int)
    (hip : ip = pre ++ c :: post) (hi : i = pre.length) (hlen : ip.length < 2147483648) :
    charAt ip (toSizeT i) = .ok c := by
  have hpre : pre.length < 18446744073709551616 := by
    have : pre.length ≤ ip.length := by simp [hip]
    omega
  rw [hi, toSizeT_natCast _ hpre, hip]
  exact charAt_append pre post c

theorem getLast_getD_cons (c x : Char) (g : List Char) :
    (c :: g).getLast?.getD x = g.getLast?.getD c := by
  cases g with
  | nil => rfl
  | cons d g2 =>
    rw [List.getLast?_cons_cons, List.getLast?_eq_getLast _ (List.cons_ne_nil d g2)]
    rfl

theorem ip6Loop_hexGroup (ip : List Char) (length : Int) (g : List Char) :
    ∀ (pre post : List Char) (st : IP6State) (n : Nat) (i : Int),
      ip = pre ++ g ++ post → i = pre.length → ip.length < 2147483648 →
      (∀ c ∈ g, isValidHexChar c = true) → st.word.length + g.length ≤ 4 →
      ip6Loop ip length (g.length + n) i st =
        ip6Loop ip length n (i + g.length)
          { st with c := g.getLast?.getD st.c, word := st.word ++ g } := by
  induction g with
  | nil =>
    intro pre post st n i _ _ _ _ _
    cases st
    simp
  | cons c g ih =>
    intro pre post st n i hip hi hlen hhex hw
    have hat : charAt ip (toSizeT i) = .ok c :=
      charAt_at ip pre (g ++ post) c i (by simpa using hip) hi hlen
    have hc : isValidHexChar c = true := hhex c (List.mem_cons_self _ _)
    have hw3 : st.word.length ≤ 3 := by simp at hw; omega
    have hbody := ip6Body_hex ip length i st c hat hc hw3
    have hlen1 : (c :: g).length + n = (g.length + n) + 1 := by simp; omega
    rw [hlen1, ip6Loop_succ ip length _ i st _ hbody]
    rw [ih (pre ++ [c]) post { st with c := c, word := st.word ++ [c] } n (i + 1)
      (by simpa using hip) (by simp [hi]) hlen
      (fun d hd => hhex d (List.mem_cons_of_mem _ hd))
      (by simp at hw ⊢; omega)]
    have hi2 : i + 1 + (g.length : Int) = i + ((c :: g).length : Nat) := by
      simp; ring
    rw [hi2]
    simp [getLast_getD_cons]

end URIHelper

namespace URIHelper

open StdString

theorem intercalate_cons_cons (g g2 : List Char) (rest : List (List Char)) :
    [':'].intercalate (g :: g2 :: rest) = g ++ ':' :: [':'].intercalate (g2 :: rest) := by
  simp [List.intercalate, List.intersperse]

theorem getLast_getD_hex (g : List Char) (x : Char) (hne : g ≠ [])
    (hhex : ∀ c ∈ g, isValidHexChar c = true) :
    isValidHexChar (g.getLast?.getD x) = true := by
  rw [List.getLast?_eq_getLast _ hne]
  exact hhex _ (List.getLast_mem hne)

theorem ip6Loop_groups (ip : List Char) (length : Int) (gs : List (List Char)) :
    ∀ (g pre post : List Char) (st : IP6State) (n : Nat) (i : Int),
      ip = pre ++ [':'].intercalate (g :: gs) ++ post → i = pre.length →
      ip.length < 2147483648 → (∀ h ∈ g :: gs, IsHexGroup h) →
      st.word = [] → st.numberOfPeriods = 0 → st.numberOfColons + gs.length ≤ 7 →
      ∃ st1, ip6Loop ip length (([':'].intercalate (g :: gs)).length + n) i st =
          ip6Loop ip length n (i + (([':'].intercalate (g :: gs)).length : Nat)) st1 ∧
        st1.word ≠ [] ∧ st1.numberOfPeriods = 0 ∧
        st1.numberOfColons = st.numberOfColons + gs.length ∧
        st1.doubleColon = st.doubleColon ∧ st1.offset = st.offset := by
  induction gs with
  | nil =>
    intro g pre post st n i hip hi hlen hg hw hp _
    obtain ⟨h1, h4, hhex⟩ := hg g (List.mem_cons_self _ _)
    have hint : [':'].intercalate [g] = g := by simp [List.intercalate, List.intersperse]
    rw [hint] at hip ⊢
    refine ⟨_, ip6Loop_hexGroup ip length g pre post st n i hip hi hlen hhex
      (by rw [hw]; simpa using h4), ?_, hp, by simp, rfl, rfl⟩
    simp only [hw, List.nil_append]
    intro h
    rw [h] at h1
    simp at h1
  | cons g2 rest ih =>
    intro g pre post st n i hip hi hlen hg hw hp hn
    obtain ⟨h1, h4, hhex⟩ := hg g (List.mem_cons_self _ _)
    have hne : g ≠ [] := by
      intro h
      rw [h] at h1
      simp at h1
    rw [intercalate_cons_cons] at hip ⊢
    have hlen1 : (g ++ ':' :: [':'].intercalate (g2 :: rest)).length + n =
        g.length + ((([':'].intercalate (g2 :: rest)).length + n) + 1) := by
      simp; omega
    rw [hlen1, ip6Loop_hexGroup ip length g pre (':' :: [':'].intercalate (g2 :: rest) ++ post)
      st _ i (by simpa using hip) hi hlen hhex (by rw [hw]; simpa using h4)]
    have hat : charAt ip (toSizeT (i + (g.length : Nat))) = .ok ':' :=
      charAt_at ip (pre ++ g) ([':'].intercalate (g2 :: rest) ++ post) ':' _
        (by simpa using hip) (by simp [hi]) hlen
    have hcolon := ip6Body_colon ip length (i + (g.length : Nat))
      { st with c := g.getLast?.getD st.c, word := st.word ++ g } hat
      (by simp at hn ⊢; omega) (by simp [hp])
      (isValidHexChar_ne (getLast_getD_hex g st.c hne hhex)).2.2.2
    rw [ip6Loop_succ ip length _ _ _ _ hcolon]
    obtain ⟨st1, hloop, hw1, hp1, hn1, hd1, ho1⟩ := ih g2 (pre ++ g ++ [':']) post
      { st with c := ':', numberOfColons := st.numberOfColons + 1, word := [] } n
      (i + (g.length : Nat) + 1) (by simpa using hip) (by simp [hi]; ring) hlen
      (fun h hh => hg h (List.mem_cons_of_mem _ hh)) rfl hp (by simp at hn ⊢; omega)
    refine ⟨st1, ?_, hw1, hp1, ?_, hd1, ho1⟩
    · rw [hloop]
      congr 1
      simp
      ring
    · rw [hn1]
      simp
      ring

end URIHelper

namespace URIHelper

open StdString

theorem ip6Body_open (ip : List Char) (length : Int) (st : IP6State) (c1 : Char)
    (h0 : charAt ip (toSizeT 0) = .ok '[')
    (hlast : charAt ip (toSizeT (length - 1)) = .ok ']')
    (h1 : charAt ip 1 = .ok c1) (hc1 : c1 ≠ ':') (hlen : 4 ≤ length) :
    ip6Body ip length 0 st = .ok (.next { st with c := '[', offset := 1 }) := by
  have h4 : ¬ (length < 4) := by omega
  simp [ip6Body, h0, hlast, h1, hc1, h4, bind, Except.bind, pure, Except.pure]

theorem ip6Body_close (ip : List Char) (length i : Int) (st : IP6State)
    (hat : charAt ip (toSizeT i) = .ok ']') (hi : i = length - 1)
    (h0 : charAt ip 0 = .ok '[') :
    ip6Body ip length i st = .ok (.next { st with c := ']' }) := by
  subst hi
  simp [ip6Body, hat, h0, bind, Except.bind, pure, Except.pure]

theorem intercalate_length_bounds (gs : List (List Char)) :
    ∀ (g : List Char), (∀ h ∈ g :: gs, IsHexGroup h) →
      2 * gs.length + 1 ≤ ([':'].intercalate (g :: gs)).length ∧
      ([':'].intercalate (g :: gs)).length ≤ 5 * gs.length + 4 := by
  induction gs with
  | nil =>
    intro g hg
    obtain ⟨h1, h4, _⟩ := hg g (List.mem_cons_self _ _)
    have hint : [':'].intercalate [g] = g := by simp [List.intercalate, List.intersperse]
    rw [hint]
    simp
    omega
  | cons g2 rest ih =>
    intro g hg
    obtain ⟨h1, h4, _⟩ := hg g (List.mem_cons_self _ _)
    have := ih g2 (fun h hh => hg h (List.mem_cons_of_mem _ hh))
    rw [intercalate_cons_cons]
    simp only [List.length_append, List.length_cons]
    omega

theorem ip6Final_word (ip : List Char) (length : Int) (st : IP6State)
    (hw : st.word ≠ []) (hp : st.numberOfPeriods = 0) (hn : st.numberOfColons = 7) :
    ip6Final ip length st = .ok true := by
  simp [ip6Final, hw, hp, hn, pure, Except.pure]

end URIHelper

/-- C18: `isValidIP6Address` returns `true` for every string made of eight groups of one to
four hexadecimal digits separated by single ':' characters, and for the same string
enclosed in '[' and ']'. -/
theorem isValidIP6Address_eight_groups (gs : List (List Char)) (hlen : gs.length = 8)
    (hg : ∀ g ∈ gs, URIHelper.IsHexGroup g) :
    URIHelper.isValidIP6Address ([':'].intercalate gs) = .ok true ∧
    URIHelper.isValidIP6Address ('[' :: [':'].intercalate gs ++ [']']) = .ok true := by
  obtain ⟨g, rest, rfl⟩ : ∃ g rest, gs = g :: rest := by
    cases gs with
    | nil => simp at hlen
    | cons g rest => exact ⟨g, rest, rfl⟩
  have hrest : rest.length = 7 := by simpa using hlen
  obtain ⟨hlo, hhi⟩ := URIHelper.intercalate_length_bounds rest g hg
  rw [hrest] at hlo hhi
  obtain ⟨hg1, _, hghex⟩ := hg g (List.mem_cons_self _ _)
  constructor
  · have hL : StdString.toInt ([':'].intercalate (g :: rest)).length =
        (([':'].intercalate (g :: rest)).length : Int) := StdString.toInt_small _ (by omega)
    obtain ⟨st1, hloop, hw1, hp1, hn1, _, _⟩ := URIHelper.ip6Loop_groups
      ([':'].intercalate (g :: rest)) (([':'].intercalate (g :: rest)).length : Int) rest g []
      [] URIHelper.ip6Init 0 0 (by simp) (by simp) (by omega) hg rfl rfl
      (by simp [URIHelper.ip6Init, hrest])
    have hn7 : st1.numberOfColons = 7 := by rw [hn1, hrest]; rfl
    have h2 : ¬ ((([':'].intercalate (g :: rest)).length : Int) < 2) := by omega
    simp only [URIHelper.isValidIP6Address, hL, h2, if_false, Int.toNat_ofNat]
    simp only [Nat.add_zero] at hloop
    rw [hloop]
    simp [URIHelper.ip6Loop, bind, Except.bind, URIHelper.ip6Final_word _ _ _ hw1 hp1 hn7]
  · have hlenip : ('[' :: [':'].intercalate (g :: rest) ++ [']']).length =
        ([':'].intercalate (g :: rest)).length + 2 := by simp
    have hL : StdString.toInt ('[' :: [':'].intercalate (g :: rest) ++ [']']).length =
        ((([':'].intercalate (g :: rest)).length + 2 : Nat) : Int) := by
      rw [hlenip]
      exact StdString.toInt_small _ (by omega)
    obtain ⟨c1, g1, rfl⟩ : ∃ c1 g1, g = c1 :: g1 := by
      cases g with
      | nil => simp at hg1
      | cons c1 g1 => exact ⟨c1, g1, rfl⟩
    have hc1 : c1 ≠ ':' :=
      (URIHelper.isValidHexChar_ne (hghex c1 (List.mem_cons_self _ _))).2.2.2
    have hhead : ∃ tail, [':'].intercalate ((c1 :: g1) :: rest) = c1 :: tail := by
      cases rest with
      | nil => exact ⟨g1, by simp [List.intercalate, List.intersperse]⟩
      | cons g2 rest2 => exact ⟨_, by rw [URIHelper.intercalate_cons_cons]; rfl⟩
    obtain ⟨tail, htail⟩ := hhead
    have hopen := URIHelper.ip6Body_open
      ('[' :: [':'].intercalate ((c1 :: g1) :: rest) ++ [']'])
      ((([':'].intercalate ((c1 :: g1) :: rest)).length + 2 : Nat) : Int) URIHelper.ip6Init c1
      (by simp [StdString.toSizeT, StdString.charAt])
      (URIHelper.charAt_at _ ('[' :: [':'].intercalate ((c1 :: g1) :: rest)) [] ']' _
        (by simp) (by simp; ring) (by rw [hlenip]; omega))
      (by rw [htail]; simp [StdString.charAt]) hc1 (by omega)
    obtain ⟨st1, hloop, hw1, hp1, hn1, _, _⟩ := URIHelper.ip6Loop_groups
      ('[' :: [':'].intercalate ((c1 :: g1) :: rest) ++ [']'])
      ((([':'].intercalate ((c1 :: g1) :: rest)).length + 2 : Nat) : Int) rest (c1 :: g1) ['[']
      [']'] { URIHelper.ip6Init with c := '[', offset := 1 } 1 (0 + 1) (by simp) (by simp)
      (by rw [hlenip]; omega) hg rfl rfl (by simp [URIHelper.ip6Init, hrest])
    have hn7 : st1.numberOfColons = 7 := by rw [hn1, hrest]; rfl
    have hclose := URIHelper.ip6Body_close
      ('[' :: [':'].intercalate ((c1 :: g1) :: rest) ++ [']'])
      ((([':'].intercalate ((c1 :: g1) :: rest)).length + 2 : Nat) : Int)
      (0 + 1 + (([':'].intercalate ((c1 :: g1) :: rest)).length : Nat)) st1
      (URIHelper.charAt_at _ ('[' :: [':'].intercalate ((c1 :: g1) :: rest)) [] ']' _
        (by simp) (by simp; ring) (by rw [hlenip]; omega))
      (by push_cast; ring) (by simp [StdString.charAt])
    have h2 : ¬ (((([':'].intercalate ((c1 :: g1) :: rest)).length + 2 : Nat) : Int) < 2) := by
      omega
    have hfuel : ([':'].intercalate ((c1 :: g1) :: rest)).length + 2 =
        (([':'].intercalate ((c1 :: g1) :: rest)).length + 1) + 1 := by omega
    simp only [URIHelper.isValidIP6Address, hL, h2, if_false, Int.toNat_ofNat]
    rw [hfuel, URIHelper.ip6Loop_succ _ _ _ _ _ _ hopen, hloop,
      URIHelper.ip6Loop_succ _ _ _ _ _ _ hclose]
    simp [URIHelper.ip6Loop, bind, Except.bind,
      URIHelper.ip6Final_word _ _ { st1 with c := ']' } hw1 hp1 hn7]

/-- Witness of C18: the address 2001:db8:0:0:0:ff00:42:8329, bare and in brackets. -/
theorem isValidIP6Address_eight_groups_witness :
    ((["2001".toList, "db8".toList, "0".toList, "0".toList, "0".toList, "ff00".toList,
        "42".toList, "8329".toList] : List (List Char)).length = 8 ∧
     ∀ g ∈ (["2001".toList, "db8".toList, "0".toList, "0".toList, "0".toList, "ff00".toList,
        "42".toList, "8329".toList] : List (List Char)), URIHelper.IsHexGroup g) ∧
    (URIHelper.isValidIP6Address ([':'].intercalate
        ["2001".toList, "db8".toList, "0".toList, "0".toList, "0".toList, "ff00".toList,
          "42".toList, "8329".toList]) = .ok true ∧
     URIHelper.isValidIP6Address ('[' :: [':'].intercalate
        ["2001".toList, "db8".toList, "0".toList, "0".toList, "0".toList, "ff00".toList,
          "42".toList, "8329".toList] ++ [']']) = .ok true) :=
  ⟨⟨by decide, by decide⟩,
   isValidIP6Address_eight_groups
     ["2001".toList, "db8".toList, "0".toList, "0".toList, "0".toList, "ff00".toList,
       "42".toList, "8329".toList] (by decide) (by decide)⟩

/-- C16, at the failing input: the authority "localhost:8080" has a valid domain name as
host and a decimal port, contains no '@', '[' or ']', and yet `parseAuthority` with
`forceServer` set raises `URISyntaxException`: since `find( ']' )` is `npos`, the test
`endindex < index` fails, the whole authority is taken as the host, and ':' is not
allowed in a domain name. -/
theorem parseAuthority_host_port_raises :
    URIHelper.isValidDomainName "localhost".toList = .ok true ∧
    Integer.parseInt "8080".toList = .ok 8080 ∧
    StdString.find "localhost:8080".toList ']' 0 = StdString.npos ∧
    URIHelper.parseAuthority true "localhost:8080".toList =
      .error (.URISyntaxException "Host address is not valid" (-1)) := by
  refine ⟨by decide, by decide, by decide, by decide⟩

/-- C17, at the failing inputs: `isValidIPv4Address` rejects the dotted quad "1.2.3.4"
(its second number is read from `substr( 2, 3 )`, that is "2.3") and accepts "1.2"; and
`isValidHost` raises on "1.2.3.4" when `forceServer` is set. -/
theorem isValidIPv4Address_dotted_quad :
    URIHelper.isValidIPv4Address "1.2.3.4".toList = .ok false ∧
    StdString.substr "1.2.3.4".toList 2 3 = .ok "2.3".toList ∧
    URIHelper.isValidIPv4Address "1.2".toList = .ok true ∧
    URIHelper.isValidHost true "1.2.3.4".toList =
      .error (.URISyntaxException "Host IPv4 address is not valid" (-1)) := by
  refine ⟨by decide, by decide, by decide, by decide⟩

/-- C19, at the failing input: `isValidIP6Address` accepts "1:2:3:4:5:6:7:", seven groups
each followed by a single ':', which has no IPv4 ending, an empty last word, and does not
end in "::". -/
theorem isValidIP6Address_trailing_colon :
    URIHelper.isValidIP6Address "1:2:3:4:5:6:7:".toList = .ok true := by
  decide

/-- C20, at the failing input: `isValidIP6Address` accepts "1::2:3:4:5:6:1.2.3.4", which
has an IPv4 ending and seven ':' characters and does not begin with "::". -/
theorem isValidIP6Address_seven_colons_ipv4 :
    ("1::2:3:4:5:6:1.2.3.4".toList.filter (fun c => c = ':')).length = 7 ∧
    URIHelper.isValidIP6Address "1::2:3:4:5:6:1.2.3.4".toList = .ok true := by
  refine ⟨by decide, by decide⟩

/-! ## The registry after unregisterFactory -/

namespace StlMap

theorem not_mem_getKeys_remove (m : StlMap) (key : String) : key ∉ (m.remove key).getKeys := by
  simp [remove, getKeys]

theorem mem_getKeys_remove_other (m : StlMap) (key k : String) (hk : k ≠ key) :
    k ∈ (m.remove key).getKeys ↔ k ∈ m.getKeys := by
  simp [remove, getKeys, hk]

theorem getValue_remove_other (m : StlMap) (key k : String) (hk : k ≠ key) :
    (m.remove key).getValue k = m.getValue k := by
  induction m with
  | nil => rfl
  | cons e rest ih =>
    simp only [getValue, remove] at ih ⊢
    by_cases h1 : e.1 = key
    · have hb : (e.1 == k) = false := by
        simp only [beq_eq_false_iff_ne, ne_eq]
        rw [h1]
        exact fun h => hk h.symm
      have hf : (e.1 != key) = false := by simp [h1]
      simp only [List.filter_cons, hf, List.find?_cons, hb]
      exact ih
    · have hf : (e.1 != key) = true := by simp [h1]
      simp only [List.filter_cons, hf, List.find?_cons, if_true]
      cases h2 : (e.1 == k)
      · exact ih
      · rfl

end StlMap

/-- C30: after `unregisterFactory(n)` for a registered name `n`, `findFactory(n)` fails
with `NoSuchElementException` and `n` is absent from `getTransportNames`, while every
other name is registered exactly if it was before, and `findFactory` gives for it what it
gave before. -/
theorem unregisterFactory_removes_only_that_name (r : TransportRegistry) (n : String)
    (hreg : n ∈ r.getTransportNames) :
    (r.unregisterFactory n).1 = .ok () ∧
    ((r.unregisterFactory n).2.findFactory n).1 = .error .NoSuchElementException ∧
    n ∉ (r.unregisterFactory n).2.getTransportNames ∧
    ∀ m, m ≠ n →
      (m ∈ (r.unregisterFactory n).2.getTransportNames ↔ m ∈ r.getTransportNames) ∧
      ((r.unregisterFactory n).2.findFactory m).1 = (r.findFactory m).1 := by
  have hc : r.registry.containsKey n = true :=
    (StlMap.containsKey_iff_mem_getKeys _ _).2 hreg
  obtain ⟨v, hv⟩ := StlMap.getValue_of_containsKey _ _ hc
  have hstate : (r.unregisterFactory n).2 =
      { registry := r.registry.remove n, deleted := v :: r.deleted } := by
    simp [TransportRegistry.unregisterFactory, hc, hv]
  have hnot : (r.registry.remove n).containsKey n = false :=
    (StlMap.containsKey_eq_false_iff _ _).2 (StlMap.not_mem_getKeys_remove _ _)
  refine ⟨TransportRegistry.unregisterFactory_result_ok r n, ?_, ?_, ?_⟩
  · rw [hstate]
    simp [TransportRegistry.findFactory, hnot]
  · rw [hstate]
    exact StlMap.not_mem_getKeys_remove _ _
  · intro m hm
    rw [hstate]
    refine ⟨StlMap.mem_getKeys_remove_other _ _ _ hm, ?_⟩
    have hck : (r.registry.remove n).containsKey m = r.registry.containsKey m := by
      rw [Bool.eq_iff_iff, StlMap.containsKey_iff_mem_getKeys,
        StlMap.containsKey_iff_mem_getKeys]
      exact StlMap.mem_getKeys_remove_other _ _ _ hm
    simp only [TransportRegistry.findFactory, hck, StlMap.getValue_remove_other _ _ _ hm]
    split <;> rfl

/-- Witness of C30: unregistering "tcp" from a registry that knows "ssl" and "tcp". -/
theorem unregisterFactory_removes_only_that_name_witness :
    "tcp" ∈ TransportRegistry.getTransportNames
      { registry := [("ssl", 7), ("tcp", 1)], deleted := [] } ∧
    ((TransportRegistry.unregisterFactory
        { registry := [("ssl", 7), ("tcp", 1)], deleted := [] } "tcp").2.findFactory
      "tcp").1 = .error .NoSuchElementException :=
  ⟨by decide,
   (unregisterFactory_removes_only_that_name
      { registry := [("ssl", 7), ("tcp", 1)], deleted := [] } "tcp" (by decide)).2.1⟩

/-! ## parseURI and validateScheme -/

/-- C24: `parseURI( uri, forceServer )` returns normally for every string and both values
of `forceServer`, syntactically invalid URIs included (such as ":x", whose scheme is
empty): its whole parsing logic is disabled. -/
theorem parseURI_always_returns (uri : List Char) (forceServer : Bool) :
    URIHelper.parseURI uri forceServer = .ok () ∧
    URIHelper.parseURI ":x".toList forceServer = .ok () :=
  ⟨rfl, rfl⟩

namespace URIEncoderDecoder

theorem firstIllegal_of_all (legal : List Char) (s : List Char) :
    ∀ i, (∀ c ∈ s, (Character.isLetter c || Character.isDigit c || legal.contains c) = true) →
      firstIllegal legal s i = none := by
  induction s with
  | nil => intro i _; rfl
  | cons c rest ih =>
    intro i h
    have hc := h c (List.mem_cons_self _ _)
    simp only [firstIllegal, hc, if_true]
    exact ih (i + 1) (fun d hd => h d (List.mem_cons_of_mem _ hd))

theorem firstIllegal_of_first (legal : List Char) (pre : List Char) (d : Char)
    (post : List Char) :
    ∀ i, (∀ c ∈ pre, (Character.isLetter c || Character.isDigit c || legal.contains c) = true) →
      (Character.isLetter d || Character.isDigit d || legal.contains d) = false →
      firstIllegal legal (pre ++ d :: post) i = some (i + pre.length) := by
  induction pre with
  | nil =>
    intro i _ hd
    show firstIllegal legal (d :: post) i = some (i + 0)
    rw [firstIllegal, if_neg (by rw [hd]; exact Bool.false_ne_true)]
    rfl
  | cons c rest ih =>
    intro i h hd
    have hc := h c (List.mem_cons_self _ _)
    show firstIllegal legal (c :: (rest ++ d :: post)) i = _
    rw [firstIllegal, if_pos hc, ih (i + 1) (fun e he => h e (List.mem_cons_of_mem _ he)) hd]
    simp only [List.length_cons, Option.some.injEq]
    omega

theorem firstIllegal_none_iff (legal : List Char) (s : List Char) :
    ∀ i, firstIllegal legal s i = none ↔
      ∀ c ∈ s, (Character.isLetter c || Character.isDigit c || legal.contains c) = true := by
  induction s with
  | nil => intro i; simp [firstIllegal]
  | cons c rest ih =>
    intro i
    by_cases hc : (Character.isLetter c || Character.isDigit c || legal.contains c) = true
    · simp only [firstIllegal, hc, if_true, ih (i + 1), List.mem_cons, forall_eq_or_imp,
        true_and]
    · simp only [firstIllegal, hc, if_false, List.mem_cons, forall_eq_or_imp, false_and]
      simp

end URIEncoderDecoder

namespace URIHelper

theorem isSchemeChar_eq (c : Char) :
    IsSchemeChar c =
      (Character.isLetter c || Character.isDigit c || ['+', '-', '.'].contains c) := by
  simp only [IsSchemeChar, List.contains, List.elem]
  cases h1 : (c == '+') <;> cases h2 : (c == '-') <;> cases h3 : (c == '.') <;> simp_all

end URIHelper

/-- C23: `validateScheme` on a non-empty scheme, with an index such that the positions of
the scheme added to it stay in the `int` range. If the first character is not a letter it
raises `URISyntaxException` reporting the supplied index. Otherwise it returns normally
when every character is a letter, a digit or one of '+', '-', '.', and when there is
another character it raises `URISyntaxException` reporting the supplied index plus the
position of the first such character; so it raises exactly if there is such a character. -/
theorem validateScheme_spec (c : Char) (rest : List Char) (index : Int)
    (hlo : -2147483648 ≤ index) (hhi : index + (c :: rest).length < 2147483648) :
    (Character.isLetter c = false →
      URIHelper.validateScheme (c :: rest) index =
        .error (.URISyntaxException "Schema must start with a Letter." index)) ∧
    (Character.isLetter c = true →
      ((∀ d ∈ c :: rest, URIHelper.IsSchemeChar d = true) →
        URIHelper.validateScheme (c :: rest) index = .ok ()) ∧
      (∀ pre d post, c :: rest = pre ++ d :: post →
        (∀ e ∈ pre, URIHelper.IsSchemeChar e = true) → URIHelper.IsSchemeChar d = false →
        URIHelper.validateScheme (c :: rest) index =
          .error (.URISyntaxException "Invalid Schema" (index + pre.length))) ∧
      ((∃ e, URIHelper.validateScheme (c :: rest) index = .error e) ↔
        ∃ d ∈ c :: rest, URIHelper.IsSchemeChar d = false)) := by
  have hat : StdString.charAt (c :: rest) 0 = .ok c := rfl
  constructor
  · intro hc
    simp [URIHelper.validateScheme, hat, bind, Except.bind, hc]
  · intro hc
    refine ⟨?_, ?_, ?_⟩
    · intro hall
      have hnone := URIEncoderDecoder.firstIllegal_of_all ['+', '-', '.'] (c :: rest) 0
        (fun d hd => by rw [← URIHelper.isSchemeChar_eq]; exact hall d hd)
      simp [URIHelper.validateScheme, hat, bind, Except.bind, hc,
        URIEncoderDecoder.validateSimple, hnone]
    · intro pre d post hsplit hpre hd
      have hsome := URIEncoderDecoder.firstIllegal_of_first ['+', '-', '.'] pre d post 0
        (fun e he => by rw [← URIHelper.isSchemeChar_eq]; exact hpre e he)
        (by rw [← URIHelper.isSchemeChar_eq]; exact hd)
      have hlen : pre.length < (c :: rest).length := by
        rw [hsplit]; simp
      rw [Nat.zero_add] at hsome
      have hwrap : wrapInt32 (index + (pre.length : Int)) = index + pre.length := by
        unfold wrapInt32
        omega
      rw [← hsplit] at hsome
      simp only [URIHelper.validateScheme, hat, bind, Except.bind, hc,
        URIEncoderDecoder.validateSimple, hsome]
      simp [hwrap]
    · constructor
      · rintro ⟨e, he⟩
        by_contra hno
        have hall : ∀ d ∈ c :: rest, URIHelper.IsSchemeChar d = true := by
          intro d hd
          by_contra hd2
          exact hno ⟨d, hd, by simpa using hd2⟩
        have hnone := URIEncoderDecoder.firstIllegal_of_all ['+', '-', '.'] (c :: rest) 0
          (fun d hd => by rw [← URIHelper.isSchemeChar_eq]; exact hall d hd)
        simp [URIHelper.validateScheme, hat, bind, Except.bind, hc,
          URIEncoderDecoder.validateSimple, hnone] at he
      · rintro ⟨d, hd, hbad⟩
        cases hfi : URIEncoderDecoder.firstIllegal ['+', '-', '.'] (c :: rest) 0 with
        | none =>
          have hall := (URIEncoderDecoder.firstIllegal_none_iff _ _ _).1 hfi d hd
          rw [← URIHelper.isSchemeChar_eq, hbad] at hall
          cases hall
        | some k =>
          exact ⟨_, by
            simp only [URIHelper.validateScheme, hat, bind, Except.bind, hc,
              URIEncoderDecoder.validateSimple, hfi]
            rfl⟩

/-- Witness of C23: the scheme "h+t?p" at index 10 has its first offending character at
position 3. -/
theorem validateScheme_spec_witness :
    ((-2147483648 : Int) ≤ 10 ∧ (10 : Int) + ("h+t?p".toList).length < 2147483648) ∧
    (Character.isLetter 'h' = true →
      URIHelper.validateScheme "h+t?p".toList 10 =
        .error (.URISyntaxException "Invalid Schema" (10 + ("h+t".toList).length))) :=
  ⟨⟨by decide, by decide⟩,
   fun h => ((validateScheme_spec 'h' "+t?p".toList 10 (by decide) (by decide)).2 h).2.1
     "h+t".toList '?' "p".toList (by decide) (by decide) (by decide)⟩

/-! ## isValidHost and forceServer -/

theorem catchAsURISyntaxException_ok_iff {α : Type} (r : Except URIError α) (a : α) :
    catchAsURISyntaxException r = .ok a ↔ r = .ok a := by
  cases r with
  | ok b => simp [catchAsURISyntaxException]
  | error e => cases e <;> simp [catchAsURISyntaxException]

theorem except_bind_ok {ε α β : Type} (a : α) (f : α → Except ε β) :
    (Except.ok a >>= f) = f a := by
  simp [bind, Except.bind]

theorem except_bind_error {ε α β : Type} (e : ε) (f : α → Except ε β) :
    (Except.error e >>= f) = Except.error e := by
  simp [bind, Except.bind]

theorem except_pure {ε α : Type} (a : α) : (pure a : Except ε α) = Except.ok a := by
  simp [pure, Except.pure]

/-- C26: `forceServer` changes only the way `isValidHost` fails, never what it accepts: for
every host, `isValidHost( false, host )` returns `true` exactly if
`isValidHost( true, host )` returns `true`, and `isValidHost( true, host )` never returns
`false`. -/
theorem isValidHost_forceServer (host : List Char) :
    (URIHelper.isValidHost false host = .ok true ↔
      URIHelper.isValidHost true host = .ok true) ∧
    URIHelper.isValidHost true host ≠ .ok false := by
  unfold URIHelper.isValidHost
  simp only [ne_eq, catchAsURISyntaxException_ok_iff]
  generalize StdString.charAt host 0 = a0
  generalize StdString.charAt host (StdString.sizeSub host.length 1) = al
  generalize URIHelper.isValidIP6Address host = a6
  generalize URIHelper.isValidDomainName host = ad
  generalize URIHelper.isValidIPv4Address host = a4
  generalize StdString.charAt host (StdString.sizeAdd (StdString.find_last_of host '.') 1) = an
  generalize (decide ¬StdString.find host '[' 0 = StdString.npos ||
      decide ¬StdString.find host ']' 0 = StdString.npos) = b1
  generalize (decide (StdString.find_last_of host '.' = StdString.npos) ||
      decide (StdString.find_last_of host '.' = StdString.sizeSub host.length 1)) = b2
  rcases a0 with e0 | first
  · simp only [except_bind_ok, except_bind_error, except_pure, Bool.false_eq_true, if_false, if_true, Bool.not_true, Bool.not_false]
    simp
  · by_cases hf : first = '['
    · simp only [except_bind_ok, except_bind_error, except_pure, Bool.false_eq_true, if_false, if_true, Bool.not_true, Bool.not_false, if_pos hf]
      rcases al with el | last
      · simp only [except_bind_ok, except_bind_error, except_pure, Bool.false_eq_true, if_false, if_true, Bool.not_true, Bool.not_false]
        simp
      · by_cases hl : last = ']'
        · simp only [except_bind_ok, except_bind_error, except_pure, Bool.false_eq_true, if_false, if_true, Bool.not_true, Bool.not_false, if_neg (not_not.2 hl)]
          rcases a6 with e6 | v6
          · simp only [except_bind_ok, except_bind_error, except_pure, Bool.false_eq_true, if_false, if_true, Bool.not_true, Bool.not_false]
            simp
          · cases v6 <;> simp only [except_bind_ok, except_bind_error, except_pure, Bool.false_eq_true, if_false, if_true, Bool.not_true, Bool.not_false] <;> simp
        · simp only [except_bind_ok, except_bind_error, except_pure, Bool.false_eq_true, if_false, if_true, Bool.not_true, Bool.not_false, if_pos hl]
          simp
    · simp only [except_bind_ok, except_bind_error, except_pure, Bool.false_eq_true, if_false, if_true, Bool.not_true, Bool.not_false, if_neg hf]
      cases b1
      · simp only [except_bind_ok, except_bind_error, except_pure, Bool.false_eq_true, if_false, if_true, Bool.not_true, Bool.not_false]
        cases b2
        · simp only [except_bind_ok, except_bind_error, except_pure, Bool.false_eq_true, if_false, if_true, Bool.not_true, Bool.not_false]
          rcases an with en | after
          · simp only [except_bind_ok, except_bind_error, except_pure, Bool.false_eq_true, if_false, if_true, Bool.not_true, Bool.not_false]
            simp
          · simp only [except_bind_ok, except_bind_error, except_pure, Bool.false_eq_true, if_false, if_true, Bool.not_true, Bool.not_false]
            cases hd : Character.isDigit after
            · simp only [except_bind_ok, except_bind_error, except_pure, Bool.false_eq_true, if_false, if_true, Bool.not_true, Bool.not_false]
              rcases ad with ed | vd
              · simp only [except_bind_ok, except_bind_error, except_pure, Bool.false_eq_true, if_false, if_true, Bool.not_true, Bool.not_false]
                simp
              · cases vd <;> simp only [except_bind_ok, except_bind_error, except_pure, Bool.false_eq_true, if_false, if_true, Bool.not_true, Bool.not_false] <;> simp
            · simp only [except_bind_ok, except_bind_error, except_pure, Bool.false_eq_true, if_false, if_true, Bool.not_true, Bool.not_false]
              rcases a4 with e4 | v4
              · simp only [except_bind_ok, except_bind_error, except_pure, Bool.false_eq_true, if_false, if_true, Bool.not_true, Bool.not_false]
                simp
              · cases v4 <;> simp only [except_bind_ok, except_bind_error, except_pure, Bool.false_eq_true, if_false, if_true, Bool.not_true, Bool.not_false] <;> simp
        · simp only [except_bind_ok, except_bind_error, except_pure, Bool.false_eq_true, if_false, if_true, Bool.not_true, Bool.not_false]
          rcases ad with ed | vd
          · simp only [except_bind_ok, except_bind_error, except_pure, Bool.false_eq_true, if_false, if_true, Bool.not_true, Bool.not_false]
            simp
          · cases vd <;> simp only [except_bind_ok, except_bind_error, except_pure, Bool.false_eq_true, if_false, if_true, Bool.not_true, Bool.not_false] <;> simp
      · simp only [except_bind_ok, except_bind_error, except_pure, Bool.false_eq_true, if_false, if_true, Bool.not_true, Bool.not_false]
        simp

/-! ## isValidDomainName -/

namespace StringTokenizer

theorem tokensAux_eq_splitOnP (d : Char) (s : List Char) :
    ∀ cur, tokensAux d s cur =
      (List.splitOnP.go (fun c => c == d) s cur.reverse).filter (fun l => l ≠ []) := by
  induction s with
  | nil =>
    intro cur
    by_cases h : cur = [] <;> simp [tokensAux, List.splitOnP.go, h]
  | cons c rest ih =>
    intro cur
    by_cases hc : c = d
    · by_cases h : cur = []
      · simp [tokensAux, List.splitOnP.go, hc, h, ih]
      · simp [tokensAux, List.splitOnP.go, hc, h, ih]
    · have hb : (c == d) = false := by simpa using hc
      simp only [tokensAux, List.splitOnP.go, hc, hb, if_false, Bool.false_eq_true, ih]
      simp

theorem tokensAux_mem (d : Char) (s : List Char) :
    ∀ cur t, t ∈ tokensAux d s cur → d ∉ cur → t ≠ [] ∧ d ∉ t := by
  induction s with
  | nil =>
    intro cur t ht hd
    by_cases h : cur = []
    · simp [tokensAux, h] at ht
    · simp only [tokensAux, h, if_false, List.mem_singleton] at ht
      subst ht
      exact ⟨h, hd⟩
  | cons c rest ih =>
    intro cur t ht hd
    by_cases hc : c = d
    · by_cases h : cur = []
      · simp only [tokensAux, hc, h, if_true] at ht
        exact ih [] t ht (by simp)
      · simp only [tokensAux, hc, h, if_true, if_false, List.mem_cons] at ht
        rcases ht with ht | ht
        · subst ht
          exact ⟨h, hd⟩
        · exact ih [] t ht (by simp)
    · simp only [tokensAux, hc, if_false] at ht
      exact ih (cur ++ [c]) t ht (by
        simp only [List.mem_append, List.mem_singleton, not_or]
        exact ⟨hd, fun h => hc h.symm⟩)

theorem tokensAux_of_not_mem (d : Char) (s : List Char) :
    ∀ cur, d ∉ s → tokensAux d s cur = if cur ++ s = [] then [] else [cur ++ s] := by
  induction s with
  | nil => intro cur _; simp [tokensAux]
  | cons c rest ih =>
    intro cur hd
    have hc : ¬ c = d := fun h => hd (by simp [h])
    have hrest : d ∉ rest := fun h => hd (List.mem_cons_of_mem _ h)
    simp only [tokensAux, hc, if_false, ih (cur ++ [c]) hrest]
    simp

theorem tokensAux_ne_nil (d : Char) (s : List Char) :
    ∀ cur, ((∃ c ∈ s, c ≠ d) ∨ cur ≠ []) → tokensAux d s cur ≠ [] := by
  induction s with
  | nil =>
    intro cur h
    rcases h with ⟨c, hc, _⟩ | h
    · simp at hc
    · simp [tokensAux, h]
  | cons c rest ih =>
    intro cur h
    by_cases hc : c = d
    · by_cases hcur : cur = []
      · simp only [tokensAux, hc, hcur, if_true]
        apply ih
        rcases h with ⟨e, he, hne⟩ | h
        · left
          rcases List.mem_cons.1 he with h1 | h1
          · exact absurd (h1.trans hc) hne
          · exact ⟨e, h1, hne⟩
        · exact absurd hcur h
      · simp [tokensAux, hc, hcur]
    · simp only [tokensAux, hc, if_false]
      exact ih _ (Or.inr (by simp))

theorem tokens_eq_nonEmptyLabels (host : List Char) :
    tokens host '.' = URIHelper.nonEmptyLabels host := by
  simp only [tokens, tokensAux_eq_splitOnP, URIHelper.nonEmptyLabels, List.splitOn,
    List.splitOnP, List.reverse_nil]

end StringTokenizer

namespace URIHelper

theorem isDomainChar_eq (c : Char) :
    IsDomainChar c =
      (Character.isLetter c || Character.isDigit c || ['-', '.'].contains c) := by
  simp only [IsDomainChar, List.contains, List.elem]
  cases h2 : (c == '-') <;> cases h3 : (c == '.') <;> simp_all

theorem charAt_zero_cons (c : Char) (rest : List Char) :
    StdString.charAt (c :: rest) 0 = .ok c := by
  simp [StdString.charAt]

end URIHelper

/-- C27: `isValidDomainName` on a host with at least one character other than '.'. It
returns without raising, and it returns `true` exactly if (a) every character is an ASCII
letter, a digit, '-' or '.', (b) no non-empty label between the dots begins or ends with
'-', and (c) the host contains no '.' or its last non-empty label does not begin with a
digit. -/
theorem isValidDomainName_iff (host : List Char) (hne : ∃ c ∈ host, c ≠ '.') :
    (∃ b, URIHelper.isValidDomainName host = .ok b) ∧
    (URIHelper.isValidDomainName host = .ok true ↔
      (∀ c ∈ host, URIHelper.IsDomainChar c = true) ∧
      (∀ label ∈ URIHelper.nonEmptyLabels host,
        label.head? ≠ some '-' ∧ label.getLast? ≠ some '-') ∧
      ('.' ∉ host ∨
        ∀ label, (URIHelper.nonEmptyLabels host).getLast? = some label →
          ∀ c, label.head? = some c → Character.isDigit c = false)) := by
  rw [← StringTokenizer.tokens_eq_nonEmptyLabels]
  have htok : StringTokenizer.tokens host '.' ≠ [] :=
    StringTokenizer.tokensAux_ne_nil '.' host [] (Or.inl hne)
  obtain ⟨label, hlast⟩ : ∃ label, (StringTokenizer.tokens host '.').getLast? = some label :=
    ⟨_, List.getLast?_eq_getLast _ htok⟩
  have hmem : label ∈ StringTokenizer.tokens host '.' := List.mem_of_getLast?_eq_some hlast
  obtain ⟨hlne, hldot⟩ := StringTokenizer.tokensAux_mem '.' host [] label hmem (by simp)
  obtain ⟨c0, rest0, rfl⟩ : ∃ c0 rest0, label = c0 :: rest0 := by
    cases label with
    | nil => exact absurd rfl hlne
    | cons c0 rest0 => exact ⟨c0, rest0, rfl⟩
  have hiff : (c0 :: rest0) ≠ host ↔ '.' ∈ host := by
    constructor
    · intro hneq
      by_contra hdot
      have h1 := StringTokenizer.tokensAux_of_not_mem '.' host [] hdot
      have h2 : StringTokenizer.tokens host '.' = [host] := by
        rw [StringTokenizer.tokens, h1]
        have : ¬ (host = []) := by
          obtain ⟨c, hc, _⟩ := hne
          intro h
          rw [h] at hc
          simp at hc
        simp [this]
      rw [h2] at hlast
      simp at hlast
      exact hneq hlast.symm
    · intro hdot heq
      rw [← heq] at hdot
      exact hldot hdot
  unfold URIHelper.isValidDomainName URIEncoderDecoder.validateSimple
  cases hfi : URIEncoderDecoder.firstIllegal ['-', '.'] host 0 with
  | some i =>
    have hnot : ¬ ∀ c ∈ host, URIHelper.IsDomainChar c = true := by
      intro hall
      have := URIEncoderDecoder.firstIllegal_of_all ['-', '.'] host 0
        (fun c hc => by rw [← URIHelper.isDomainChar_eq]; exact hall c hc)
      rw [this] at hfi
      cases hfi
    refine ⟨⟨false, rfl⟩, ?_⟩
    constructor
    · intro h
      cases h
    · intro h
      exact absurd h.1 hnot
  | none =>
    have hall : ∀ c ∈ host, URIHelper.IsDomainChar c = true := by
      intro c hc
      rw [URIHelper.isDomainChar_eq]
      exact (URIEncoderDecoder.firstIllegal_none_iff _ _ _).1 hfi c hc
    simp only [hlast, Option.getD_some]
    by_cases hany : (StringTokenizer.tokens host '.').any
        (fun label => label.head? = some '-' || label.getLast? = some '-') = true
    · simp only [hany, if_true, except_pure]
      refine ⟨⟨false, rfl⟩, ?_⟩
      constructor
      · intro h
        cases h
      · rintro ⟨_, hb, _⟩
        rw [List.any_eq_true] at hany
        obtain ⟨l, hl, hbad⟩ := hany
        have := hb l hl
        simp only [Bool.or_eq_true, decide_eq_true_eq] at hbad
        rcases hbad with h1 | h1
        · exact (this.1 h1).elim
        · exact (this.2 h1).elim
    · have hb : ∀ l ∈ StringTokenizer.tokens host '.',
          l.head? ≠ some '-' ∧ l.getLast? ≠ some '-' := by
        intro l hl
        constructor
        · intro h1
          exact hany (List.any_eq_true.2 ⟨l, hl, by simp [h1]⟩)
        · intro h1
          exact hany (List.any_eq_true.2 ⟨l, hl, by simp [h1]⟩)
      simp only [hany, Bool.false_eq_true, if_false]
      by_cases hdot : '.' ∈ host
      · have hneq : (c0 :: rest0) ≠ host := hiff.2 hdot
        simp only [ne_eq, hneq, not_false_eq_true, if_true, URIHelper.charAt_zero_cons,
          except_bind_ok, except_pure]
        cases hd : Character.isDigit c0
        · simp only [Bool.false_eq_true, if_false]
          refine ⟨⟨true, rfl⟩, ?_⟩
          constructor
          · intro _
            refine ⟨hall, hb, Or.inr ?_⟩
            intro l hl c hc
            cases hl
            simp only [List.head?_cons, Option.some.injEq] at hc
            rw [← hc]
            exact hd
          · intro _
            trivial
        · simp only [if_true]
          refine ⟨⟨false, rfl⟩, ?_⟩
          constructor
          · intro h
            cases h
          · rintro ⟨_, _, hc⟩
            rcases hc with hc | hc
            · exact absurd hdot hc
            · have := hc (c0 :: rest0) rfl c0 rfl
              rw [hd] at this
              cases this
      · have heq : (c0 :: rest0) = host := by
          by_contra h
          exact hdot (hiff.1 h)
        simp only [ne_eq, heq, not_true_eq_false, if_false, except_pure]
        exact ⟨⟨true, rfl⟩, fun _ => ⟨hall, hb, Or.inl hdot⟩, fun _ => trivial⟩

/-- Witness of C27: the host "a-b.example.org". -/
theorem isValidDomainName_iff_witness :
    (∃ c ∈ "a-b.example.org".toList, c ≠ '.') ∧
    ∃ b, URIHelper.isValidDomainName "a-b.example.org".toList = .ok b :=
  ⟨⟨'a', by decide, by decide⟩,
   (isValidDomainName_iff "a-b.example.org".toList ⟨'a', by decide, by decide⟩).1⟩

/-- C25, at the failing input: the authority "." contains no '[' or ']', and yet
`parseAuthority` raises with `forceServer` unset. The host "." has no label, so
`isValidDomainName` calls `label.at( 0 )` on the empty string; the `std::out_of_range`
leaves `isValidHost` and `parseAuthority` as a `URISyntaxException`. -/
theorem parseAuthority_dots_raises :
    '[' ∉ ".".toList ∧ ']' ∉ ".".toList ∧
    StringTokenizer.tokens ".".toList '.' = [] ∧
    URIHelper.isValidDomainName ".".toList = .error .OutOfRange ∧
    URIHelper.parseAuthority false ".".toList =
      .error (.URISyntaxException "caught unknown exception" (-1)) := by
  refine ⟨by decide, by decide, by decide, by decide, by decide⟩

/-! ## isValidIP6Address: what one round of the loop does -/

namespace URIHelper

open StdString

theorem ip6Body_next (ip : List Char) (length i : Int) (st st1 : IP6State)
    (h : ip6Body ip length i st = .ok (.next st1)) :
    ∃ c, charAt ip (toSizeT i) = .ok c ∧
      ((c = '[' ∧ i = 0 ∧ charAt ip (toSizeT (length - 1)) = .ok ']' ∧ 4 ≤ length ∧
          st1 = { st with c := c, offset := 1 }) ∨
       (c = ']' ∧ i = length - 1 ∧ charAt ip 0 = .ok '[' ∧ st1 = { st with c := c }) ∨
       (c = '.' ∧
          st1 = { st with c := c, numberOfPeriods := st.numberOfPeriods + 1, word := [] }) ∨
       (c = ':' ∧ st.numberOfColons + 1 ≤ 7 ∧ st.numberOfPeriods ≤ 0 ∧
          ((st.c = ':' ∧ st.doubleColon = false ∧
              st1 = { st with c := c, numberOfColons := st.numberOfColons + 1,
                              doubleColon := true, word := [] }) ∨
           (st.c ≠ ':' ∧
              st1 = { st with c := c, numberOfColons := st.numberOfColons + 1,
                              word := [] }))) ∨
       (c ≠ '[' ∧ c ≠ ']' ∧ c ≠ '.' ∧ c ≠ ':' ∧ st.word.length ≤ 3 ∧
          isValidHexChar c = true ∧ st1 = { st with c := c, word := st.word ++ [c] })) := by
  cases hat : charAt ip (toSizeT i) with
  | error e =>
    simp only [ip6Body, hat, except_bind_error] at h
    cases h
  | ok c =>
    refine ⟨c, rfl, ?_⟩
    simp only [ip6Body, hat, except_bind_ok, except_pure] at h
    by_cases hc1 : c = '['
    · left
      simp only [if_pos hc1] at h
      by_cases hi : i = 0
      · simp only [ne_eq, hi, not_true_eq_false, if_false] at h
        cases hl : charAt ip (toSizeT (length - 1)) with
        | error e =>
          simp only [hl, except_bind_error] at h
          cases h
        | ok last =>
          simp only [hl, except_bind_ok] at h
          by_cases hlast : last = ']'
          · simp only [hlast, not_true_eq_false, if_false] at h
            cases h1 : charAt ip 1 with
            | error e =>
              simp only [h1, except_bind_error] at h
              cases h
            | ok c1 =>
              simp only [h1, except_bind_ok] at h
              by_cases hlen : length < 4
              · split at h
                · cases h2 : charAt ip 2 with
                  | error e =>
                    simp only [h2, except_bind_error] at h
                    cases h
                  | ok c2 =>
                    simp only [h2, except_bind_ok] at h
                    by_cases hc2 : c2 = ':' <;> simp [hc2, hlen, except_bind_ok] at h
                · simp [hlen, except_bind_ok] at h
              · have hst : st1 = { st with c := c, offset := 1 } := by
                  split at h
                  · cases h2 : charAt ip 2 with
                    | error e =>
                      simp only [h2, except_bind_error] at h
                      cases h
                    | ok c2 =>
                      simp only [h2, except_bind_ok] at h
                      by_cases hc2 : c2 = ':' <;> simp [hc2, hlen, except_bind_ok] at h
                      exact h.symm
                  · simp [hlen, except_bind_ok] at h
                    exact h.symm
                exact ⟨hc1, hi, by rw [hlast], by omega, hst⟩
          · simp [hlast] at h
      · simp [hi] at h
    · right
      simp only [if_neg hc1] at h
      by_cases hc2 : c = ']'
      · left
        simp only [if_pos hc2] at h
        by_cases hi : i = length - 1
        · simp only [ne_eq, hi, not_true_eq_false, if_false] at h
          cases h0 : charAt ip 0 with
          | error e =>
            simp only [h0, except_bind_error] at h
            cases h
          | ok first =>
            simp only [h0, except_bind_ok] at h
            by_cases hfirst : first = '['
            · simp [hfirst] at h
              exact ⟨hc2, hi, by rw [hfirst], h.symm⟩
            · simp [hfirst] at h
        · simp [hi] at h
      · right
        simp only [if_neg hc2] at h
        by_cases hc3 : c = '.'
        · left
          simp only [if_pos hc3] at h
          refine ⟨hc3, ?_⟩
          split at h
          · cases h
          · cases h4 : isValidIP4Word st.word with
            | error e =>
              simp only [h4, except_bind_error] at h
              cases h
            | ok valid =>
              simp only [h4, except_bind_ok] at h
              split at h
              · cases h
              · split at h
                · cases h
                · split at h
                  · cases ha : charAt ip (toSizeT (0 + st.offset)) with
                    | error e =>
                      simp only [ha, except_bind_error] at h
                      cases h
                    | ok a =>
                      simp only [ha, except_bind_ok] at h
                      split at h
                      · cases hb : charAt ip (toSizeT (1 + st.offset)) with
                        | error e =>
                          simp only [hb, except_bind_error] at h
                          cases h
                        | ok b =>
                          simp only [hb, except_bind_ok] at h
                          split at h
                          · cases h
                          · simp at h
                            exact h.symm
                      · simp only [except_bind_ok] at h
                        simp at h
                        exact h.symm
                  · simp only [except_bind_ok] at h
                    simp at h
                    exact h.symm
        · right
          simp only [if_neg hc3] at h
          by_cases hc4 : c = ':'
          · left
            simp only [if_pos hc4] at h
            refine ⟨hc4, ?_⟩
            by_cases hn : st.numberOfColons + 1 > 7
            · simp [hn] at h
            · simp only [hn, if_false] at h
              by_cases hp : st.numberOfPeriods > 0
              · simp [hp] at h
              · simp only [hp, if_false] at h
                refine ⟨by omega, by omega, ?_⟩
                by_cases hprev : st.c = ':'
                · left
                  simp only [hprev, if_true] at h
                  cases hd : st.doubleColon
                  · simp [hd] at h
                    exact ⟨hprev, rfl, h.symm⟩
                  · simp [hd] at h
                · right
                  simp [hprev] at h
                  exact ⟨hprev, h.symm⟩
          · right
            simp only [if_neg hc4] at h
            by_cases hw : st.word.length > 3
            · simp [hw] at h
            · simp only [hw, if_false] at h
              cases hx : isValidHexChar c
              · simp [hx] at h
              · simp [hx] at h
                exact ⟨hc1, hc2, hc3, hc4, by omega, rfl, h.symm⟩


theorem notDoneTrue_bind {α : Type} (x : Except URIError α)
    (f : α → Except URIError (Step IP6State))
    (hf : ∀ a, f a ≠ .ok (.done true)) : (x >>= f) ≠ .ok (.done true) := by
  cases x with
  | error e =>
    rw [except_bind_error]
    exact fun h => by cases h
  | ok a =>
    rw [except_bind_ok]
    exact hf a

theorem notDoneTrue_ite (p : Prop) [Decidable p] (x y : Except URIError (Step IP6State))
    (hx : x ≠ .ok (.done true)) (hy : y ≠ .ok (.done true)) :
    (if p then x else y) ≠ .ok (.done true) := by
  split
  · exact hx
  · exact hy

theorem notDoneTrue_done : (pure (Step.done false) : Except URIError (Step IP6State)) ≠
    .ok (.done true) := by
  rw [except_pure]
  exact fun h => by cases h

theorem notDoneTrue_next (s : IP6State) :
    (pure (Step.next s) : Except URIError (Step IP6State)) ≠ .ok (.done true) := by
  rw [except_pure]
  exact fun h => by cases h

theorem ip6Body_ne_done_true (ip : List Char) (length i : Int) (st : IP6State) :
    ip6Body ip length i st ≠ .ok (.done true) := by
  unfold ip6Body
  dsimp only
  repeat' first
    | exact notDoneTrue_done
    | exact notDoneTrue_next _
    | apply notDoneTrue_ite
    | (apply notDoneTrue_bind; intro _)

theorem ip6Loop_ne_done_true (ip : List Char) (length : Int) :
    ∀ (n : Nat) (i : Int) (st : IP6State), ip6Loop ip length n i st ≠ .ok (.done true) := by
  intro n
  induction n with
  | zero =>
    intro i st h
    simp [ip6Loop] at h
  | succ n ih =>
    intro i st h
    rw [ip6Loop] at h
    cases hb : ip6Body ip length i st with
    | error e =>
      rw [hb, except_bind_error] at h
      cases h
    | ok r =>
      rw [hb, except_bind_ok] at h
      cases r with
      | done b =>
        simp only [except_pure] at h
        have hb2 := ip6Body_ne_done_true ip length i st
        rw [hb] at hb2
        cases b
        · cases h
        · exact hb2 rfl
      | next st1 => exact ih _ _ h

end URIHelper

/-! ## isValidIP6Address returns for every string -/

theorem isOk_bind {α β : Type} (x : Except URIError α) (f : α → Except URIError β)
    (hx : ∃ a, x = .ok a) (hf : ∀ a, x = .ok a → ∃ b, f a = .ok b) :
    ∃ b, (x >>= f) = .ok b := by
  obtain ⟨a, ha⟩ := hx
  obtain ⟨b, hb⟩ := hf a ha
  exact ⟨b, by rw [ha, except_bind_ok, hb]⟩

theorem isOk_ite {α : Type} (p : Prop) [Decidable p] (x y : Except URIError α)
    (hx : p → ∃ a, x = .ok a) (hy : ¬ p → ∃ a, y = .ok a) :
    ∃ a, (if p then x else y) = .ok a := by
  split
  · exact hx ‹_›
  · exact hy ‹_›

theorem isOk_pure {α : Type} (a : α) : ∃ b, (pure a : Except URIError α) = .ok b :=
  ⟨a, except_pure a⟩

namespace StdString

theorem charAt_isOk (s : List Char) (k : Nat) (h : k < s.length) :
    ∃ c, charAt s k = .ok c := by
  unfold charAt
  cases hd : s.drop k with
  | nil =>
    have := congrArg List.length hd
    simp at this
    omega
  | cons c rest => exact ⟨c, rfl⟩

theorem charAt_int_isOk (s : List Char) (j : Int) (h0 : 0 ≤ j) (h1 : j < s.length) :
    ∃ c, charAt s (toSizeT j) = .ok c := by
  apply charAt_isOk
  unfold toSizeT
  omega

theorem charAt_eq_drop (s : List Char) (k : Nat) (c : Char) (h : charAt s k = .ok c) :
    ∃ rest, s.drop k = c :: rest := by
  unfold charAt at h
  cases hd : s.drop k with
  | nil => rw [hd] at h; cases h
  | cons d rest =>
    rw [hd] at h
    simp only [Except.ok.injEq] at h
    exact ⟨rest, by rw [h]⟩

end StdString

namespace URIHelper

open StdString

theorem isValidIP4WordLoop_isOk (word : List Char) :
    ∀ (n i : Nat), i + n ≤ word.length → ∃ b, isValidIP4WordLoop word n i = .ok b := by
  intro n
  induction n with
  | zero => intro i _; exact ⟨true, rfl⟩
  | succ n ih =>
    intro i hi
    rw [isValidIP4WordLoop]
    apply isOk_bind _ _ (charAt_isOk word i (by omega))
    intro ch _
    apply isOk_ite
    · intro _; exact isOk_pure _
    · intro _; exact ih (i + 1) (by omega)

theorem isValidIP4WordLoop_true (word : List Char) :
    ∀ (n i : Nat), i + n = word.length → isValidIP4WordLoop word n i = .ok true →
      ∀ c ∈ word.drop i, Character.isDigit c = true := by
  intro n
  induction n with
  | zero =>
    intro i hi _ c hc
    rw [List.drop_eq_nil_of_le (by omega)] at hc
    simp at hc
  | succ n ih =>
    intro i hi h c hc
    rw [isValidIP4WordLoop] at h
    obtain ⟨ch, hch⟩ := charAt_isOk word i (by omega)
    rw [hch, except_bind_ok] at h
    obtain ⟨rest, hdrop⟩ := charAt_eq_drop word i ch hch
    cases hd : Character.isDigit ch
    · simp [hd, except_pure] at h
    · simp only [hd, Bool.not_true, Bool.false_eq_true, if_false] at h
      have hrest : word.drop (i + 1) = rest := by
        rw [← List.drop_drop, hdrop]
        rfl
      rw [hdrop] at hc
      rcases List.mem_cons.1 hc with h1 | h1
      · rw [h1]; exact hd
      · exact ih (i + 1) (by omega) h c (by rw [hrest]; exact h1)

end URIHelper

theorem Integer.digitsValue_digits (s : List Char) :
    ∀ acc, (∀ c ∈ s, Character.isDigit c = true) →
      ∃ v, Integer.digitsValue s acc = some v ∧ v < (acc + 1) * 10 ^ s.length := by
  induction s with
  | nil => intro acc _; exact ⟨acc, rfl, by simp⟩
  | cons c rest ih =>
    intro acc h
    have hc := h c (List.mem_cons_self _ _)
    obtain ⟨v, hv, hlt⟩ := ih (acc * 10 + (c.toNat - '0'.toNat))
      (fun d hd => h d (List.mem_cons_of_mem _ hd))
    refine ⟨v, by rw [Integer.digitsValue, if_pos hc, hv], ?_⟩
    have hd9 : c.toNat - '0'.toNat ≤ 9 := by
      have : c ≤ '9' := by
        simp only [Character.isDigit, Bool.and_eq_true, decide_eq_true_eq] at hc
        exact hc.2
      have h9 : c.toNat ≤ '9'.toNat := this
      have e9 : '9'.toNat = 57 := rfl
      have e0 : '0'.toNat = 48 := rfl
      omega
    calc v < (acc * 10 + (c.toNat - '0'.toNat) + 1) * 10 ^ rest.length := hlt
      _ ≤ ((acc + 1) * 10) * 10 ^ rest.length := by
        apply Nat.mul_le_mul_right
        omega
      _ = (acc + 1) * 10 ^ (c :: rest).length := by
        rw [List.length_cons, pow_succ]
        ring

theorem Integer.parseInt_digits (s : List Char) (hne : s ≠ [])
    (h : ∀ c ∈ s, Character.isDigit c = true) (hlen : s.length ≤ 3) :
    ∃ v : Nat, Integer.parseInt s = .ok (v : Int) ∧ v < 1000 := by
  obtain ⟨v, hv, hlt⟩ := Integer.digitsValue_digits s 0 h
  have hv1000 : v < 1000 := by
    have : 10 ^ s.length ≤ 10 ^ 3 := Nat.pow_le_pow_right (by decide) hlen
    omega
  refine ⟨v, ?_, hv1000⟩
  unfold Integer.parseInt
  split
  · exact absurd rfl hne
  · rename_i rest
    have hminus : Character.isDigit '-' = false := by decide
    have := h '-' (List.mem_cons_self _ _)
    rw [hminus] at this
    cases this
  · have hle : v ≤ 2147483647 := by omega
    simp [hv, hle]

namespace URIHelper

open StdString

theorem isValidIP4Word_isOk (word : List Char) : ∃ b, isValidIP4Word word = .ok b := by
  unfold isValidIP4Word
  apply isOk_ite
  · intro _; exact isOk_pure _
  · intro hlen
    apply isOk_bind _ _ (isValidIP4WordLoop_isOk word word.length 0 (by omega))
    intro digits hdigits
    apply isOk_ite
    · intro _; exact isOk_pure _
    · intro hd
      have hd2 : digits = true := by simpa using hd
      rw [hd2] at hdigits
      have hall := isValidIP4WordLoop_true word word.length 0 (by omega) hdigits
      simp only [List.drop_zero] at hall
      simp only [Bool.or_eq_true, decide_eq_true_eq, not_or, not_lt] at hlen
      obtain ⟨v, hv, _⟩ := Integer.parseInt_digits word
        (by intro h; rw [h] at hlen; simp at hlen) hall (by omega)
      apply isOk_bind _ _ ⟨_, hv⟩
      intro value _
      apply isOk_ite <;> (intro _; exact isOk_pure _)

end URIHelper

namespace URIHelper

open StdString

theorem toSizeT_one_of_two : toSizeT (2 - 1) = 1 := by decide

theorem ip6Body_isOk (ip : List Char) (length i : Int) (st : IP6State)
    (hL2 : 2 ≤ length) (hLle : length ≤ ip.length) (hi0 : 0 ≤ i) (hiL : i < length)
    (hoff : st.offset = 0 ∨ (st.offset = 1 ∧ 4 ≤ length)) :
    ∃ r, ip6Body ip length i st = .ok r := by
  unfold ip6Body
  dsimp only
  apply isOk_bind _ _ (charAt_int_isOk ip i hi0 (by omega))
  intro c _
  apply isOk_ite
  · intro _
    apply isOk_ite
    · intro _; exact isOk_pure _
    · intro _
      apply isOk_bind _ _ (charAt_int_isOk ip (length - 1) (by omega) (by omega))
      intro last hlast
      apply isOk_ite
      · intro _; exact isOk_pure _
      · intro hl
        have hl2 : last = ']' := not_not.1 hl
        apply isOk_bind _ _ (charAt_isOk ip 1 (by omega))
        intro c1 h1
        apply isOk_bind
        · apply isOk_ite
          · intro hc1
            have h3 : 3 ≤ length := by
              by_contra hlt
              have h2 : length = 2 := by omega
              rw [h2, toSizeT_one_of_two, h1] at hlast
              simp only [Except.ok.injEq] at hlast
              rw [hlast, hl2] at hc1
              revert hc1
              decide
            apply isOk_bind _ _ (charAt_isOk ip 2 (by omega))
            intro _ _
            exact isOk_pure _
          · intro _; exact isOk_pure _
        · intro bad _
          apply isOk_ite
          · intro _; exact isOk_pure _
          · intro _
            apply isOk_ite <;> (intro _; exact isOk_pure _)
  · intro _
    apply isOk_ite
    · intro _
      apply isOk_ite
      · intro _; exact isOk_pure _
      · intro _
        apply isOk_bind _ _ (charAt_isOk ip 0 (by omega))
        intro _ _
        apply isOk_ite <;> (intro _; exact isOk_pure _)
    · intro _
      apply isOk_ite
      · intro _
        apply isOk_ite
        · intro _; exact isOk_pure _
        · intro _
          apply isOk_bind _ _ (isValidIP4Word_isOk _)
          intro _ _
          apply isOk_ite
          · intro _; exact isOk_pure _
          · intro _
            apply isOk_ite
            · intro _; exact isOk_pure _
            · intro _
              apply isOk_bind
              · apply isOk_ite
                · intro _
                  apply isOk_bind _ _
                    (charAt_int_isOk ip (0 + st.offset) (by omega) (by omega))
                  intro _ _
                  apply isOk_ite
                  · intro _
                    apply isOk_bind _ _
                      (charAt_int_isOk ip (1 + st.offset) (by omega) (by omega))
                    intro _ _
                    exact isOk_pure _
                  · intro _; exact isOk_pure _
                · intro _; exact isOk_pure _
              · intro _ _
                apply isOk_ite <;> (intro _; exact isOk_pure _)
      · intro _
        apply isOk_ite
        · intro _
          apply isOk_ite
          · intro _; exact isOk_pure _
          · intro _
            apply isOk_ite
            · intro _; exact isOk_pure _
            · intro _
              apply isOk_ite
              · intro _
                apply isOk_ite <;> (intro _; exact isOk_pure _)
              · intro _; exact isOk_pure _
        · intro _
          apply isOk_ite
          · intro _; exact isOk_pure _
          · intro _
            apply isOk_ite <;> (intro _; exact isOk_pure _)

theorem ip6Loop_isOk (ip : List Char) (length : Int) (hL2 : 2 ≤ length)
    (hLle : length ≤ ip.length) :
    ∀ (n : Nat) (i : Int) (st : IP6State), 0 ≤ i → i + n ≤ length →
      (st.offset = 0 ∨ (st.offset = 1 ∧ 4 ≤ length)) →
      ∃ r, ip6Loop ip length n i st = .ok r ∧
        ∀ st1, r = .next st1 → (st1.offset = 0 ∨ (st1.offset = 1 ∧ 4 ≤ length)) := by
  intro n
  induction n with
  | zero =>
    intro i st _ _ hoff
    exact ⟨.next st, rfl, fun st1 h => by cases h; exact hoff⟩
  | succ n ih =>
    intro i st hi0 hin hoff
    obtain ⟨r, hr⟩ := ip6Body_isOk ip length i st hL2 hLle hi0
      (by push_cast at hin; omega) hoff
    rw [ip6Loop, hr, except_bind_ok]
    cases r with
    | done b => exact ⟨.done b, rfl, fun st1 h => by cases h⟩
    | next st1 =>
      have hoff1 : st1.offset = 0 ∨ (st1.offset = 1 ∧ 4 ≤ length) := by
        obtain ⟨c, _, hcases⟩ := ip6Body_next ip length i st st1 hr
        rcases hcases with ⟨_, _, _, h4, rfl⟩ | ⟨_, _, _, rfl⟩ | ⟨_, rfl⟩ |
          ⟨_, _, _, ⟨_, _, rfl⟩ | ⟨_, rfl⟩⟩ | ⟨_, _, _, _, _, _, rfl⟩
        · exact Or.inr ⟨rfl, h4⟩
        all_goals exact hoff
      exact ih (i + 1) st1 (by omega) (by push_cast at hin ⊢; omega) hoff1

theorem ip6Final_isOk (ip : List Char) (length : Int) (st : IP6State) (hL2 : 2 ≤ length)
    (hLle : length ≤ ip.length) (hoff : st.offset = 0 ∨ (st.offset = 1 ∧ 4 ≤ length)) :
    ∃ b, ip6Final ip length st = .ok b := by
  unfold ip6Final
  apply isOk_ite
  · intro _
    apply isOk_ite
    · intro _; exact isOk_pure _
    · intro _
      apply isOk_bind _ _ (isValidIP4Word_isOk _)
      intro _ _
      apply isOk_ite <;> (intro _; exact isOk_pure _)
  · intro _
    apply isOk_ite
    · intro _; exact isOk_pure _
    · intro _
      apply isOk_ite
      · intro _
        apply isOk_bind _ _
          (charAt_int_isOk ip (length - 1 - st.offset) (by omega) (by omega))
        intro _ _
        apply isOk_ite
        · intro _
          apply isOk_bind _ _
            (charAt_int_isOk ip (length - 2 - st.offset) (by omega) (by omega))
          intro _ _
          apply isOk_ite <;> (intro _; exact isOk_pure _)
        · intro _; exact isOk_pure _
      · intro _; exact isOk_pure _

theorem toInt_le (n : Nat) : toInt n ≤ n := by
  unfold toInt wrapInt32
  omega

end URIHelper

theorem URIHelper.isValidIP6Address_isOk (ipAddress : List Char) :
    ∃ b, URIHelper.isValidIP6Address ipAddress = .ok b := by
  unfold URIHelper.isValidIP6Address
  dsimp only
  apply isOk_ite
  · intro _; exact isOk_pure _
  · intro hlt
    have hL2 : 2 ≤ StdString.toInt ipAddress.length := by omega
    have hLle := URIHelper.toInt_le ipAddress.length
    obtain ⟨r, hr, hoff⟩ := URIHelper.ip6Loop_isOk ipAddress (StdString.toInt ipAddress.length)
      hL2 hLle (StdString.toInt ipAddress.length).toNat 0 URIHelper.ip6Init (le_refl 0)
      (by omega) (Or.inl rfl)
    rw [hr, except_bind_ok]
    cases r with
    | done b => exact ⟨b, rfl⟩
    | next st => exact URIHelper.ip6Final_isOk _ _ st hL2 hLle (hoff st rfl)

/-- C28: `isValidIP6Address` is total. For every string (the empty string, one-character
strings and strings with unbalanced brackets included) it returns a boolean: no character
access it makes, directly or through `isValidIP4Word`, is out of range, and nothing is
raised. -/
theorem isValidIP6Address_total (ipAddress : List Char) :
    ∃ b, URIHelper.isValidIP6Address ipAddress = .ok b :=
  URIHelper.isValidIP6Address_isOk ipAddress

/-! ## isValidIP6Address: what holds of an accepted string -/

namespace StdString

theorem charAt_eq_ok_iff (s : List Char) : ∀ (k : Nat) (c : Char),
    charAt s k = .ok c ↔ s[k]? = some c := by
  induction s with
  | nil =>
    intro k c
    simp [charAt]
  | cons a t ih =>
    intro k c
    cases k with
    | zero => simp [charAt]
    | succ k =>
      have : charAt (a :: t) (k + 1) = charAt t k := rfl
      rw [this, ih k c]
      simp

end StdString

namespace URIHelper

open StdString

theorem ip6Loop_invariant (ip : List Char) (length : Int)
    (P : List Char → IP6State → Prop)
    (hstep : ∀ pre c post st st1, ip = pre ++ c :: post → P pre st →
      ip6Body ip length pre.length st = .ok (.next st1) → P (pre ++ [c]) st1) :
    ∀ (post pre : List Char) (st st2 : IP6State), ip = pre ++ post → P pre st →
      ip6Loop ip length post.length pre.length st = .ok (.next st2) → P ip st2 := by
  intro post
  induction post with
  | nil =>
    intro pre st st2 hip hP h
    rw [List.length_nil, ip6Loop] at h
    cases h
    rw [hip, List.append_nil]
    exact hP
  | cons c post ih =>
    intro pre st st2 hip hP h
    rw [List.length_cons, ip6Loop] at h
    cases hb : ip6Body ip length pre.length st with
    | error e =>
      rw [hb, except_bind_error] at h
      cases h
    | ok r =>
      rw [hb, except_bind_ok] at h
      cases r with
      | done b =>
        simp only [except_pure] at h
        cases h
      | next st1 =>
        have hP1 := hstep pre c post st st1 hip hP hb
        apply ih (pre ++ [c]) st1 st2 (by simp [hip]) hP1
        have hcast : (((pre ++ [c]).length : Nat) : Int) = (pre.length : Int) + 1 := by simp
        rw [hcast]
        exact h

theorem ip6Body_step (ip pre post : List Char) (c : Char) (length : Int) (st st1 : IP6State)
    (hip : ip = pre ++ c :: post) (hlen : ip.length < 2147483648)
    (h : ip6Body ip length pre.length st = .ok (.next st1)) :
    (c = '[' ∧ pre = [] ∧ charAt ip (toSizeT (length - 1)) = .ok ']' ∧ 4 ≤ length ∧
        st1 = { st with c := c, offset := 1 }) ∨
    (c = ']' ∧ (pre.length : Int) = length - 1 ∧ charAt ip 0 = .ok '[' ∧
        st1 = { st with c := c }) ∨
    (c = '.' ∧
        st1 = { st with c := c, numberOfPeriods := st.numberOfPeriods + 1, word := [] }) ∨
    (c = ':' ∧ st.numberOfColons + 1 ≤ 7 ∧ st.numberOfPeriods ≤ 0 ∧
        ((st.c = ':' ∧ st.doubleColon = false ∧
            st1 = { st with c := c, numberOfColons := st.numberOfColons + 1,
                            doubleColon := true, word := [] }) ∨
         (st.c ≠ ':' ∧
            st1 = { st with c := c, numberOfColons := st.numberOfColons + 1,
                            word := [] }))) ∨
    (c ≠ '[' ∧ c ≠ ']' ∧ c ≠ '.' ∧ c ≠ ':' ∧ st.word.length ≤ 3 ∧
        isValidHexChar c = true ∧ st1 = { st with c := c, word := st.word ++ [c] }) := by
  obtain ⟨d, hd, hcases⟩ := ip6Body_next ip length pre.length st st1 h
  have hc := charAt_at ip pre post c pre.length hip rfl hlen
  rw [hc] at hd
  cases hd
  rcases hcases with ⟨h1, h2, h3, h4, h5⟩ | h2 | h3 | h4 | h5
  · exact Or.inl ⟨h1, List.length_eq_zero.1 (by exact_mod_cast h2), h3, h4, h5⟩
  · exact Or.inr (Or.inl h2)
  · exact Or.inr (Or.inr (Or.inl h3))
  · exact Or.inr (Or.inr (Or.inr (Or.inl h4)))
  · exact Or.inr (Or.inr (Or.inr (Or.inr h5)))

theorem isValidIP6Address_true_loop (ip : List Char) (hlen : ip.length < 2147483648)
    (h : isValidIP6Address ip = .ok true) :
    2 ≤ ip.length ∧ ∃ st, ip6Loop ip ip.length ip.length 0 ip6Init = .ok (.next st) ∧
      ip6Final ip ip.length st = .ok true := by
  unfold isValidIP6Address at h
  dsimp only at h
  rw [toInt_small _ hlen] at h
  by_cases h2 : ((ip.length : Nat) : Int) < 2
  · rw [if_pos h2, except_pure] at h
    cases h
  · rw [if_neg h2, Int.toNat_ofNat] at h
    refine ⟨by omega, ?_⟩
    cases hl : ip6Loop ip ip.length ip.length 0 ip6Init with
    | error e =>
      rw [hl, except_bind_error] at h
      cases h
    | ok r =>
      rw [hl, except_bind_ok] at h
      cases r with
      | done b =>
        simp only [except_pure] at h
        cases h
        exact absurd hl (ip6Loop_ne_done_true ip _ _ _ _)
      | next st => exact ⟨st, rfl, h⟩

theorem ip6Loop_accepted (ip : List Char) (hlen : ip.length < 2147483648)
    (h : isValidIP6Address ip = .ok true) (P : List Char → IP6State → Prop)
    (hinit : P [] ip6Init)
    (hstep : ∀ pre c post st st1, ip = pre ++ c :: post → P pre st →
      ip6Body ip ip.length pre.length st = .ok (.next st1) → P (pre ++ [c]) st1) :
    ∃ st, P ip st ∧ ip6Final ip ip.length st = .ok true := by
  obtain ⟨_, st, hloop, hfinal⟩ := isValidIP6Address_true_loop ip hlen h
  exact ⟨st, ip6Loop_invariant ip ip.length P hstep ip [] ip6Init st rfl hinit hloop, hfinal⟩

end URIHelper

namespace URIHelper

open StdString

theorem getElem?_snoc (pre : List Char) (c x : Char) (k : Nat)
    (h : (pre ++ [c])[k]? = some x) : pre[k]? = some x ∨ (k = pre.length ∧ x = c) := by
  by_cases hk : k < pre.length
  · rw [List.getElem?_append_left hk] at h
    exact Or.inl h
  · rw [List.getElem?_append_right (by omega)] at h
    right
    cases hj : k - pre.length with
    | zero =>
      rw [hj] at h
      simp at h
      exact ⟨by omega, h.symm⟩
    | succ j =>
      rw [hj] at h
      simp at h

theorem charAt_last (ip : List Char) (c : Char) (h1 : 1 ≤ ip.length)
    (hlen : ip.length < 2147483648)
    (h : charAt ip (toSizeT ((ip.length : Int) - 1)) = .ok c) : ip.getLast? = some c := by
  have hcast : ((ip.length : Int) - 1) = ((ip.length - 1 : Nat) : Int) := by omega
  rw [hcast, toSizeT_natCast _ (by omega), charAt_eq_ok_iff] at h
  rw [List.getLast?_eq_getElem?]
  exact h

theorem charAt_first (ip : List Char) (c : Char) (h : charAt ip 0 = .ok c) :
    ip.head? = some c := by
  rw [charAt_eq_ok_iff] at h
  rw [List.head?_eq_getElem?]
  exact h

end URIHelper

theorem URIHelper.ip6_brackets (ip : List Char) (hlen : ip.length < 2147483648)
    (h : URIHelper.isValidIP6Address ip = .ok true) :
    (∀ k, ip[k]? = some '[' → k = 0) ∧
    (∀ k, ip[k]? = some ']' → k + 1 = ip.length) ∧
    (ip.head? = some '[' ↔ ip.getLast? = some ']') := by
  obtain ⟨h2, _, _, _⟩ := URIHelper.isValidIP6Address_true_loop ip hlen h
  obtain ⟨st, ⟨hopen, hclose⟩, _⟩ := URIHelper.ip6Loop_accepted ip hlen h
    (fun pre _ =>
      (∀ k, pre[k]? = some '[' → k = 0 ∧ ip.getLast? = some ']') ∧
      (∀ k, pre[k]? = some ']' → k + 1 = ip.length ∧ ip.head? = some '['))
    ⟨fun k hk => by simp at hk, fun k hk => by simp at hk⟩
    (by
      intro pre c post st st1 hip hP hb
      obtain ⟨hPo, hPc⟩ := hP
      have hstep := URIHelper.ip6Body_step ip pre post c _ st st1 hip hlen hb
      constructor
      · intro k hk
        rcases URIHelper.getElem?_snoc pre c '[' k hk with hin | ⟨hkl, hc⟩
        · exact hPo k hin
        · rcases hstep with ⟨_, hpre, hlast, _⟩ | ⟨hc2, _⟩ | ⟨hc2, _⟩ | ⟨hc2, _⟩ |
            ⟨hc2, _⟩
          · rw [hkl, hpre]
            exact ⟨rfl, URIHelper.charAt_last ip ']' (by omega) hlen hlast⟩
          · rw [← hc] at hc2; cases hc2
          · rw [← hc] at hc2; cases hc2
          · rw [← hc] at hc2; cases hc2
          · exact absurd hc.symm hc2
      · intro k hk
        rcases URIHelper.getElem?_snoc pre c ']' k hk with hin | ⟨hkl, hc⟩
        · exact hPc k hin
        · rcases hstep with ⟨hc2, _⟩ | ⟨_, hpos, hfirst, _⟩ | ⟨hc2, _⟩ | ⟨hc2, _⟩ |
            ⟨_, hc2, _⟩
          · rw [← hc] at hc2; cases hc2
          · exact ⟨by omega, URIHelper.charAt_first ip '[' hfirst⟩
          · rw [← hc] at hc2; cases hc2
          · rw [← hc] at hc2; cases hc2
          · exact absurd hc.symm hc2)
  refine ⟨fun k hk => (hopen k hk).1, fun k hk => (hclose k hk).1, ?_, ?_⟩
  · intro hhead
    rw [List.head?_eq_getElem?] at hhead
    exact (hopen 0 hhead).2
  · intro hlast
    rw [List.getLast?_eq_getElem?] at hlast
    exact (hclose _ hlast).2

/-- C21: for a string of fewer than 2^31 characters (so that `int length` is its length),
whenever `isValidIP6Address` returns `true` the brackets are well-formed: '[' occurs only at
index 0, ']' occurs only at the last index, and the first character is '[' if and only if
the last character is ']'. -/
theorem isValidIP6Address_brackets (ip : List Char) (hlen : ip.length < 2147483648)
    (h : URIHelper.isValidIP6Address ip = .ok true) :
    (∀ k, ip[k]? = some '[' → k = 0) ∧
    (∀ k, ip[k]? = some ']' → k + 1 = ip.length) ∧
    (ip.head? = some '[' ↔ ip.getLast? = some ']') :=
  URIHelper.ip6_brackets ip hlen h

/-- Witness of C21: the accepted address [1:2:3:4:5:6:7:8]. -/
theorem isValidIP6Address_brackets_witness :
    ("[1:2:3:4:5:6:7:8]".toList.length < 2147483648 ∧
      URIHelper.isValidIP6Address "[1:2:3:4:5:6:7:8]".toList = .ok true) ∧
    ((∀ k, "[1:2:3:4:5:6:7:8]".toList[k]? = some '[' → k = 0) ∧
     (∀ k, "[1:2:3:4:5:6:7:8]".toList[k]? = some ']' →
        k + 1 = "[1:2:3:4:5:6:7:8]".toList.length) ∧
     ("[1:2:3:4:5:6:7:8]".toList.head? = some '[' ↔
        "[1:2:3:4:5:6:7:8]".toList.getLast? = some ']')) :=
  ⟨⟨by decide, by decide⟩,
   isValidIP6Address_brackets "[1:2:3:4:5:6:7:8]".toList (by decide) (by decide)⟩

/-! ## isValidIP6Address: colons, periods and runs of hexadecimal digits -/

namespace URIHelper

open StdString

theorem snoc_eq_append (pre : List Char) (c : Char) (a s : List Char)
    (h : pre ++ [c] = a ++ s) : s = [] ∨ ∃ s1, s = s1 ++ [c] ∧ pre = a ++ s1 := by
  rcases List.eq_nil_or_concat s with rfl | ⟨s1, d, rfl⟩
  · exact Or.inl rfl
  · right
    rw [List.concat_eq_append] at h ⊢
    rw [← List.append_assoc] at h
    obtain ⟨h1, h2⟩ := List.append_inj' h rfl
    cases h2
    exact ⟨s1, rfl, h1⟩

theorem adjacentColonPairs_snoc (c : Char) : ∀ pre : List Char,
    adjacentColonPairs (pre ++ [c]) = adjacentColonPairs pre +
      (if pre.getLast?.getD (Char.ofNat 0) = ':' ∧ c = ':' then 1 else 0) := by
  intro pre
  induction pre with
  | nil =>
    have h0 : ¬ (Char.ofNat 0 = ':') := by decide
    simp [adjacentColonPairs, h0]
  | cons a t ih =>
    cases t with
    | nil => simp [adjacentColonPairs]
    | cons b t2 =>
      have hl : (a :: b :: t2).getLast?.getD (Char.ofNat 0) =
          (b :: t2).getLast?.getD (Char.ofNat 0) := by
        rw [List.getLast?_cons_cons]
      have hu : adjacentColonPairs ((a :: b :: t2) ++ [c]) =
          (if a = ':' ∧ b = ':' then 1 else 0) + adjacentColonPairs ((b :: t2) ++ [c]) := rfl
      have hv : adjacentColonPairs (a :: b :: t2) =
          (if a = ':' ∧ b = ':' then 1 else 0) + adjacentColonPairs (b :: t2) := rfl
      rw [hu, hv, ih, hl]
      omega

theorem getLast_snoc (pre : List Char) (c x : Char) : (pre ++ [c]).getLast?.getD x = c := by
  simp

theorem ip6_colon_count (ip : List Char) (hlen : ip.length < 2147483648)
    (h : isValidIP6Address ip = .ok true) : ip.count ':' ≤ 7 := by
  obtain ⟨st, ⟨_, hP⟩, _⟩ := ip6Loop_accepted ip hlen h
    (fun pre st => st.numberOfColons = ((pre.count ':' : Nat) : Int) ∧ pre.count ':' ≤ 7)
    ⟨rfl, by simp⟩
    (by
      intro pre c post st st1 hip hP hb
      obtain ⟨hn, h7⟩ := hP
      have hcount : (pre ++ [c]).count ':' = pre.count ':' + (if c = ':' then 1 else 0) := by
        rw [List.count_append, List.count_singleton]
        by_cases hc : c = ':'
        · simp [hc]
        · have hc2 : ¬ (':' = c) := fun e => hc e.symm
          simp [hc, hc2]
      rcases ip6Body_step ip pre post c _ st st1 hip hlen hb with
        ⟨hc, _, _, _, rfl⟩ | ⟨hc, _, _, rfl⟩ | ⟨hc, rfl⟩ |
        ⟨hc, hle, _, ⟨_, _, rfl⟩ | ⟨_, rfl⟩⟩ | ⟨_, _, _, hc, _, _, rfl⟩
      · rw [hcount, hc]; exact ⟨by simpa using hn, by simpa using h7⟩
      · rw [hcount, hc]; exact ⟨by simpa using hn, by simpa using h7⟩
      · rw [hcount, hc]; exact ⟨by simpa using hn, by simpa using h7⟩
      · rw [hcount, hc]
        dsimp only
        rw [if_pos rfl]
        constructor
        · push_cast; omega
        · omega
      · rw [hcount, hc]
        dsimp only
        rw [if_pos rfl]
        constructor
        · push_cast; omega
        · omega
      · rw [hcount, if_neg hc]
        exact ⟨hn, h7⟩)
  exact hP

theorem ip6_double_colon (ip : List Char) (hlen : ip.length < 2147483648)
    (h : isValidIP6Address ip = .ok true) : adjacentColonPairs ip ≤ 1 := by
  obtain ⟨st, ⟨_, hP⟩, _⟩ := ip6Loop_accepted ip hlen h
    (fun pre st => st.c = pre.getLast?.getD (Char.ofNat 0) ∧
      adjacentColonPairs pre = (if st.doubleColon = true then 1 else 0))
    ⟨rfl, rfl⟩
    (by
      intro pre c post st st1 hip hP hb
      obtain ⟨hprev, hpairs⟩ := hP
      rw [adjacentColonPairs_snoc, getLast_snoc, ← hprev, hpairs]
      rcases ip6Body_step ip pre post c _ st st1 hip hlen hb with
        ⟨hc, _, _, _, rfl⟩ | ⟨hc, _, _, rfl⟩ | ⟨hc, rfl⟩ |
        ⟨hc, _, _, ⟨hp, hd, rfl⟩ | ⟨hp, rfl⟩⟩ | ⟨_, _, _, hc, _, _, rfl⟩
      · refine ⟨rfl, ?_⟩
        rw [hc]
        simp
      · refine ⟨rfl, ?_⟩
        rw [hc]
        simp
      · refine ⟨rfl, ?_⟩
        rw [hc]
        simp
      · refine ⟨rfl, ?_⟩
        dsimp only
        rw [hd, if_pos (show st.c = ':' ∧ c = ':' from ⟨hp, hc⟩)]
        simp
      · refine ⟨rfl, ?_⟩
        dsimp only
        rw [if_neg (show ¬ (st.c = ':' ∧ c = ':') from fun e => hp e.1)]
        simp
      · refine ⟨rfl, ?_⟩
        dsimp only
        rw [if_neg (show ¬ (st.c = ':' ∧ c = ':') from fun e => hc e.2)]
        simp)
  rw [hP]
  split <;> omega

end URIHelper

namespace URIHelper

open StdString

theorem ip6_no_colon_after_period (ip : List Char) (hlen : ip.length < 2147483648)
    (h : isValidIP6Address ip = .ok true) :
    ∀ pre post, ip = pre ++ '.' :: post → ':' ∉ post := by
  obtain ⟨st, ⟨_, _, hP⟩, _⟩ := ip6Loop_accepted ip hlen h
    (fun pre st => 0 ≤ st.numberOfPeriods ∧ ('.' ∈ pre → 0 < st.numberOfPeriods) ∧
      ∀ a b, pre = a ++ '.' :: b → ':' ∉ b)
    (by
      refine ⟨le_refl 0, ?_, ?_⟩
      · intro hm
        simp at hm
      · intro a b hab
        simp at hab)
    (by
      intro pre c post st st1 hip hP hb
      obtain ⟨h0, hmem, hafter⟩ := hP
      have hkeep : c ≠ ':' → ∀ a b, pre ++ [c] = a ++ '.' :: b → ':' ∉ b := by
        intro hc a b hab
        rcases snoc_eq_append pre c a ('.' :: b) hab with hnil | ⟨s1, hs, hpre⟩
        · cases hnil
        · cases s1 with
          | nil =>
            have hs2 : '.' = c ∧ b = [] := by simpa using hs
            rw [hs2.2]
            exact List.not_mem_nil _
          | cons e s3 =>
            have hs2 : '.' = e ∧ b = s3 ++ [c] := by simpa using hs
            rw [hs2.2]
            intro hm
            rcases List.mem_append.1 hm with hm1 | hm1
            · exact hafter a s3 (by rw [hpre, ← hs2.1]) hm1
            · exact hc (List.mem_singleton.1 hm1).symm
      rcases ip6Body_step ip pre post c _ st st1 hip hlen hb with
        ⟨hc, _, _, _, rfl⟩ | ⟨hc, _, _, rfl⟩ | ⟨hc, rfl⟩ |
        ⟨hc, _, hp0, hst⟩ | ⟨_, _, hc3, hc, _, _, rfl⟩
      · refine ⟨h0, ?_, hkeep (by rw [hc]; decide)⟩
        intro hm
        rcases List.mem_append.1 hm with hm1 | hm1
        · exact hmem hm1
        · rw [hc] at hm1
          simp at hm1
      · refine ⟨h0, ?_, hkeep (by rw [hc]; decide)⟩
        intro hm
        rcases List.mem_append.1 hm with hm1 | hm1
        · exact hmem hm1
        · rw [hc] at hm1
          simp at hm1
      · refine ⟨?_, ?_, hkeep (by rw [hc]; decide)⟩
        · show 0 ≤ st.numberOfPeriods + 1
          omega
        · intro _
          show 0 < st.numberOfPeriods + 1
          omega
      · have hnone : '.' ∉ pre := fun hm => by
          have := hmem hm
          omega
        have hper : st1.numberOfPeriods = st.numberOfPeriods := by
          rcases hst with ⟨_, _, rfl⟩ | ⟨_, rfl⟩ <;> rfl
        rw [hper]
        refine ⟨h0, ?_, ?_⟩
        · intro hm
          rcases List.mem_append.1 hm with hm1 | hm1
          · exact hmem hm1
          · rw [hc] at hm1
            simp at hm1
        · intro a b hab
          rcases snoc_eq_append pre c a ('.' :: b) hab with hnil | ⟨s1, hs, hpre⟩
          · cases hnil
          · exfalso
            cases s1 with
            | nil =>
              have hs2 : '.' = c ∧ b = [] := by simpa using hs
              rw [hc] at hs2
              exact absurd hs2.1 (by decide)
            | cons e s3 =>
              have hs2 : '.' = e ∧ b = s3 ++ [c] := by simpa using hs
              rw [← hs2.1] at hpre
              exact hnone (by rw [hpre]; simp)
      · refine ⟨h0, ?_, hkeep hc⟩
        intro hm
        rcases List.mem_append.1 hm with hm1 | hm1
        · exact hmem hm1
        · simp at hm1
          exact absurd hm1.symm hc3)
  exact hP

theorem ip6_hex_runs (ip : List Char) (hlen : ip.length < 2147483648)
    (h : isValidIP6Address ip = .ok true) :
    ∀ pre run post, ip = pre ++ run ++ post → (∀ c ∈ run, isValidHexChar c = true) →
      run.length ≤ 4 := by
  obtain ⟨st, ⟨_, _, hP⟩, _⟩ := ip6Loop_accepted ip hlen h
    (fun pre st => st.word.length ≤ 4 ∧
      (∀ a s, pre = a ++ s → (∀ x ∈ s, isValidHexChar x = true) →
        s.length ≤ st.word.length) ∧
      ∀ a s b, pre = a ++ s ++ b → (∀ x ∈ s, isValidHexChar x = true) → s.length ≤ 4)
    ⟨by decide, fun a s hs _ => by
        have : s = [] := (List.append_eq_nil.1 hs.symm).2
        rw [this]
        exact Nat.zero_le _,
      fun a s b hs _ => by
        have : s = [] := (List.append_eq_nil.1 (List.append_eq_nil.1 hs.symm).1).2
        rw [this]
        exact Nat.zero_le _⟩
    (by
      intro pre c post st st1 hip hP hb
      obtain ⟨hw, hsuf, hinf⟩ := hP
      have hsuffix : ∀ n : Nat,
          ((isValidHexChar c = true → st.word.length + 1 ≤ n)) →
          ∀ a s, pre ++ [c] = a ++ s → (∀ x ∈ s, isValidHexChar x = true) → s.length ≤ n := by
        intro n hn a s has hs
        rcases snoc_eq_append pre c a s has with hnil | ⟨s1, hs1, hpre⟩
        · rw [hnil]
          exact Nat.zero_le _
        · have hcx : isValidHexChar c = true := hs c (by rw [hs1]; simp)
          have h1 := hsuf a s1 hpre (fun x hx => hs x (by rw [hs1]; simp [hx]))
          have h2 := hn hcx
          rw [hs1, List.length_append, List.length_singleton]
          omega
      have hinfix : ∀ n : Nat, n ≤ 4 →
          ((isValidHexChar c = true → st.word.length + 1 ≤ n)) →
          ∀ a s b, pre ++ [c] = a ++ s ++ b → (∀ x ∈ s, isValidHexChar x = true) →
            s.length ≤ 4 := by
        intro n hn4 hn a s b hasb hs
        rcases snoc_eq_append pre c (a ++ s) b hasb with hnil | ⟨b1, _, hpre⟩
        · rw [hnil, List.append_nil] at hasb
          exact le_trans (hsuffix n hn a s hasb hs) hn4
        · exact hinf a s b1 hpre hs
      rcases ip6Body_step ip pre post c _ st st1 hip hlen hb with
        ⟨hc, _, _, _, rfl⟩ | ⟨hc, _, _, rfl⟩ | ⟨hc, rfl⟩ |
        ⟨hc, _, _, ⟨_, _, rfl⟩ | ⟨_, rfl⟩⟩ | ⟨_, _, _, _, hw3, hx, rfl⟩
      · have hnot : isValidHexChar c = true → st.word.length + 1 ≤ st.word.length := by
          intro hx; rw [hc] at hx; exact absurd hx (by decide)
        exact ⟨hw, hsuffix _ hnot, hinfix _ hw hnot⟩
      · have hnot : isValidHexChar c = true → st.word.length + 1 ≤ st.word.length := by
          intro hx; rw [hc] at hx; exact absurd hx (by decide)
        exact ⟨hw, hsuffix _ hnot, hinfix _ hw hnot⟩
      · have hnot : isValidHexChar c = true → st.word.length + 1 ≤ 0 := by
          intro hx; rw [hc] at hx; exact absurd hx (by decide)
        exact ⟨Nat.zero_le _, hsuffix 0 hnot, hinfix 0 (by omega) hnot⟩
      · have hnot : isValidHexChar c = true → st.word.length + 1 ≤ 0 := by
          intro hx; rw [hc] at hx; exact absurd hx (by decide)
        exact ⟨Nat.zero_le _, hsuffix 0 hnot, hinfix 0 (by omega) hnot⟩
      · have hnot : isValidHexChar c = true → st.word.length + 1 ≤ 0 := by
          intro hx; rw [hc] at hx; exact absurd hx (by decide)
        exact ⟨Nat.zero_le _, hsuffix 0 hnot, hinfix 0 (by omega) hnot⟩
      · have hlen1 : (st.word ++ [c]).length = st.word.length + 1 := by simp
        refine ⟨by show (st.word ++ [c]).length ≤ 4; omega, ?_, ?_⟩
        · show ∀ a s, pre ++ [c] = a ++ s → (∀ x ∈ s, isValidHexChar x = true) →
            s.length ≤ (st.word ++ [c]).length
          rw [hlen1]
          exact hsuffix _ (fun _ => le_refl _)
        · exact hinfix (st.word.length + 1) (by omega) (fun _ => le_refl _))
  exact hP

end URIHelper

/-- C29: for a string of fewer than 2^31 characters (so that `int length` is its length),
whenever `isValidIP6Address` returns `true` the string contains at most seven ':'
characters, at most one pair of adjacent colons (a second "::" or a ":::" would make two
pairs), no ':' after a '.', and no run of more than four hexadecimal digits. -/
theorem isValidIP6Address_colons_and_runs (ip : List Char) (hlen : ip.length < 2147483648)
    (h : URIHelper.isValidIP6Address ip = .ok true) :
    ip.count ':' ≤ 7 ∧
    URIHelper.adjacentColonPairs ip ≤ 1 ∧
    (∀ pre post, ip = pre ++ '.' :: post → ':' ∉ post) ∧
    (∀ pre run post, ip = pre ++ run ++ post →
      (∀ c ∈ run, URIHelper.isValidHexChar c = true) → run.length ≤ 4) :=
  ⟨URIHelper.ip6_colon_count ip hlen h, URIHelper.ip6_double_colon ip hlen h,
   URIHelper.ip6_no_colon_after_period ip hlen h, URIHelper.ip6_hex_runs ip hlen h⟩

/-- Witness of C29: the accepted address ::ffff:1.2.3.4. -/
theorem isValidIP6Address_colons_and_runs_witness :
    ("::ffff:1.2.3.4".toList.length < 2147483648 ∧
      URIHelper.isValidIP6Address "::ffff:1.2.3.4".toList = .ok true) ∧
    ("::ffff:1.2.3.4".toList.count ':' ≤ 7 ∧
     URIHelper.adjacentColonPairs "::ffff:1.2.3.4".toList ≤ 1 ∧
     (∀ pre post, "::ffff:1.2.3.4".toList = pre ++ '.' :: post → ':' ∉ post) ∧
     (∀ pre run post, "::ffff:1.2.3.4".toList = pre ++ run ++ post →
       (∀ c ∈ run, URIHelper.isValidHexChar c = true) → run.length ≤ 4)) :=
  ⟨⟨by decide, by decide⟩,
   isValidIP6Address_colons_and_runs "::ffff:1.2.3.4".toList (by decide) (by decide)⟩

/-! ## isValidHost on a host with a bracket -/

namespace StdString

theorem findAux_lt (ch : Char) : ∀ (s : List Char) (i : Nat), ch ∈ s →
    findAux ch s i < i + s.length := by
  intro s
  induction s with
  | nil =>
    intro i h
    cases h
  | cons c rest ih =>
    intro i h
    rw [findAux]
    by_cases hc : c = ch
    · rw [if_pos hc, List.length_cons]
      omega
    · rw [if_neg hc, List.length_cons]
      have hm : ch ∈ rest := by
        rcases List.mem_cons.1 h with h1 | h1
        · exact absurd h1.symm hc
        · exact h1
      have := ih (i + 1) hm
      omega

theorem find_ne_npos (s : List Char) (ch : Char) (h : ch ∈ s) (hlen : s.length < 2147483648) :
    find s ch 0 ≠ npos := by
  have h1 := findAux_lt ch s 0 h
  unfold find npos
  rw [List.drop_zero]
  omega

theorem sizeSub_one (n : Nat) (h1 : 1 ≤ n) (h2 : n < 2147483648) : sizeSub n 1 = n - 1 := by
  unfold sizeSub
  omega

end StdString

namespace URIHelper

open StdString

theorem isValidHost_open (forceServer : Bool) (host : List Char) (last : Char) (valid : Bool)
    (h0 : charAt host 0 = .ok '[')
    (hl : charAt host (sizeSub host.length 1) = .ok last)
    (h6 : isValidIP6Address host = .ok valid) :
    isValidHost forceServer host =
      if last ≠ ']' then .error (.URISyntaxException "Host address does not end in ']'" 0)
      else if valid = true then .ok true
      else .error (.URISyntaxException "Host IPv6 address is not valid" (-1)) := by
  unfold isValidHost
  rw [h0, except_bind_ok, if_pos rfl, hl, except_bind_ok]
  by_cases hlast : last = ']'
  · rw [if_neg (not_not.2 hlast), if_neg (not_not.2 hlast), h6, except_bind_ok]
    cases valid
    · simp [catchAsURISyntaxException]
    · simp [catchAsURISyntaxException, except_pure]
  · rw [if_pos hlast, if_pos hlast]
    rfl

theorem isValidHost_stray (forceServer : Bool) (host : List Char) (first : Char)
    (h0 : charAt host 0 = .ok first) (hf : first ≠ '[')
    (hfind : find host '[' 0 ≠ npos ∨ find host ']' 0 ≠ npos) :
    isValidHost forceServer host =
      .error (.URISyntaxException "Unexpected '[' or ']' found in address" (-1)) := by
  unfold isValidHost
  rw [h0, except_bind_ok, if_neg hf]
  have hb : (decide (find host '[' 0 ≠ npos) || decide (find host ']' 0 ≠ npos)) = true := by
    rcases hfind with h | h
    · simp [h]
    · simp [h]
  rw [if_pos hb]
  rfl

end URIHelper

/-- What `isValidHost` does with a host of fewer than 2^31 characters that contains '['
or ']', for `forceServer` true and false alike: it returns `true` exactly if the first
character is '[', the last character is ']' and `isValidIP6Address` returns `true` for the
host, and then the host has no other bracket; for every other such host it raises
`URISyntaxException`. -/
theorem isValidHost_with_bracket (forceServer : Bool) (host : List Char)
    (hlen : host.length < 2147483648) (hbr : '[' ∈ host ∨ ']' ∈ host) :
    (URIHelper.isValidHost forceServer host = .ok true ↔
      host.head? = some '[' ∧ host.getLast? = some ']' ∧
        URIHelper.isValidIP6Address host = .ok true) ∧
    (URIHelper.isValidHost forceServer host = .ok true →
      (∀ k, host[k]? = some '[' → k = 0) ∧ (∀ k, host[k]? = some ']' → k + 1 = host.length)) ∧
    (URIHelper.isValidHost forceServer host ≠ .ok true →
      ∃ reason index, URIHelper.isValidHost forceServer host =
        .error (.URISyntaxException reason index)) ∧
    URIHelper.isValidHost true host = URIHelper.isValidHost false host := by
  have hne : 1 ≤ host.length := by
    rcases hbr with h | h <;> exact List.length_pos_of_mem h
  obtain ⟨first, h0⟩ := StdString.charAt_isOk host 0 (by omega)
  have hhead : host.head? = some first := URIHelper.charAt_first host first h0
  by_cases hf : first = '['
  · rw [hf] at h0 hhead
    obtain ⟨last, hl⟩ := StdString.charAt_isOk host (StdString.sizeSub host.length 1)
      (by rw [StdString.sizeSub_one _ hne hlen]; omega)
    have hlast : host.getLast? = some last := by
      have hl2 := hl
      rw [StdString.sizeSub_one _ hne hlen, StdString.charAt_eq_ok_iff] at hl2
      rw [List.getLast?_eq_getElem?]
      exact hl2
    obtain ⟨valid, h6⟩ := URIHelper.isValidIP6Address_isOk host
    have hev : ∀ fs, URIHelper.isValidHost fs host =
        if last ≠ ']' then .error (.URISyntaxException "Host address does not end in ']'" 0)
        else if valid = true then .ok true
        else .error (.URISyntaxException "Host IPv6 address is not valid" (-1)) :=
      fun fs => URIHelper.isValidHost_open fs host last valid h0 hl h6
    rw [hev forceServer, hev true, hev false, hhead, hlast, h6]
    by_cases hc : last = ']'
    · rw [if_neg (not_not.2 hc)]
      cases valid
      · refine ⟨?_, ?_, ?_, rfl⟩
        · simp
        · intro h
          simp at h
        · intro _
          exact ⟨_, _, rfl⟩
      · refine ⟨?_, ?_, ?_, rfl⟩
        · simp [hc]
        · intro _
          have hb := URIHelper.ip6_brackets host hlen h6
          exact ⟨hb.1, hb.2.1⟩
        · intro h
          simp at h
    · rw [if_pos hc]
      refine ⟨?_, ?_, ?_, rfl⟩
      · simp [hc]
      · intro h
        cases h
      · intro _
        exact ⟨_, _, rfl⟩
  · have hfind : StdString.find host '[' 0 ≠ StdString.npos ∨
        StdString.find host ']' 0 ≠ StdString.npos := by
      rcases hbr with h | h
      · exact Or.inl (StdString.find_ne_npos host '[' h hlen)
      · exact Or.inr (StdString.find_ne_npos host ']' h hlen)
    have hev : ∀ fs, URIHelper.isValidHost fs host =
        .error (.URISyntaxException "Unexpected '[' or ']' found in address" (-1)) :=
      fun fs => URIHelper.isValidHost_stray fs host first h0 hf hfind
    rw [hev forceServer, hev true, hev false, hhead]
    refine ⟨?_, ?_, ?_, rfl⟩
    · constructor
      · intro h
        cases h
      · intro h
        exact absurd (Option.some.inj h.1) hf
    · intro h
      cases h
    · intro _
      exact ⟨_, _, rfl⟩

/-- C22, at the failing input: the host "[1:2:3:4:5:6:7:]" begins with '[', ends with ']'
and has no other bracket, and `isValidHost` returns `true` for it with `forceServer` set
and unset. The text between the brackets is no IPv6 literal: it has seven ':' and no
"::", so it must consist of eight groups, and its last group, after the final ':', is
empty. `isValidIP6Address` accepts it. -/
theorem isValidHost_bracketed_trailing_colon :
    URIHelper.isValidHost true "[1:2:3:4:5:6:7:]".toList = .ok true ∧
    URIHelper.isValidHost false "[1:2:3:4:5:6:7:]".toList = .ok true ∧
    URIHelper.isValidIP6Address "[1:2:3:4:5:6:7:]".toList = .ok true ∧
    "1:2:3:4:5:6:7:".toList.count ':' = 7 ∧
    URIHelper.adjacentColonPairs "1:2:3:4:5:6:7:".toList = 0 ∧
    "1:2:3:4:5:6:7:".toList.getLast? = some ':' := by
  refine ⟨by decide, by decide, by decide, by decide, by decide, by decide⟩

/-! ## The registry invariant -/

namespace StlMap

theorem mem_setValue (m : StlMap) (key : String) (value : TransportFactoryPtr)
    (e : String × TransportFactoryPtr) (h : e ∈ m.setValue key value) :
    e = (key, value) ∨ e ∈ m := by
  induction m with
  | nil =>
    simp only [setValue, List.mem_singleton] at h
    exact Or.inl h
  | cons kv rest ih =>
    obtain ⟨k, v⟩ := kv
    rw [setValue] at h
    by_cases h1 : key = k
    · rw [if_pos h1] at h
      rcases List.mem_cons.1 h with h2 | h2
      · exact Or.inl h2
      · exact Or.inr (List.mem_cons_of_mem _ h2)
    · rw [if_neg h1] at h
      by_cases h2 : key < k
      · rw [if_pos h2] at h
        rcases List.mem_cons.1 h with h3 | h3
        · exact Or.inl h3
        · exact Or.inr h3
      · rw [if_neg h2] at h
        rcases List.mem_cons.1 h with h3 | h3
        · exact Or.inr (by rw [h3]; exact List.mem_cons_self _ _)
        · rcases ih h3 with h4 | h4
          · exact Or.inl h4
          · exact Or.inr (List.mem_cons_of_mem _ h4)

theorem mem_of_mem_remove (m : StlMap) (key : String) (e : String × TransportFactoryPtr)
    (h : e ∈ m.remove key) : e ∈ m :=
  List.mem_of_mem_filter h

theorem mem_of_getValue (m : StlMap) (key : String) (value : TransportFactoryPtr)
    (h : m.getValue key = .ok value) : ∃ e ∈ m, e.2 = value := by
  unfold getValue at h
  cases hf : m.find? (fun e => e.1 == key) with
  | none =>
    rw [hf] at h
    cases h
  | some e =>
    rw [hf] at h
    simp only [Except.ok.injEq] at h
    exact ⟨e, List.mem_of_find?_eq_some hf, h⟩

end StlMap

namespace TransportRegistry

theorem afterCall_invariant (r : TransportRegistry) (call : Call)
    (h : ∀ e ∈ r.registry, e.1 ≠ "" ∧ e.2 ≠ NULL) :
    ∀ e ∈ (r.afterCall call).registry, e.1 ≠ "" ∧ e.2 ≠ NULL := by
  cases call with
  | registerFactory name factory =>
    intro e he
    have he : e ∈ (r.registerFactory name factory).2.registry := he
    unfold registerFactory at he
    by_cases h1 : name = ""
    · rw [if_pos h1] at he
      exact h e he
    · rw [if_neg h1] at he
      by_cases h2 : factory = NULL
      · rw [if_pos h2] at he
        exact h e he
      · rw [if_neg h2] at he
        rcases StlMap.mem_setValue _ _ _ _ he with h3 | h3
        · rw [h3]
          exact ⟨h1, h2⟩
        · exact h e h3
  | unregisterFactory name =>
    intro e he
    have he : e ∈ (r.unregisterFactory name).2.registry := he
    unfold unregisterFactory at he
    by_cases h1 : r.registry.containsKey name = true
    · rw [if_pos h1] at he
      cases hv : r.registry.getValue name with
      | error x =>
        rw [hv] at he
        exact h e he
      | ok f =>
        rw [hv] at he
        exact h e (StlMap.mem_of_mem_remove _ _ _ he)
    · rw [if_neg h1] at he
      exact h e he

theorem foldl_afterCall_invariant (calls : List Call) :
    ∀ r : TransportRegistry, (∀ e ∈ r.registry, e.1 ≠ "" ∧ e.2 ≠ NULL) →
      ∀ e ∈ (calls.foldl afterCall r).registry, e.1 ≠ "" ∧ e.2 ≠ NULL := by
  induction calls with
  | nil => intro r h; exact h
  | cons call rest ih =>
    intro r h
    exact ih (r.afterCall call) (afterCall_invariant r call h)

end TransportRegistry

/-- C31: in every state reached from the empty registry by a sequence of `registerFactory`
and `unregisterFactory` calls, whether they return or throw, no entry has the empty name
and no entry holds the null pointer; hence `findFactory` never returns the null pointer in
such a state. -/
theorem registry_invariant (calls : List TransportRegistry.Call) :
    (∀ e ∈ (TransportRegistry.afterCalls calls).registry, e.1 ≠ "" ∧ e.2 ≠ NULL) ∧
    ∀ name, ((TransportRegistry.afterCalls calls).findFactory name).1 ≠ .ok NULL := by
  have hinv := TransportRegistry.foldl_afterCall_invariant calls TransportRegistry.empty
    (fun e he => by cases he)
  refine ⟨hinv, ?_⟩
  intro name hfind
  unfold TransportRegistry.findFactory at hfind
  split at hfind
  · cases hfind
  · obtain ⟨e, he, hnull⟩ := StlMap.mem_of_getValue _ _ _ hfind
    exact (hinv e he).2 hnull

/-! ## isValidIP4Word -/

theorem Integer.digitsValue_eq_foldl (s : List Char) :
    ∀ acc, (∀ c ∈ s, Character.isDigit c = true) →
      Integer.digitsValue s acc =
        some (s.foldl (fun a c => a * 10 + (c.toNat - '0'.toNat)) acc) := by
  induction s with
  | nil => intro acc _; rfl
  | cons c rest ih =>
    intro acc h
    rw [Integer.digitsValue, if_pos (h c (List.mem_cons_self _ _)),
      ih _ (fun d hd => h d (List.mem_cons_of_mem _ hd))]
    rfl

namespace URIHelper

open StdString

theorem parseInt_decimalValue (word : List Char) (hne : word ≠ [])
    (h : ∀ c ∈ word, Character.isDigit c = true) (hlen : word.length ≤ 3) :
    Integer.parseInt word = .ok (decimalValue word : Int) := by
  obtain ⟨v, hv, _⟩ := Integer.parseInt_digits word hne h hlen
  obtain ⟨w, hw, _⟩ := Integer.digitsValue_digits word 0 h
  have hfold := Integer.digitsValue_eq_foldl word 0 h
  have hval : Integer.digitsValue word 0 = some (decimalValue word) := hfold
  have h1000 : decimalValue word < 1000 := by
    rw [hval] at hw
    cases hw
    have : 10 ^ word.length ≤ 10 ^ 3 := Nat.pow_le_pow_right (by decide) hlen
    omega
  unfold Integer.parseInt
  split
  · exact absurd rfl hne
  · have hminus : Character.isDigit '-' = false := by decide
    have := h '-' (List.mem_cons_self _ _)
    rw [hminus] at this
    cases this
  · have hle : decimalValue word ≤ 2147483647 := by omega
    simp [hval, hle]

theorem isValidIP4WordLoop_of_digits (word : List Char) :
    ∀ (n i : Nat), i + n = word.length → (∀ c ∈ word.drop i, Character.isDigit c = true) →
      isValidIP4WordLoop word n i = .ok true := by
  intro n
  induction n with
  | zero => intro i _ _; rfl
  | succ n ih =>
    intro i hi h
    rw [isValidIP4WordLoop]
    obtain ⟨ch, hch⟩ := charAt_isOk word i (by omega)
    obtain ⟨rest, hdrop⟩ := charAt_eq_drop word i ch hch
    have hd : Character.isDigit ch = true := h ch (by rw [hdrop]; exact List.mem_cons_self _ _)
    have hrest : word.drop (i + 1) = rest := by
      rw [← List.drop_drop, hdrop]
      rfl
    rw [hch, except_bind_ok, hd]
    simp only [Bool.not_true, Bool.false_eq_true, if_false]
    exact ih (i + 1) (by omega) (fun c hc => h c (by
      rw [hdrop]
      rw [hrest] at hc
      exact List.mem_cons_of_mem _ hc))

theorem isValidIP4Word_eval (word : List Char) :
    isValidIP4Word word = .ok true ↔
      1 ≤ word.length ∧ word.length ≤ 3 ∧ (∀ c ∈ word, Character.isDigit c = true) ∧
        decimalValue word ≤ 255 := by
  unfold isValidIP4Word
  by_cases hlen : (decide (word.length < 1) || decide (word.length > 3)) = true
  · rw [if_pos hlen, except_pure]
    simp only [Bool.or_eq_true, decide_eq_true_eq] at hlen
    constructor
    · intro h
      cases h
    · intro h
      omega
  · rw [if_neg hlen]
    simp only [Bool.or_eq_true, decide_eq_true_eq, not_or, not_lt] at hlen
    have hne : word ≠ [] := by
      intro h
      rw [h] at hlen
      simp at hlen
    obtain ⟨digits, hd⟩ := isValidIP4WordLoop_isOk word word.length 0 (by omega)
    rw [hd, except_bind_ok]
    cases digits
    · simp only [Bool.not_false, if_true, except_pure]
      constructor
      · intro h
        cases h
      · intro h
        have := isValidIP4WordLoop_of_digits word word.length 0 (by omega)
          (by rw [List.drop_zero]; exact h.2.2.1)
        rw [this] at hd
        cases hd
    · have hall := isValidIP4WordLoop_true word word.length 0 (by omega) hd
      rw [List.drop_zero] at hall
      simp only [Bool.not_true, Bool.false_eq_true, if_false]
      rw [parseInt_decimalValue word hne hall (by omega), except_bind_ok]
      by_cases hv : ((decimalValue word : Nat) : Int) > 255
      · rw [if_pos hv, except_pure]
        constructor
        · intro h
          cases h
        · intro h
          omega
      · rw [if_neg hv, except_pure]
        constructor
        · intro _
          exact ⟨by omega, by omega, hall, by omega⟩
        · intro _
          rfl

end URIHelper

/-- C33: `isValidIP4Word( word )` never raises, and it returns `true` exactly if `word`
consists of one to three decimal digits and the number they denote is at most 255. -/
theorem isValidIP4Word_iff (word : List Char) :
    (∃ b, URIHelper.isValidIP4Word word = .ok b) ∧
    (URIHelper.isValidIP4Word word = .ok true ↔
      1 ≤ word.length ∧ word.length ≤ 3 ∧ (∀ c ∈ word, Character.isDigit c = true) ∧
        URIHelper.decimalValue word ≤ 255) :=
  ⟨URIHelper.isValidIP4Word_isOk word, URIHelper.isValidIP4Word_eval word⟩

/-! ## validateUserinfo -/

namespace StdString

theorem findAux_append (ch : Char) (rest : List Char) : ∀ (u : List Char) (i : Nat),
    ch ∉ u → findAux ch (u ++ ch :: rest) i = i + u.length := by
  intro u
  induction u with
  | nil =>
    intro i _
    rw [List.nil_append, findAux, if_pos rfl]
    rfl
  | cons c u2 ih =>
    intro i h
    have hc : c ≠ ch := fun e => h (by rw [e]; exact List.mem_cons_self _ _)
    have hu : ch ∉ u2 := fun e => h (List.mem_cons_of_mem _ e)
    rw [List.cons_append, findAux, if_neg hc, ih (i + 1) hu, List.length_cons]
    omega

theorem find_append (ch : Char) (u rest : List Char) (h : ch ∉ u) :
    find (u ++ ch :: rest) ch 0 = u.length := by
  unfold find
  rw [List.drop_zero, findAux_append ch rest u 0 h, Nat.zero_add]

theorem substr_prefix (u rest : List Char) : substr (u ++ rest) 0 u.length = .ok u := by
  unfold substr
  rw [if_neg (by omega), List.drop_zero, List.take_left]

end StdString

namespace URIHelper

open StdString

theorem validateUserinfoLoop_clean (index : Nat) : ∀ (todo done : List Char),
    '[' ∉ todo → ']' ∉ todo →
      validateUserinfoLoop (done ++ todo) index todo.length done.length = .ok () := by
  intro todo
  induction todo with
  | nil => intro done _ _; rfl
  | cons c rest ih =>
    intro done h1 h2
    have hc1 : c ≠ '[' := fun e => h1 (by rw [e]; exact List.mem_cons_self _ _)
    have hc2 : c ≠ ']' := fun e => h2 (by rw [e]; exact List.mem_cons_self _ _)
    rw [List.length_cons, validateUserinfoLoop, charAt_append, except_bind_ok]
    have hb : (decide (c = ']') || decide (c = '[')) = false := by simp [hc1, hc2]
    rw [hb]
    simp only [Bool.false_eq_true, if_false]
    have := ih (done ++ [c]) (fun e => h1 (List.mem_cons_of_mem _ e))
      (fun e => h2 (List.mem_cons_of_mem _ e))
    rw [List.append_assoc, List.length_append, List.length_singleton] at this
    exact this

theorem validateUserinfoLoop_bracket (index : Nat) (c : Char) (post : List Char)
    (hc : c = '[' ∨ c = ']') : ∀ (pre done : List Char), '[' ∉ pre → ']' ∉ pre →
      validateUserinfoLoop (done ++ (pre ++ c :: post)) index (pre ++ c :: post).length
          done.length =
        .error (.URISyntaxException "User Info cannot contain '[' or ']'"
          (toInt (sizeAdd index (done.length + pre.length)))) := by
  intro pre
  induction pre with
  | nil =>
    intro done _ _
    rw [List.nil_append, List.length_cons, validateUserinfoLoop, charAt_append,
      except_bind_ok]
    have hb : (decide (c = ']') || decide (c = '[')) = true := by
      rcases hc with h | h <;> simp [h]
    rw [hb, if_pos rfl]
    rfl
  | cons d pre2 ih =>
    intro done h1 h2
    have hd1 : d ≠ '[' := fun e => h1 (by rw [e]; exact List.mem_cons_self _ _)
    have hd2 : d ≠ ']' := fun e => h2 (by rw [e]; exact List.mem_cons_self _ _)
    rw [List.cons_append, List.length_cons, validateUserinfoLoop, charAt_append,
      except_bind_ok]
    have hb : (decide (d = ']') || decide (d = '[')) = false := by simp [hd1, hd2]
    rw [hb]
    simp only [Bool.false_eq_true, if_false]
    have := ih (done ++ [d]) (fun e => h1 (List.mem_cons_of_mem _ e))
      (fun e => h2 (List.mem_cons_of_mem _ e))
    have hl : (done ++ [d]).length = done.length + 1 := by simp
    rw [List.append_assoc, hl] at this
    rw [List.length_cons]
    have hsum : done.length + (pre2.length + 1) = done.length + 1 + pre2.length := by omega
    rw [hsum]
    exact this

theorem first_bracket (s : List Char) (h : '[' ∈ s ∨ ']' ∈ s) :
    ∃ pre c post, s = pre ++ c :: post ∧ '[' ∉ pre ∧ ']' ∉ pre ∧ (c = '[' ∨ c = ']') := by
  induction s with
  | nil => rcases h with h | h <;> cases h
  | cons d rest ih =>
    by_cases hd : d = '[' ∨ d = ']'
    · exact ⟨[], d, rest, rfl, List.not_mem_nil _, List.not_mem_nil _, hd⟩
    · have hd1 : d ≠ '[' := fun e => hd (Or.inl e)
      have hd2 : d ≠ ']' := fun e => hd (Or.inr e)
      have hrest : '[' ∈ rest ∨ ']' ∈ rest := by
        rcases h with h | h
        · rcases List.mem_cons.1 h with h1 | h1
          · exact absurd h1.symm hd1
          · exact Or.inl h1
        · rcases List.mem_cons.1 h with h1 | h1
          · exact absurd h1.symm hd2
          · exact Or.inr h1
      obtain ⟨pre, c, post, hs, h1, h2, hc⟩ := ih hrest
      refine ⟨d :: pre, c, post, by rw [hs]; rfl, ?_, ?_, hc⟩
      · intro e
        rcases List.mem_cons.1 e with e1 | e1
        · exact hd1 e1.symm
        · exact h1 e1
      · intro e
        rcases List.mem_cons.1 e with e1 | e1
        · exact hd2 e1.symm
        · exact h2 e1

theorem parseAuthority_userinfo (forceServer : Bool) (userinfo rest : List Char)
    (reason : String) (i : Int) (hat : '@' ∉ userinfo)
    (hlen : userinfo.length < 2147483648)
    (h : validateUserinfo userinfo 0 = .error (.URISyntaxException reason i)) :
    parseAuthority forceServer (userinfo ++ '@' :: rest) =
      .error (.URISyntaxException reason i) := by
  have hne : ¬ (userinfo ++ '@' :: rest = []) := by simp
  have hfind : find (userinfo ++ '@' :: rest) '@' 0 = userinfo.length :=
    find_append '@' userinfo rest hat
  have hnpos : userinfo.length ≠ npos := by
    unfold npos
    omega
  unfold parseAuthority
  rw [if_neg hne]
  dsimp only
  rw [hfind, if_pos hnpos, substr_prefix, except_bind_ok, h, except_bind_error,
    except_bind_error]
  rfl

end URIHelper

/-- C32: `validateUserinfo( uri, userinfo, index )` returns when `userinfo` has no '[' and
no ']', and otherwise raises `URISyntaxException` with index `index` plus the position of
the first such character (`index` plus the length of `userinfo` being inside the `int`
range); and when `userinfo` is the text before the first '@' of an authority,
`parseAuthority` raises what `validateUserinfo( authority, userinfo, 0 )` raises, whatever
`forceServer` is. -/
theorem validateUserinfo_spec (userinfo : List Char) (index : Nat)
    (hlen : index + userinfo.length < 2147483648) :
    (('[' ∉ userinfo ∧ ']' ∉ userinfo) → URIHelper.validateUserinfo userinfo index = .ok ()) ∧
    (∀ pre c post, userinfo = pre ++ c :: post → '[' ∉ pre → ']' ∉ pre →
      (c = '[' ∨ c = ']') →
      URIHelper.validateUserinfo userinfo index =
        .error (.URISyntaxException "User Info cannot contain '[' or ']'"
          ((index + pre.length : Nat) : Int))) ∧
    ((∃ reason i, URIHelper.validateUserinfo userinfo index =
        .error (.URISyntaxException reason i)) ↔ ('[' ∈ userinfo ∨ ']' ∈ userinfo)) ∧
    (∀ forceServer rest reason i, '@' ∉ userinfo →
      URIHelper.validateUserinfo userinfo 0 = .error (.URISyntaxException reason i) →
      URIHelper.parseAuthority forceServer (userinfo ++ '@' :: rest) =
        .error (.URISyntaxException reason i)) := by
  have hclean : ('[' ∉ userinfo ∧ ']' ∉ userinfo) →
      URIHelper.validateUserinfo userinfo index = .ok () := by
    intro h
    have := URIHelper.validateUserinfoLoop_clean index userinfo [] h.1 h.2
    exact this
  have hbracket : ∀ pre c post, userinfo = pre ++ c :: post → '[' ∉ pre → ']' ∉ pre →
      (c = '[' ∨ c = ']') →
      URIHelper.validateUserinfo userinfo index =
        .error (.URISyntaxException "User Info cannot contain '[' or ']'"
          ((index + pre.length : Nat) : Int)) := by
    intro pre c post hu h1 h2 hc
    have hpre : pre.length ≤ userinfo.length := by
      rw [hu, List.length_append]
      omega
    have := URIHelper.validateUserinfoLoop_bracket index c post hc pre [] h1 h2
    rw [List.nil_append, List.length_nil, Nat.zero_add, ← hu] at this
    have hidx : StdString.toInt (StdString.sizeAdd index pre.length) =
        ((index + pre.length : Nat) : Int) := by
      have hs : StdString.sizeAdd index pre.length = index + pre.length := by
        unfold StdString.sizeAdd
        omega
      rw [hs]
      exact StdString.toInt_small _ (by omega)
    rw [hidx] at this
    exact this
  refine ⟨hclean, hbracket, ⟨?_, ?_⟩, ?_⟩
  · rintro ⟨reason, i, h⟩
    by_contra hno
    have hc := hclean ⟨fun e => hno (Or.inl e), fun e => hno (Or.inr e)⟩
    rw [hc] at h
    cases h
  · intro h
    obtain ⟨pre, c, post, hu, h1, h2, hc⟩ := URIHelper.first_bracket userinfo h
    exact ⟨_, _, hbracket pre c post hu h1 h2 hc⟩
  · intro forceServer rest reason i hat h
    exact URIHelper.parseAuthority_userinfo forceServer userinfo rest reason i hat
      (by omega) h

/-- Witness of C32: the user info "us[er" of the authority "us[er@host", checked from
index 3. -/
theorem validateUserinfo_spec_witness :
    3 + "us[er".toList.length < 2147483648 ∧
    URIHelper.validateUserinfo "us[er".toList 3 =
      .error (.URISyntaxException "User Info cannot contain '[' or ']'" 5) ∧
    URIHelper.parseAuthority false "us[er@host".toList =
      .error (.URISyntaxException "User Info cannot contain '[' or ']'" 2) ∧
    URIHelper.parseAuthority true "us[er@host".toList =
      .error (.URISyntaxException "User Info cannot contain '[' or ']'" 2) :=
  ⟨by decide,
   (validateUserinfo_spec "us[er".toList 3 (by decide)).2.1 "us".toList '[' "er".toList
     (by decide) (by decide) (by decide) (Or.inl rfl),
   (validateUserinfo_spec "us[er".toList 3 (by decide)).2.2.2 false "host".toList _ 2
     (by decide) (by decide),
   (validateUserinfo_spec "us[er".toList 3 (by decide)).2.2.2 true "host".toList _ 2
     (by decide) (by decide)⟩
